import Mathlib

/-!
# Bank driver: the teller operations of `teller.c`

A shallow embedding of `Teller_DoDeposit`, `Teller_DoWithdraw` and
`Teller_DoTransfer` (src/teller.c) over the ledger of `bank.h`.

* Amounts (`AccountAmount`, a signed 64-bit integer in C) are `Int`. Signed
  overflow is undefined behaviour in C and the specification of `adjust`
  excludes it, so balances are added without wrap-around.
* A call is executed by one thread on a ledger none of whose locks is held.
  Every `sem_wait` / `sem_post`, every balance read and every balance write
  is appended to the event log of the call; a `sem_wait` on a semaphore whose
  value (1 at entry, minus the waits, plus the posts logged so far) is zero
  blocks for ever, and so does not return.
* `none` as the result of an operation means that the call does not return:
  its `assert` failed or it blocked on a semaphore.
* Calls that run together on several threads are interleavings of their event
  logs over shared semaphores: a step is one event of one thread, and a thread
  whose next event is a `sem_wait` on a semaphore at zero is suspended.
-/

namespace BankDriver

/-! ## Data model -/

abbrev AccountNumber := Nat
abbrev AccountAmount := Int
abbrev BranchID := Nat

/-- Modelled from the spec: the result codes of `error.h` (not under src/), the three
kinds the teller operations return. -/
inductive ErrorCode where
  | ERROR_SUCCESS
  | ERROR_ACCOUNT_NOT_FOUND
  | ERROR_INSUFFICIENT_FUNDS
  deriving DecidableEq, Repr

open ErrorCode

/-- Modelled from the spec: `struct Account` of `account.h` (not under src/): the account
number and the balance. Its `lock` field is addressed through `LockId.account`. -/
structure Account where
  accountNumber : AccountNumber
  balance : AccountAmount
  deriving DecidableEq, Repr

/-- Modelled from the spec: `struct Branch` of `branch.h` (not under src/): the cached
balance and the fixed sequence of accounts; the branch index is the position in
`Bank.branches`. Its `lock` field is addressed through `LockId.branch`. -/
structure Branch where
  balance : AccountAmount
  accounts : List Account
  deriving DecidableEq, Repr

/-- The ledger, `struct Bank` of `bank.h`: `branches` with `numberBranches` as its
length. The worker counters, the barrier semaphores and the report pointer are
neither read nor written by `teller.c`. -/
structure Bank where
  branches : List Branch
  deriving DecidableEq, Repr

/-- An `Account *`: the branch holding the account and the position in it. -/
structure AccountRef where
  branch : BranchID
  index : Nat
  deriving DecidableEq, Repr

/-- The address of a semaphore: `account->lock` or `bank->branches[b].lock`. -/
inductive LockId where
  | account (a : AccountRef)
  | branch (b : BranchID)
  deriving DecidableEq, Repr

/-- What a call does to shared state, in program order. -/
inductive Event where
  | wait (l : LockId)
  | post (l : LockId)
  | readBalance (a : AccountRef)
  | writeBalance (a : AccountRef)
  | writeBranch (b : BranchID)
  deriving DecidableEq, Repr

/-- The state of one call: the ledger and the events logged so far. -/
structure Sim where
  bank : Bank
  trace : List Event
  deriving DecidableEq, Repr

/-! ## Array access -/

/-- In-place update of the `n`-th cell of an array; out of range leaves it as it is. -/
def updateAt {α : Type} (f : α → α) : Nat → List α → List α
  | _, [] => []
  | 0, x :: xs => f x :: xs
  | n + 1, x :: xs => x :: updateAt f n xs

/-- The account behind a pointer. -/
def Bank.account? (bank : Bank) (a : AccountRef) : Option Account :=
  match bank.branches[a.branch]? with
  | none => none
  | some br => br.accounts[a.index]?

/-- The field `account->accountNumber`. -/
def Bank.accountNumberAt (bank : Bank) (a : AccountRef) : AccountNumber :=
  match bank.account? a with
  | none => 0
  | some acc => acc.accountNumber

/-- The field `account->balance`. -/
def Bank.balanceAt (bank : Bank) (a : AccountRef) : AccountAmount :=
  match bank.account? a with
  | none => 0
  | some acc => acc.balance

/-- The field `bank->branches[b].balance`. -/
def Bank.branchBalance (bank : Bank) (b : BranchID) : AccountAmount :=
  match bank.branches[b]? with
  | none => 0
  | some br => br.balance

/-! ## Account module (`account.c`, not under src/) -/

/-- Modelled from the spec: `AccountNum_GetBranchID` of `account.h` (not under src/), the
branch index held in the high-order bits of an account number, above the
`offsetBits` low-order bits of the in-branch offset. -/
def AccountNum_GetBranchID (offsetBits : Nat) (accountNum : AccountNumber) : BranchID :=
  accountNum / 2 ^ offsetBits

/-- Modelled from the spec: the in-branch offset of `account.h` (not under src/), the
`offsetBits` low-order bits of an account number. -/
def AccountNum_GetAccountIndex (offsetBits : Nat) (accountNum : AccountNumber) : Nat :=
  accountNum % 2 ^ offsetBits

/-- Modelled from the spec: `Account_IsSameBranch` of `account.c` (not under src/): both
account numbers encode the same branch index. -/
def Account_IsSameBranch (offsetBits : Nat) (accountNum1 accountNum2 : AccountNumber) : Bool :=
  AccountNum_GetBranchID offsetBits accountNum1 == AccountNum_GetBranchID offsetBits accountNum2

/-- Modelled from the spec: `Account_LookupByNumber` of `account.c` (not under src/): the
account at the encoded offset of the encoded branch, `NULL` when the number
resolves to no account of the ledger. -/
def Account_LookupByNumber (offsetBits : Nat) (bank : Bank) (accountNum : AccountNumber) :
    Option AccountRef :=
  match bank.branches[AccountNum_GetBranchID offsetBits accountNum]? with
  | none => none
  | some br =>
    if AccountNum_GetAccountIndex offsetBits accountNum < br.accounts.length then
      some ⟨AccountNum_GetBranchID offsetBits accountNum,
            AccountNum_GetAccountIndex offsetBits accountNum⟩
    else none

/-- Append one event to the log of the call. -/
def Sim.log (s : Sim) (e : Event) : Sim :=
  { s with trace := s.trace ++ [e] }

/-- Modelled from the spec: `Account_Balance` of `account.c` (not under src/): reads
`account->balance`. -/
def Account_Balance (account : AccountRef) (s : Sim) : AccountAmount × Sim :=
  (s.bank.balanceAt account, s.log (Event.readBalance account))

/-- The branch after `balance += amount` on its account at offset `i`. -/
def Branch.addToAccount (br : Branch) (i : Nat) (amount : AccountAmount) : Branch :=
  { br with
    accounts := updateAt (fun acc => { acc with balance := acc.balance + amount }) i br.accounts }

/-- The ledger after `account->balance += amount`. -/
def Bank.addToAccount (bank : Bank) (a : AccountRef) (amount : AccountAmount) : Bank :=
  { branches := updateAt (fun br => br.addToAccount a.index amount) a.branch bank.branches }

/-- The ledger after `bank->branches[b].balance += amount`. -/
def Bank.addToBranch (bank : Bank) (b : BranchID) (amount : AccountAmount) : Bank :=
  { branches := updateAt (fun br => { br with balance := br.balance + amount }) b bank.branches }

/-- Modelled from the spec: `Account_Adjust` of `account.c` (not under src/):
`account.balance += delta`; if `update_branch_balance`, the cached balance of the
branch owning the account `+= delta`. Nothing else is touched. -/
def Account_Adjust (account : AccountRef) (amount : AccountAmount) (updateBranch : Bool)
    (s : Sim) : Sim :=
  let s1 : Sim :=
    { bank := s.bank.addToAccount account amount,
      trace := s.trace ++ [Event.writeBalance account] }
  if updateBranch then
    { bank := s1.bank.addToBranch account.branch amount,
      trace := s1.trace ++ [Event.writeBranch account.branch] }
  else s1

/-! ## Semaphores -/

/-- The value of semaphore `l` after the logged events, from its value 1 at entry. -/
def semValue (l : LockId) (trace : List Event) : Nat :=
  trace.foldl
    (fun v e =>
      match e with
      | Event.wait l1 => if l1 = l then v - 1 else v
      | Event.post l1 => if l1 = l then v + 1 else v
      | _ => v)
    1

/-- The call `sem_wait(&lock)`: takes the semaphore, or blocks when its value is zero. -/
def sem_wait (l : LockId) (s : Sim) : Option Sim :=
  if semValue l s.trace = 0 then none else some (s.log (Event.wait l))

/-- The call `sem_post(&lock)`. -/
def sem_post (l : LockId) (s : Sim) : Sim :=
  s.log (Event.post l)

/-! ## Teller operations (`teller.c`) -/

/-- The function `Teller_DoDeposit` (teller.c, lines 16-39). -/
def Teller_DoDeposit (offsetBits : Nat) (bank : Bank) (accountNum : AccountNumber)
    (amount : AccountAmount) : Option (ErrorCode × Sim) :=
  if amount < 0 then none else
  let s : Sim := { bank := bank, trace := [] }
  match Account_LookupByNumber offsetBits bank accountNum with
  | none => some (ERROR_ACCOUNT_NOT_FOUND, s)
  | some account => do
    let s ← sem_wait (LockId.account account) s
    let s ← sem_wait (LockId.branch (AccountNum_GetBranchID offsetBits accountNum)) s
    let s := Account_Adjust account amount true s
    let s := sem_post (LockId.account account) s
    let s := sem_post (LockId.branch (AccountNum_GetBranchID offsetBits accountNum)) s
    some (ERROR_SUCCESS, s)

/-- The function `Teller_DoWithdraw` (teller.c, lines 44-74). -/
def Teller_DoWithdraw (offsetBits : Nat) (bank : Bank) (accountNum : AccountNumber)
    (amount : AccountAmount) : Option (ErrorCode × Sim) :=
  if amount < 0 then none else
  let s : Sim := { bank := bank, trace := [] }
  match Account_LookupByNumber offsetBits bank accountNum with
  | none => some (ERROR_ACCOUNT_NOT_FOUND, s)
  | some account => do
    let s ← sem_wait (LockId.account account) s
    let s ← sem_wait (LockId.branch (AccountNum_GetBranchID offsetBits accountNum)) s
    let (balance, s) := Account_Balance account s
    if amount > balance then
      let s := sem_post (LockId.account account) s
      let s := sem_post (LockId.branch (AccountNum_GetBranchID offsetBits accountNum)) s
      some (ERROR_INSUFFICIENT_FUNDS, s)
    else
      let s := Account_Adjust account (-amount) true s
      let s := sem_post (LockId.account account) s
      let s := sem_post (LockId.branch (AccountNum_GetBranchID offsetBits accountNum)) s
      some (ERROR_SUCCESS, s)

/-- Lines 111-131 of `Teller_DoTransfer`: the funds check and the two adjustments of
a transfer inside one branch, entered after the `if / else if` of lines 101-109. -/
def Teller_DoTransfer.sameBranch (offsetBits : Nat) (srcAccountNum dstAccountNum : AccountNumber)
    (srcAccount dstAccount : AccountRef) (amount : AccountAmount) (s : Sim) :
    ErrorCode × Sim :=
  let (balance, s) := Account_Balance srcAccount s
  if amount > balance then
    let s := sem_post (LockId.account srcAccount) s
    let s := sem_post (LockId.account dstAccount) s
    (ERROR_INSUFFICIENT_FUNDS, s)
  else
    let updateBranch : Bool := !Account_IsSameBranch offsetBits srcAccountNum dstAccountNum
    let s := Account_Adjust srcAccount (-amount) updateBranch s
    let s := Account_Adjust dstAccount amount updateBranch s
    let s := sem_post (LockId.account srcAccount) s
    let s := sem_post (LockId.account dstAccount) s
    (ERROR_SUCCESS, s)

/-- Lines 146-170 of `Teller_DoTransfer`: the funds check and the two adjustments of
a transfer between two branches, entered with the four locks taken. -/
def Teller_DoTransfer.crossBranch (offsetBits : Nat) (srcAccountNum dstAccountNum : AccountNumber)
    (srcAccount dstAccount : AccountRef) (amount : AccountAmount) (s : Sim) :
    ErrorCode × Sim :=
  let (balance, s) := Account_Balance srcAccount s
  if amount > balance then
    let s := sem_post (LockId.account srcAccount) s
    let s := sem_post (LockId.account dstAccount) s
    let s := sem_post (LockId.branch (AccountNum_GetBranchID offsetBits srcAccountNum)) s
    let s := sem_post (LockId.branch (AccountNum_GetBranchID offsetBits dstAccountNum)) s
    (ERROR_INSUFFICIENT_FUNDS, s)
  else
    let updateBranch : Bool := !Account_IsSameBranch offsetBits srcAccountNum dstAccountNum
    let s := Account_Adjust srcAccount (-amount) (!updateBranch) s
    let s := Account_Adjust dstAccount amount (!updateBranch) s
    let s := sem_post (LockId.account srcAccount) s
    let s := sem_post (LockId.account dstAccount) s
    let s := sem_post (LockId.branch (AccountNum_GetBranchID offsetBits srcAccountNum)) s
    let s := sem_post (LockId.branch (AccountNum_GetBranchID offsetBits dstAccountNum)) s
    (ERROR_SUCCESS, s)

/-- The function `Teller_DoTransfer` (teller.c, lines 79-171). -/
def Teller_DoTransfer (offsetBits : Nat) (bank : Bank) (srcAccountNum dstAccountNum : AccountNumber)
    (amount : AccountAmount) : Option (ErrorCode × Sim) :=
  if amount < 0 then none else
  let s : Sim := { bank := bank, trace := [] }
  match Account_LookupByNumber offsetBits bank srcAccountNum with
  | none => some (ERROR_ACCOUNT_NOT_FOUND, s)
  | some srcAccount =>
  match Account_LookupByNumber offsetBits bank dstAccountNum with
  | none => some (ERROR_ACCOUNT_NOT_FOUND, s)
  | some dstAccount =>
  if Account_IsSameBranch offsetBits srcAccountNum dstAccountNum then
    if bank.accountNumberAt srcAccount < bank.accountNumberAt dstAccount then do
      let s ← sem_wait (LockId.account srcAccount) s
      let s ← sem_wait (LockId.account dstAccount) s
      some (Teller_DoTransfer.sameBranch offsetBits srcAccountNum dstAccountNum
        srcAccount dstAccount amount s)
    else if bank.accountNumberAt srcAccount > bank.accountNumberAt dstAccount then do
      let s ← sem_wait (LockId.account dstAccount) s
      let s ← sem_wait (LockId.account srcAccount) s
      some (Teller_DoTransfer.sameBranch offsetBits srcAccountNum dstAccountNum
        srcAccount dstAccount amount s)
    else if bank.accountNumberAt srcAccount = bank.accountNumberAt dstAccount then
      some (ERROR_SUCCESS, s)
    else
      some (Teller_DoTransfer.sameBranch offsetBits srcAccountNum dstAccountNum
        srcAccount dstAccount amount s)
  else if AccountNum_GetBranchID offsetBits srcAccountNum
      < AccountNum_GetBranchID offsetBits dstAccountNum then do
    let s ← sem_wait (LockId.account srcAccount) s
    let s ← sem_wait (LockId.account dstAccount) s
    let s ← sem_wait (LockId.branch (AccountNum_GetBranchID offsetBits srcAccountNum)) s
    let s ← sem_wait (LockId.branch (AccountNum_GetBranchID offsetBits dstAccountNum)) s
    some (Teller_DoTransfer.crossBranch offsetBits srcAccountNum dstAccountNum
      srcAccount dstAccount amount s)
  else do
    let s ← sem_wait (LockId.account dstAccount) s
    let s ← sem_wait (LockId.account srcAccount) s
    let s ← sem_wait (LockId.branch (AccountNum_GetBranchID offsetBits dstAccountNum)) s
    let s ← sem_wait (LockId.branch (AccountNum_GetBranchID offsetBits srcAccountNum)) s
    some (Teller_DoTransfer.crossBranch offsetBits srcAccountNum dstAccountNum
      srcAccount dstAccount amount s)

/-! ## Ledger predicates -/

/-- The sum of the balances of the accounts of a branch. -/
def Branch.accountSum (br : Branch) : AccountAmount :=
  (br.accounts.map (fun acc => acc.balance)).sum

/-- Branch aggregate consistency: every cached branch balance is the sum of the
balances of the accounts of the branch. -/
def Bank.Consistent (bank : Bank) : Prop :=
  ∀ br ∈ bank.branches, br.balance = br.accountSum

instance (bank : Bank) : Decidable bank.Consistent := by
  unfold Bank.Consistent; infer_instance

/-- The sum of all account balances of the ledger. -/
def Bank.totalAccounts (bank : Bank) : AccountAmount :=
  (bank.branches.map Branch.accountSum).sum

/-- The account stored at offset `i` of branch `b` carries the number that encodes
`b` and `i`, as the ledger is built. -/
def Bank.WellFormed (offsetBits : Nat) (bank : Bank) : Prop :=
  ∀ b < bank.branches.length, ∀ i < (bank.branches.getD b ⟨0, []⟩).accounts.length,
    bank.accountNumberAt ⟨b, i⟩ = b * 2 ^ offsetBits + i

instance (offsetBits : Nat) (bank : Bank) : Decidable (bank.WellFormed offsetBits) := by
  unfold Bank.WellFormed; infer_instance

/-! ## Lock order of a transfer -/

/-- The two `sem_wait` of a transfer inside one branch (lines 101-106). -/
def sameBranchWaits (bank : Bank) (rs rd : AccountRef) : List Event :=
  if bank.accountNumberAt rs < bank.accountNumberAt rd then
    [Event.wait (LockId.account rs), Event.wait (LockId.account rd)]
  else
    [Event.wait (LockId.account rd), Event.wait (LockId.account rs)]

/-- The four `sem_wait` of a transfer between two branches (lines 134-144). -/
def crossBranchWaits (offsetBits : Nat) (src dst : AccountNumber) (rs rd : AccountRef) :
    List Event :=
  if AccountNum_GetBranchID offsetBits src < AccountNum_GetBranchID offsetBits dst then
    [Event.wait (LockId.account rs), Event.wait (LockId.account rd),
     Event.wait (LockId.branch (AccountNum_GetBranchID offsetBits src)),
     Event.wait (LockId.branch (AccountNum_GetBranchID offsetBits dst))]
  else
    [Event.wait (LockId.account rd), Event.wait (LockId.account rs),
     Event.wait (LockId.branch (AccountNum_GetBranchID offsetBits dst)),
     Event.wait (LockId.branch (AccountNum_GetBranchID offsetBits src))]

/-! ## Sequences of calls -/

/-- One call of a teller operation, as a worker issues it. -/
inductive Op where
  | deposit (accountNum : AccountNumber) (amount : AccountAmount)
  | withdraw (accountNum : AccountNumber) (amount : AccountAmount)
  | transfer (srcAccountNum dstAccountNum : AccountNumber) (amount : AccountAmount)
  deriving DecidableEq, Repr

/-- The amount argument of a call. -/
def Op.amount : Op → AccountAmount
  | Op.deposit _ amount => amount
  | Op.withdraw _ amount => amount
  | Op.transfer _ _ amount => amount

/-- Executes one call on the ledger. -/
def Op.run (offsetBits : Nat) (bank : Bank) : Op → Option (ErrorCode × Sim)
  | Op.deposit accountNum amount => Teller_DoDeposit offsetBits bank accountNum amount
  | Op.withdraw accountNum amount => Teller_DoWithdraw offsetBits bank accountNum amount
  | Op.transfer srcAccountNum dstAccountNum amount =>
    Teller_DoTransfer offsetBits bank srcAccountNum dstAccountNum amount

/-- The net delta of a call that returned `code`: the amount of a successful deposit,
minus the amount of a successful withdrawal, zero for everything else. -/
def Op.netDelta : Op → ErrorCode → AccountAmount
  | Op.deposit _ amount, ERROR_SUCCESS => amount
  | Op.withdraw _ amount, ERROR_SUCCESS => -amount
  | _, _ => 0

/-- Executes the calls one after the other, each on the ledger the previous one left;
gives the final ledger and the result code of every call, in order. -/
def runOps (offsetBits : Nat) : Bank → List Op → Option (Bank × List ErrorCode)
  | bank, [] => some (bank, [])
  | bank, op :: ops =>
    match op.run offsetBits bank with
    | none => none
    | some (code, s) =>
      match runOps offsetBits s.bank ops with
      | none => none
      | some (final, codes) => some (final, code :: codes)

/-- The sum of the net deltas of the calls `ops` that returned `codes`. -/
def netDeltas (ops : List Op) (codes : List ErrorCode) : AccountAmount :=
  (List.zipWith Op.netDelta ops codes).sum

/-! ## Observations on the event log -/

/-- The locks taken by `sem_wait`, in program order. -/
def acquired (trace : List Event) : List LockId :=
  trace.filterMap (fun e => match e with
    | Event.wait l => some l
    | _ => none)

/-- The locks given back by `sem_post`, in program order. -/
def released (trace : List Event) : List LockId :=
  trace.filterMap (fun e => match e with
    | Event.post l => some l
    | _ => none)

/-- The account number that encodes the position of an account. -/
def AccountRef.number (offsetBits : Nat) (a : AccountRef) : AccountNumber :=
  a.branch * 2 ^ offsetBits + a.index

/-- The global order on locks: every account lock before every branch lock, account
locks by owning branch index and then by account number, branch locks by branch
index. -/
def lockLt (offsetBits : Nat) : LockId → LockId → Prop
  | LockId.account a1, LockId.account a2 =>
    a1.branch < a2.branch ∨
      (a1.branch = a2.branch ∧ a1.number offsetBits < a2.number offsetBits)
  | LockId.account _, LockId.branch _ => True
  | LockId.branch _, LockId.account _ => False
  | LockId.branch b1, LockId.branch b2 => b1 < b2

instance (offsetBits : Nat) (l1 l2 : LockId) : Decidable (lockLt offsetBits l1 l2) := by
  cases l1 <;> cases l2 <;> unfold lockLt <;> infer_instance

/-- The locks of a transfer between two distinct accounts in the words of the
specification: inside one branch the two account locks by ascending account number;
between two branches the two account locks by ascending branch index, followed by
the two branch locks by ascending branch index. -/
def specTransferLocks (offsetBits : Nat) (src dst : AccountNumber) (rs rd : AccountRef) :
    List LockId :=
  if AccountNum_GetBranchID offsetBits src = AccountNum_GetBranchID offsetBits dst then
    if src < dst then [LockId.account rs, LockId.account rd]
    else [LockId.account rd, LockId.account rs]
  else if AccountNum_GetBranchID offsetBits src < AccountNum_GetBranchID offsetBits dst then
    [LockId.account rs, LockId.account rd,
     LockId.branch (AccountNum_GetBranchID offsetBits src),
     LockId.branch (AccountNum_GetBranchID offsetBits dst)]
  else
    [LockId.account rd, LockId.account rs,
     LockId.branch (AccountNum_GetBranchID offsetBits dst),
     LockId.branch (AccountNum_GetBranchID offsetBits src)]

/-- The order in which the code of `Teller_DoTransfer` posts the locks of a transfer
between two distinct accounts (lines 112-113, 128-129, 147-150, 165-168): source
account, destination account, then between two branches the branch of the source and
the branch of the destination. -/
def transferPosts (offsetBits : Nat) (src dst : AccountNumber) (rs rd : AccountRef) :
    List LockId :=
  if AccountNum_GetBranchID offsetBits src = AccountNum_GetBranchID offsetBits dst then
    [LockId.account rs, LockId.account rd]
  else
    [LockId.account rs, LockId.account rd,
     LockId.branch (AccountNum_GetBranchID offsetBits src),
     LockId.branch (AccountNum_GetBranchID offsetBits dst)]

/-- Balanced locking of one call: no lock is taken twice, the locks given back are the
locks taken, each once, and the log splits into a first part without `sem_post` and
a second part without `sem_wait`, so that no lock is given back before it is taken. -/
def BalancedLocks (trace : List Event) : Prop :=
  (acquired trace).Nodup ∧ (released trace).Perm (acquired trace) ∧
    ∃ front back, trace = front ++ back ∧ released front = [] ∧ acquired back = []

/-- The call holds lock `l` after the events `before`. -/
def holdsLock (l : LockId) (before : List Event) : Prop :=
  l ∈ acquired before ∧ l ∉ released before

/-- What locking discipline asks of event `e`, logged after the events `before` in a
call whose whole log is `full`: a balance is written under the lock of its account,
a cached branch balance under the lock of its branch, and the balance is read for
the funds check when every lock of the call is taken and none is given back. -/
def underLock (full before : List Event) (e : Event) : Prop :=
  match e with
  | Event.writeBalance a => holdsLock (LockId.account a) before
  | Event.writeBranch b => holdsLock (LockId.branch b) before
  | Event.readBalance a =>
    holdsLock (LockId.account a) before ∧ acquired before = acquired full ∧
      released before = []
  | _ => True

/-- Every event of the log `trace` is logged under the locks it needs. -/
def LockedAccess (trace : List Event) : Prop :=
  ∀ before e after, trace = before ++ e :: after → underLock trace before e

/-- Walks the events `rest` that follow `before`, asking `P` of each of them. -/
def checkFrom (P : List Event → Event → Prop) : List Event → List Event → Prop
  | _, [] => True
  | before, e :: rest => P before e ∧ checkFrom P (before ++ [e]) rest

/-! ## Non-negative balances and validation -/

/-- No account of the ledger has a negative balance. -/
def Bank.NonNegative (bank : Bank) : Prop :=
  ∀ br ∈ bank.branches, ∀ acc ∈ br.accounts, 0 ≤ acc.balance

instance (bank : Bank) : Decidable bank.NonNegative := by
  unfold Bank.NonNegative; infer_instance

/-- Modelled from the spec: `Bank_Balance` of `bank.c` (declared in bank.h, body not under
src/): the sum of the cached balances of all branches. -/
def Bank_Balance (bank : Bank) : AccountAmount :=
  (bank.branches.map (fun br => br.balance)).sum

/-- Modelled from the spec: `Bank_Validate` of `bank.c` (declared in bank.h, body not under
src/): recomputes the aggregate of every branch from its accounts and fails when it
disagrees with the cached branch balance, or when the bank-wide sum disagrees with
the sum of the branch balances; `true` stands for success. -/
def Bank_Validate (bank : Bank) : Bool :=
  bank.branches.all (fun br => decide (br.accountSum = br.balance)) &&
    decide (bank.totalAccounts = Bank_Balance bank)

/-! ## Calls in flight on several threads -/

/-- The event logs a teller call can leave: the log of a deposit, a withdrawal or a
transfer with `amount ≥ 0`, run on some well-formed ledger. A call that runs among
other calls logs the events of the run on the ledger it finds when it reads the
balance: the lookups and the stored account numbers, which decide the locks, are
the same on every ledger the calls leave. -/
def IsTellerLog (offsetBits : Nat) (log : List Event) : Prop :=
  ∃ (bank : Bank) (op : Op) (c : ErrorCode) (s : Sim),
    bank.WellFormed offsetBits ∧ 0 ≤ op.amount ∧ op.run offsetBits bank = some (c, s) ∧
      s.trace = log

/-- A call in flight on its thread: the events it has executed and those still to
execute. -/
structure Thread where
  done : List Event
  todo : List Event
  deriving DecidableEq, Repr

/-- The threads of the bank and the values of the semaphores they share. -/
structure Conc where
  sem : LockId → Nat
  threads : List Thread

/-- The thread that would execute `e` next is suspended: `sem_wait` on a semaphore
whose value is zero. -/
def blockedOn (sem : LockId → Nat) : Event → Bool
  | Event.wait l => sem l == 0
  | _ => false

/-- The values of the semaphores after event `e`: `sem_wait` takes one off, `sem_post`
adds one. -/
def semAfter (sem : LockId → Nat) : Event → LockId → Nat
  | Event.wait l => fun x => if x = l then sem x - 1 else sem x
  | Event.post l => fun x => if x = l then sem x + 1 else sem x
  | _ => sem

/-- Thread `i` executes its next event; `none` when no such thread is in flight, when
its call has returned, or when it is suspended in `sem_wait`. -/
def Conc.stepThread (c : Conc) (i : Nat) : Option Conc :=
  match c.threads[i]? with
  | none => none
  | some t =>
    match t.todo with
    | [] => none
    | e :: rest =>
      if blockedOn c.sem e then none
      else some
        { sem := semAfter c.sem e,
          threads := updateAt (fun _ => { done := t.done ++ [e], todo := rest }) i c.threads }

/-- One step of the bank: some thread executes its next event. -/
def Step (c c1 : Conc) : Prop :=
  ∃ i, c.stepThread i = some c1

/-- An interleaving of `n` steps leads from `c` to `c1`. -/
inductive ReachIn : Nat → Conc → Conc → Prop where
  | refl (c : Conc) : ReachIn 0 c c
  | step {n : Nat} {c c1 c2 : Conc} : ReachIn n c c1 → Step c1 c2 → ReachIn (n + 1) c c2

/-- The schedule `sched` names the thread of each step; `none` when one of them cannot
execute. -/
def runSchedule (c : Conc) : List Nat → Option Conc
  | [] => some c
  | i :: sched =>
    match c.stepThread i with
    | none => none
    | some c1 => runSchedule c1 sched

/-- The calls `logs` are started together: no lock is held and nothing is executed. -/
def startCalls (logs : List (List Event)) : Conc :=
  { sem := fun _ => 1, threads := logs.map (fun log => { done := [], todo := log }) }

/-- The number of events the calls in flight still have to execute. -/
def Conc.remaining (c : Conc) : Nat :=
  (c.threads.map (fun t => t.todo.length)).sum

/-- Every call has returned. -/
def Conc.Finished (c : Conc) : Prop :=
  ∀ t ∈ c.threads, t.todo = []

instance (c : Conc) : Decidable c.Finished := by
  unfold Conc.Finished; infer_instance

/-- The lock the thread is about to take, when its next event is a `sem_wait`. -/
def Thread.awaited (t : Thread) : Option LockId :=
  match t.todo with
  | Event.wait l :: _ => some l
  | _ => none

/-- Thread `t` holds lock `l`: it has taken it more often than given it back. -/
def Thread.holds (t : Thread) (l : LockId) : Prop :=
  (released t.done).count l < (acquired t.done).count l

/-- A circular wait: a non-empty group of threads in flight, each suspended on a lock
that a thread of the group holds. -/
def CircularWait (c : Conc) : Prop :=
  ∃ ws : List Thread, ws ≠ [] ∧ (∀ t ∈ ws, t ∈ c.threads) ∧
    ∀ t ∈ ws, ∃ l, t.awaited = some l ∧ ∃ u ∈ ws, u.holds l

/-- What the proof of progress keeps about a state: every thread runs a log whose
locks are taken in increasing order and given back as often as taken, and the value
of every semaphore is one minus the number of times it is held. -/
def ConcInv (offsetBits : Nat) (c : Conc) : Prop :=
  (∀ t ∈ c.threads, (acquired (t.done ++ t.todo)).Pairwise (lockLt offsetBits) ∧
    ∀ l, (released (t.done ++ t.todo)).count l = (acquired (t.done ++ t.todo)).count l) ∧
  ∀ l, c.sem l + (c.threads.map (fun t => (acquired t.done).count l)).sum =
    1 + (c.threads.map (fun t => (released t.done).count l)).sum

/-! ## Sample ledger -/

/-- A ledger of two branches of two accounts, 100 in each account, with 4 offset bits. -/
def demoBank : Bank :=
  { branches :=
      [ { balance := 200, accounts := [⟨0, 100⟩, ⟨1, 100⟩] },
        { balance := 200, accounts := [⟨16, 100⟩, ⟨17, 100⟩] } ] }

/-- Four calls on the sample ledger, as logged: the transfer of 30 from account 0 to
account 16, the transfer of 30 back from account 16 to account 0, the transfer of 30
from account 17 to itself and the deposit of 5 into account 1. -/
def demoLogs : List (List Event) :=
  [ [Event.wait (LockId.account ⟨0, 0⟩), Event.wait (LockId.account ⟨1, 0⟩),
     Event.wait (LockId.branch 0), Event.wait (LockId.branch 1),
     Event.readBalance ⟨0, 0⟩, Event.writeBalance ⟨0, 0⟩, Event.writeBalance ⟨1, 0⟩,
     Event.post (LockId.account ⟨0, 0⟩), Event.post (LockId.account ⟨1, 0⟩),
     Event.post (LockId.branch 0), Event.post (LockId.branch 1)],
    [Event.wait (LockId.account ⟨0, 0⟩), Event.wait (LockId.account ⟨1, 0⟩),
     Event.wait (LockId.branch 0), Event.wait (LockId.branch 1),
     Event.readBalance ⟨1, 0⟩, Event.writeBalance ⟨1, 0⟩, Event.writeBalance ⟨0, 0⟩,
     Event.post (LockId.account ⟨1, 0⟩), Event.post (LockId.account ⟨0, 0⟩),
     Event.post (LockId.branch 1), Event.post (LockId.branch 0)],
    [],
    [Event.wait (LockId.account ⟨0, 1⟩), Event.wait (LockId.branch 0),
     Event.writeBalance ⟨0, 1⟩, Event.writeBranch 0,
     Event.post (LockId.account ⟨0, 1⟩), Event.post (LockId.branch 0)] ]

/-! ## Arrays: what an in-place update changes -/

theorem length_updateAt {α : Type} (f : α → α) (n : Nat) (l : List α) :
    (updateAt f n l).length = l.length := by
  induction l generalizing n with
  | nil => simp [updateAt]
  | cons x xs ih => cases n <;> simp [updateAt, ih]

theorem getElem?_updateAt {α : Type} (f : α → α) (n m : Nat) (l : List α) :
    (updateAt f n l)[m]? = if m = n then l[m]?.map f else l[m]? := by
  induction l generalizing n m with
  | nil => simp [updateAt]
  | cons x xs ih => cases n <;> cases m <;> simp [updateAt, ih]

theorem sum_map_updateAt {α : Type} (g : α → Int) (f : α → α) (n : Nat) (l : List α) (x : α)
    (h : l[n]? = some x) :
    ((updateAt f n l).map g).sum = (l.map g).sum + (g (f x) - g x) := by
  induction l generalizing n with
  | nil => simp at h
  | cons y ys ih =>
    cases n with
    | zero =>
      simp at h
      subst h
      simp [updateAt]
      ring
    | succ k =>
      simp at h
      simp [updateAt, ih k h]
      ring

/-! ## Ledger: what the two field updates change -/

theorem account?_addToAccount (bank : Bank) (a a1 : AccountRef) (d : AccountAmount) :
    (bank.addToAccount a d).account? a1 =
      if a1 = a then (bank.account? a).map (fun acc => { acc with balance := acc.balance + d })
      else bank.account? a1 := by
  obtain ⟨b, i⟩ := a
  obtain ⟨b1, i1⟩ := a1
  simp only [Bank.account?, Bank.addToAccount, getElem?_updateAt, AccountRef.mk.injEq]
  by_cases hb : b1 = b
  · subst hb
    cases hbr : bank.branches[b1]? with
    | none => simp
    | some br =>
      simp only [if_true, Option.map_some', Branch.addToAccount, getElem?_updateAt, true_and]
      by_cases hi : i1 = i
      · subst hi; simp
      · simp [hi]
  · simp [hb]

theorem balanceAt_addToAccount_self (bank : Bank) (a : AccountRef) (d : AccountAmount)
    (acc : Account) (h : bank.account? a = some acc) :
    (bank.addToAccount a d).balanceAt a = bank.balanceAt a + d := by
  simp [Bank.balanceAt, account?_addToAccount, h]

theorem balanceAt_addToAccount_other (bank : Bank) (a a1 : AccountRef) (d : AccountAmount)
    (h : a1 ≠ a) : (bank.addToAccount a d).balanceAt a1 = bank.balanceAt a1 := by
  simp [Bank.balanceAt, account?_addToAccount, h]

theorem accountNumberAt_addToAccount (bank : Bank) (a a1 : AccountRef) (d : AccountAmount) :
    (bank.addToAccount a d).accountNumberAt a1 = bank.accountNumberAt a1 := by
  simp only [Bank.accountNumberAt, account?_addToAccount]
  by_cases h : a1 = a
  · subst h
    cases bank.account? a1 <;> simp
  · simp [h]

theorem account?_isSome_addToAccount (bank : Bank) (a a1 : AccountRef) (d : AccountAmount) :
    ((bank.addToAccount a d).account? a1).isSome = (bank.account? a1).isSome := by
  rw [account?_addToAccount]
  by_cases h : a1 = a
  · subst h
    cases bank.account? a1 <;> simp
  · simp [h]

theorem branchBalance_addToAccount (bank : Bank) (a : AccountRef) (b : BranchID)
    (d : AccountAmount) : (bank.addToAccount a d).branchBalance b = bank.branchBalance b := by
  simp only [Bank.branchBalance, Bank.addToAccount, getElem?_updateAt]
  by_cases h : b = a.branch
  · subst h
    cases bank.branches[a.branch]? <;> simp [Branch.addToAccount]
  · simp [h]

theorem account?_addToBranch (bank : Bank) (b : BranchID) (a : AccountRef) (d : AccountAmount) :
    (bank.addToBranch b d).account? a = bank.account? a := by
  simp only [Bank.account?, Bank.addToBranch, getElem?_updateAt]
  by_cases h : a.branch = b
  · subst h
    cases bank.branches[a.branch]? <;> simp
  · simp [h]

theorem balanceAt_addToBranch (bank : Bank) (b : BranchID) (a : AccountRef) (d : AccountAmount) :
    (bank.addToBranch b d).balanceAt a = bank.balanceAt a := by
  simp [Bank.balanceAt, account?_addToBranch]

theorem accountNumberAt_addToBranch (bank : Bank) (b : BranchID) (a : AccountRef)
    (d : AccountAmount) : (bank.addToBranch b d).accountNumberAt a = bank.accountNumberAt a := by
  simp [Bank.accountNumberAt, account?_addToBranch]

theorem branchBalance_addToBranch_self (bank : Bank) (b : BranchID) (d : AccountAmount)
    (h : b < bank.branches.length) :
    (bank.addToBranch b d).branchBalance b = bank.branchBalance b + d := by
  simp [Bank.branchBalance, Bank.addToBranch, getElem?_updateAt, List.getElem?_eq_getElem h]

theorem branchBalance_addToBranch_other (bank : Bank) (b b1 : BranchID) (d : AccountAmount)
    (h : b1 ≠ b) : (bank.addToBranch b d).branchBalance b1 = bank.branchBalance b1 := by
  simp [Bank.branchBalance, Bank.addToBranch, getElem?_updateAt, h]

theorem branches_length_addToAccount (bank : Bank) (a : AccountRef) (d : AccountAmount) :
    (bank.addToAccount a d).branches.length = bank.branches.length := by
  simp [Bank.addToAccount, length_updateAt]

theorem branches_length_addToBranch (bank : Bank) (b : BranchID) (d : AccountAmount) :
    (bank.addToBranch b d).branches.length = bank.branches.length := by
  simp [Bank.addToBranch, length_updateAt]

theorem account?_some_branch_lt (bank : Bank) (a : AccountRef) (acc : Account)
    (h : bank.account? a = some acc) : a.branch < bank.branches.length := by
  unfold Bank.account? at h
  by_contra hlt
  rw [List.getElem?_eq_none (Nat.le_of_not_lt hlt)] at h
  simp at h

theorem totalAccounts_addToAccount (bank : Bank) (a : AccountRef) (d : AccountAmount)
    (acc : Account) (h : bank.account? a = some acc) :
    (bank.addToAccount a d).totalAccounts = bank.totalAccounts + d := by
  unfold Bank.account? at h
  cases hbr : bank.branches[a.branch]? with
  | none => simp [hbr] at h
  | some br =>
    simp only [hbr] at h
    simp only [Bank.totalAccounts, Bank.addToAccount]
    rw [sum_map_updateAt Branch.accountSum _ a.branch bank.branches br hbr]
    simp only [Branch.accountSum, Branch.addToAccount]
    rw [sum_map_updateAt (fun acc => acc.balance) _ a.index br.accounts acc h]
    ring

theorem totalAccounts_addToBranch (bank : Bank) (b : BranchID) (d : AccountAmount) :
    (bank.addToBranch b d).totalAccounts = bank.totalAccounts := by
  simp only [Bank.totalAccounts, Bank.addToBranch]
  cases hbr : bank.branches[b]? with
  | none =>
    have : ∀ (l : List Branch) (n : Nat) (f : Branch → Branch), l[n]? = none →
        updateAt f n l = l := by
      intro l
      induction l with
      | nil => intro n f _; simp [updateAt]
      | cons x xs ih =>
        intro n f hn
        cases n with
        | zero => simp at hn
        | succ k => simp at hn; simp [updateAt, ih k f (by simpa using hn)]
    rw [this _ _ _ hbr]
  | some br =>
    rw [sum_map_updateAt Branch.accountSum _ b bank.branches br hbr]
    simp [Branch.accountSum]

/-! ## Account numbers: what a successful lookup gives -/

theorem lookup_some (offsetBits : Nat) (bank : Bank) (n : AccountNumber) (r : AccountRef)
    (h : Account_LookupByNumber offsetBits bank n = some r) :
    r = ⟨AccountNum_GetBranchID offsetBits n, AccountNum_GetAccountIndex offsetBits n⟩ ∧
      ∃ acc, bank.account? r = some acc := by
  unfold Account_LookupByNumber at h
  cases hbr : bank.branches[AccountNum_GetBranchID offsetBits n]? with
  | none => simp [hbr] at h
  | some br =>
    simp only [hbr] at h
    split at h
    · rename_i hlt
      simp only [Option.some.injEq] at h
      subst h
      refine ⟨rfl, br.accounts[AccountNum_GetAccountIndex offsetBits n], ?_⟩
      simp [Bank.account?, hbr, List.getElem?_eq_getElem hlt]
    · simp at h

theorem lookup_branch (offsetBits : Nat) (bank : Bank) (n : AccountNumber) (r : AccountRef)
    (h : Account_LookupByNumber offsetBits bank n = some r) :
    r.branch = AccountNum_GetBranchID offsetBits n := by
  rw [(lookup_some offsetBits bank n r h).1]

theorem lookup_inj (offsetBits : Nat) (bank : Bank) (n m : AccountNumber) (r : AccountRef)
    (hn : Account_LookupByNumber offsetBits bank n = some r)
    (hm : Account_LookupByNumber offsetBits bank m = some r) : n = m := by
  have h1 := (lookup_some offsetBits bank n r hn).1
  have h2 := (lookup_some offsetBits bank m r hm).1
  rw [h1] at h2
  simp only [AccountRef.mk.injEq, AccountNum_GetBranchID, AccountNum_GetAccountIndex] at h2
  rw [← Nat.div_add_mod n (2 ^ offsetBits), ← Nat.div_add_mod m (2 ^ offsetBits), h2.1, h2.2]

theorem lookup_accountNumberAt (offsetBits : Nat) (bank : Bank) (hwf : bank.WellFormed offsetBits)
    (n : AccountNumber) (r : AccountRef)
    (h : Account_LookupByNumber offsetBits bank n = some r) :
    bank.accountNumberAt r = n := by
  obtain ⟨hr, acc, hacc⟩ := lookup_some offsetBits bank n r h
  have hb := account?_some_branch_lt bank r acc hacc
  have hi : r.index < (bank.branches.getD r.branch ⟨0, []⟩).accounts.length := by
    unfold Bank.account? at hacc
    rw [List.getElem?_eq_getElem hb] at hacc
    simp only at hacc
    rw [List.getD_eq_getElem _ _ hb]
    by_contra hlt
    rw [List.getElem?_eq_none (Nat.le_of_not_lt hlt)] at hacc
    simp at hacc
  have := hwf r.branch hb r.index hi
  rw [this, hr]
  simp only [AccountNum_GetBranchID, AccountNum_GetAccountIndex]
  rw [Nat.mul_comm]
  exact Nat.div_add_mod n (2 ^ offsetBits)

/-! ## The runs of the three operations -/

theorem deposit_run (offsetBits : Nat) (bank : Bank) (n : AccountNumber) (amount : AccountAmount)
    (r : AccountRef) (hr : Account_LookupByNumber offsetBits bank n = some r)
    (ha : 0 ≤ amount) :
    Teller_DoDeposit offsetBits bank n amount = some (ERROR_SUCCESS,
      { bank := (bank.addToAccount r amount).addToBranch r.branch amount,
        trace := [Event.wait (LockId.account r),
                  Event.wait (LockId.branch (AccountNum_GetBranchID offsetBits n)),
                  Event.writeBalance r, Event.writeBranch r.branch,
                  Event.post (LockId.account r),
                  Event.post (LockId.branch (AccountNum_GetBranchID offsetBits n))] }) := by
  simp [Teller_DoDeposit, hr, not_lt.mpr ha, sem_wait, semValue, Sim.log, Account_Adjust,
    sem_post]

theorem withdraw_run_insufficient (offsetBits : Nat) (bank : Bank) (n : AccountNumber)
    (amount : AccountAmount) (r : AccountRef)
    (hr : Account_LookupByNumber offsetBits bank n = some r) (ha : 0 ≤ amount)
    (hlt : bank.balanceAt r < amount) :
    Teller_DoWithdraw offsetBits bank n amount = some (ERROR_INSUFFICIENT_FUNDS,
      { bank := bank,
        trace := [Event.wait (LockId.account r),
                  Event.wait (LockId.branch (AccountNum_GetBranchID offsetBits n)),
                  Event.readBalance r,
                  Event.post (LockId.account r),
                  Event.post (LockId.branch (AccountNum_GetBranchID offsetBits n))] }) := by
  simp [Teller_DoWithdraw, hr, not_lt.mpr ha, sem_wait, semValue, Sim.log, Account_Balance,
    sem_post, hlt]

theorem withdraw_run_success (offsetBits : Nat) (bank : Bank) (n : AccountNumber)
    (amount : AccountAmount) (r : AccountRef)
    (hr : Account_LookupByNumber offsetBits bank n = some r) (ha : 0 ≤ amount)
    (hle : amount ≤ bank.balanceAt r) :
    Teller_DoWithdraw offsetBits bank n amount = some (ERROR_SUCCESS,
      { bank := (bank.addToAccount r (-amount)).addToBranch r.branch (-amount),
        trace := [Event.wait (LockId.account r),
                  Event.wait (LockId.branch (AccountNum_GetBranchID offsetBits n)),
                  Event.readBalance r,
                  Event.writeBalance r, Event.writeBranch r.branch,
                  Event.post (LockId.account r),
                  Event.post (LockId.branch (AccountNum_GetBranchID offsetBits n))] }) := by
  simp [Teller_DoWithdraw, hr, not_lt.mpr ha, sem_wait, semValue, Sim.log, Account_Balance,
    Account_Adjust, sem_post, not_lt.mpr hle]

theorem transfer_run_src_unknown (offsetBits : Nat) (bank : Bank) (src dst : AccountNumber)
    (amount : AccountAmount) (hs : Account_LookupByNumber offsetBits bank src = none)
    (ha : 0 ≤ amount) :
    Teller_DoTransfer offsetBits bank src dst amount =
      some (ERROR_ACCOUNT_NOT_FOUND, { bank := bank, trace := [] }) := by
  simp [Teller_DoTransfer, hs, not_lt.mpr ha]

theorem transfer_run_dst_unknown (offsetBits : Nat) (bank : Bank) (src dst : AccountNumber)
    (amount : AccountAmount) (hd : Account_LookupByNumber offsetBits bank dst = none)
    (ha : 0 ≤ amount) :
    Teller_DoTransfer offsetBits bank src dst amount =
      some (ERROR_ACCOUNT_NOT_FOUND, { bank := bank, trace := [] }) := by
  cases hs : Account_LookupByNumber offsetBits bank src <;>
    simp [Teller_DoTransfer, hs, hd, not_lt.mpr ha]

theorem transfer_run_same_number (offsetBits : Nat) (bank : Bank) (src dst : AccountNumber)
    (amount : AccountAmount) (rs rd : AccountRef)
    (hs : Account_LookupByNumber offsetBits bank src = some rs)
    (hd : Account_LookupByNumber offsetBits bank dst = some rd)
    (ha : 0 ≤ amount)
    (hsame : AccountNum_GetBranchID offsetBits src = AccountNum_GetBranchID offsetBits dst)
    (heq : bank.accountNumberAt rs = bank.accountNumberAt rd) :
    Teller_DoTransfer offsetBits bank src dst amount =
      some (ERROR_SUCCESS, { bank := bank, trace := [] }) := by
  simp [Teller_DoTransfer, hs, hd, not_lt.mpr ha, Account_IsSameBranch, hsame, heq]

theorem transfer_run_self (offsetBits : Nat) (bank : Bank) (x : AccountNumber)
    (amount : AccountAmount) (r : AccountRef)
    (hr : Account_LookupByNumber offsetBits bank x = some r) (ha : 0 ≤ amount) :
    Teller_DoTransfer offsetBits bank x x amount =
      some (ERROR_SUCCESS, { bank := bank, trace := [] }) :=
  transfer_run_same_number offsetBits bank x x amount r r hr hr ha rfl rfl

theorem transfer_run_same_insufficient (offsetBits : Nat) (bank : Bank) (src dst : AccountNumber)
    (amount : AccountAmount) (rs rd : AccountRef)
    (hs : Account_LookupByNumber offsetBits bank src = some rs)
    (hd : Account_LookupByNumber offsetBits bank dst = some rd)
    (ha : 0 ≤ amount)
    (hsame : AccountNum_GetBranchID offsetBits src = AccountNum_GetBranchID offsetBits dst)
    (hne : bank.accountNumberAt rs ≠ bank.accountNumberAt rd)
    (hlt : bank.balanceAt rs < amount) :
    Teller_DoTransfer offsetBits bank src dst amount = some (ERROR_INSUFFICIENT_FUNDS,
      { bank := bank,
        trace := sameBranchWaits bank rs rd ++
          [Event.readBalance rs, Event.post (LockId.account rs),
           Event.post (LockId.account rd)] }) := by
  have hrr : rs ≠ rd := by rintro rfl; exact hne rfl
  have hrr2 : rd ≠ rs := fun h => hrr h.symm
  rcases Nat.lt_or_gt_of_ne hne with h | h
  · simp [Teller_DoTransfer, Teller_DoTransfer.sameBranch, sameBranchWaits, hs, hd,
      not_lt.mpr ha, Account_IsSameBranch, hsame, h, sem_wait, semValue, Sim.log,
      Account_Balance, sem_post, hlt, hrr, hrr2]
  · have h2 : ¬ bank.accountNumberAt rs < bank.accountNumberAt rd := Nat.lt_asymm h
    simp [Teller_DoTransfer, Teller_DoTransfer.sameBranch, sameBranchWaits, hs, hd,
      not_lt.mpr ha, Account_IsSameBranch, hsame, h, h2, sem_wait, semValue, Sim.log,
      Account_Balance, sem_post, hlt, hrr, hrr2]

theorem transfer_run_same_success (offsetBits : Nat) (bank : Bank) (src dst : AccountNumber)
    (amount : AccountAmount) (rs rd : AccountRef)
    (hs : Account_LookupByNumber offsetBits bank src = some rs)
    (hd : Account_LookupByNumber offsetBits bank dst = some rd)
    (ha : 0 ≤ amount)
    (hsame : AccountNum_GetBranchID offsetBits src = AccountNum_GetBranchID offsetBits dst)
    (hne : bank.accountNumberAt rs ≠ bank.accountNumberAt rd)
    (hle : amount ≤ bank.balanceAt rs) :
    Teller_DoTransfer offsetBits bank src dst amount = some (ERROR_SUCCESS,
      { bank := (bank.addToAccount rs (-amount)).addToAccount rd amount,
        trace := sameBranchWaits bank rs rd ++
          [Event.readBalance rs, Event.writeBalance rs, Event.writeBalance rd,
           Event.post (LockId.account rs), Event.post (LockId.account rd)] }) := by
  have hrr : rs ≠ rd := by rintro rfl; exact hne rfl
  have hrr2 : rd ≠ rs := fun h => hrr h.symm
  rcases Nat.lt_or_gt_of_ne hne with h | h
  · simp [Teller_DoTransfer, Teller_DoTransfer.sameBranch, sameBranchWaits, hs, hd,
      not_lt.mpr ha, Account_IsSameBranch, hsame, h, sem_wait, semValue, Sim.log,
      Account_Balance, Account_Adjust, sem_post, not_lt.mpr hle, hrr, hrr2]
  · have h2 : ¬ bank.accountNumberAt rs < bank.accountNumberAt rd := Nat.lt_asymm h
    simp [Teller_DoTransfer, Teller_DoTransfer.sameBranch, sameBranchWaits, hs, hd,
      not_lt.mpr ha, Account_IsSameBranch, hsame, h, h2, sem_wait, semValue, Sim.log,
      Account_Balance, Account_Adjust, sem_post, not_lt.mpr hle, hrr, hrr2]

theorem transfer_run_cross_insufficient (offsetBits : Nat) (bank : Bank)
    (src dst : AccountNumber) (amount : AccountAmount) (rs rd : AccountRef)
    (hs : Account_LookupByNumber offsetBits bank src = some rs)
    (hd : Account_LookupByNumber offsetBits bank dst = some rd)
    (ha : 0 ≤ amount)
    (hdiff : AccountNum_GetBranchID offsetBits src ≠ AccountNum_GetBranchID offsetBits dst)
    (hlt : bank.balanceAt rs < amount) :
    Teller_DoTransfer offsetBits bank src dst amount = some (ERROR_INSUFFICIENT_FUNDS,
      { bank := bank,
        trace := crossBranchWaits offsetBits src dst rs rd ++
          [Event.readBalance rs, Event.post (LockId.account rs),
           Event.post (LockId.account rd),
           Event.post (LockId.branch (AccountNum_GetBranchID offsetBits src)),
           Event.post (LockId.branch (AccountNum_GetBranchID offsetBits dst))] }) := by
  have hbs := lookup_branch offsetBits bank src rs hs
  have hbd := lookup_branch offsetBits bank dst rd hd
  have hrr : rs ≠ rd := by rintro rfl; exact hdiff (hbs.symm.trans hbd)
  have hrr2 : rd ≠ rs := fun h => hrr h.symm
  have hdiff2 : AccountNum_GetBranchID offsetBits dst ≠ AccountNum_GetBranchID offsetBits src :=
    fun h => hdiff h.symm
  by_cases h : AccountNum_GetBranchID offsetBits src < AccountNum_GetBranchID offsetBits dst
  · simp [Teller_DoTransfer, Teller_DoTransfer.crossBranch, crossBranchWaits, hs, hd,
      not_lt.mpr ha, Account_IsSameBranch, hdiff, hdiff2, h, sem_wait, semValue, Sim.log,
      Account_Balance, sem_post, hlt, hrr, hrr2]
  · simp [Teller_DoTransfer, Teller_DoTransfer.crossBranch, crossBranchWaits, hs, hd,
      not_lt.mpr ha, Account_IsSameBranch, hdiff, hdiff2, h, sem_wait, semValue, Sim.log,
      Account_Balance, sem_post, hlt, hrr, hrr2]

theorem transfer_run_cross_success (offsetBits : Nat) (bank : Bank)
    (src dst : AccountNumber) (amount : AccountAmount) (rs rd : AccountRef)
    (hs : Account_LookupByNumber offsetBits bank src = some rs)
    (hd : Account_LookupByNumber offsetBits bank dst = some rd)
    (ha : 0 ≤ amount)
    (hdiff : AccountNum_GetBranchID offsetBits src ≠ AccountNum_GetBranchID offsetBits dst)
    (hle : amount ≤ bank.balanceAt rs) :
    Teller_DoTransfer offsetBits bank src dst amount = some (ERROR_SUCCESS,
      { bank := (bank.addToAccount rs (-amount)).addToAccount rd amount,
        trace := crossBranchWaits offsetBits src dst rs rd ++
          [Event.readBalance rs, Event.writeBalance rs, Event.writeBalance rd,
           Event.post (LockId.account rs), Event.post (LockId.account rd),
           Event.post (LockId.branch (AccountNum_GetBranchID offsetBits src)),
           Event.post (LockId.branch (AccountNum_GetBranchID offsetBits dst))] }) := by
  have hbs := lookup_branch offsetBits bank src rs hs
  have hbd := lookup_branch offsetBits bank dst rd hd
  have hrr : rs ≠ rd := by rintro rfl; exact hdiff (hbs.symm.trans hbd)
  have hrr2 : rd ≠ rs := fun h => hrr h.symm
  have hdiff2 : AccountNum_GetBranchID offsetBits dst ≠ AccountNum_GetBranchID offsetBits src :=
    fun h => hdiff h.symm
  by_cases h : AccountNum_GetBranchID offsetBits src < AccountNum_GetBranchID offsetBits dst
  · simp [Teller_DoTransfer, Teller_DoTransfer.crossBranch, crossBranchWaits, hs, hd,
      not_lt.mpr ha, Account_IsSameBranch, hdiff, hdiff2, h, sem_wait, semValue, Sim.log,
      Account_Balance, Account_Adjust, sem_post, not_lt.mpr hle, hrr, hrr2]
  · simp [Teller_DoTransfer, Teller_DoTransfer.crossBranch, crossBranchWaits, hs, hd,
      not_lt.mpr ha, Account_IsSameBranch, hdiff, hdiff2, h, sem_wait, semValue, Sim.log,
      Account_Balance, Account_Adjust, sem_post, not_lt.mpr hle, hrr, hrr2]

/-! ## Deposit and withdrawal -/

/-- C3: a deposit of `amount ≥ 0` into an account that resolves returns success, adds
`amount` to the balance of the account and adds `amount` to the cached balance of
the branch that owns the account. -/
theorem Teller_DoDeposit_success (offsetBits : Nat) (bank : Bank) (a : AccountNumber)
    (amount : AccountAmount) (r : AccountRef)
    (hr : Account_LookupByNumber offsetBits bank a = some r) (ha : 0 ≤ amount) :
    ∃ s, Teller_DoDeposit offsetBits bank a amount = some (ERROR_SUCCESS, s) ∧
      s.bank.balanceAt r = bank.balanceAt r + amount ∧
      s.bank.branchBalance r.branch = bank.branchBalance r.branch + amount := by
  obtain ⟨_, acc, hacc⟩ := lookup_some offsetBits bank a r hr
  refine ⟨_, deposit_run offsetBits bank a amount r hr ha, ?_, ?_⟩
  · show ((bank.addToAccount r amount).addToBranch r.branch amount).balanceAt r = _
    rw [balanceAt_addToBranch, balanceAt_addToAccount_self bank r amount acc hacc]
  · show ((bank.addToAccount r amount).addToBranch r.branch amount).branchBalance r.branch = _
    rw [branchBalance_addToBranch_self, branchBalance_addToAccount]
    rw [branches_length_addToAccount]
    exact account?_some_branch_lt bank r acc hacc

theorem Teller_DoDeposit_success_witness :
    (Account_LookupByNumber 4 demoBank 17 = some ⟨1, 1⟩ ∧ (0 : AccountAmount) ≤ 5) ∧
    ∃ s, Teller_DoDeposit 4 demoBank 17 5 = some (ERROR_SUCCESS, s) ∧
      s.bank.balanceAt ⟨1, 1⟩ = demoBank.balanceAt ⟨1, 1⟩ + 5 ∧
      s.bank.branchBalance 1 = demoBank.branchBalance 1 + 5 :=
  ⟨⟨by decide, by decide⟩,
    Teller_DoDeposit_success 4 demoBank 17 5 ⟨1, 1⟩ (by decide) (by decide)⟩

/-- C4: a withdrawal of `amount ≥ 0` from an account that resolves returns, and its
result is `ERROR_INSUFFICIENT_FUNDS` exactly when `amount` exceeds the balance of
the account; the ledger is then what it was before the call. -/
theorem Teller_DoWithdraw_insufficient_iff (offsetBits : Nat) (bank : Bank)
    (a : AccountNumber) (amount : AccountAmount) (r : AccountRef)
    (hr : Account_LookupByNumber offsetBits bank a = some r) (ha : 0 ≤ amount) :
    ∃ c s, Teller_DoWithdraw offsetBits bank a amount = some (c, s) ∧
      (c = ERROR_INSUFFICIENT_FUNDS ↔ amount > bank.balanceAt r) ∧
      (c = ERROR_INSUFFICIENT_FUNDS → s.bank = bank) := by
  by_cases hlt : bank.balanceAt r < amount
  · exact ⟨_, _, withdraw_run_insufficient offsetBits bank a amount r hr ha hlt,
      ⟨fun _ => hlt, fun _ => rfl⟩, fun _ => rfl⟩
  · refine ⟨_, _, withdraw_run_success offsetBits bank a amount r hr ha (not_lt.mp hlt),
      ⟨fun h => ?_, fun h => absurd h hlt⟩, fun h => ?_⟩ <;> cases h

theorem Teller_DoWithdraw_insufficient_iff_witness :
    (Account_LookupByNumber 4 demoBank 17 = some ⟨1, 1⟩ ∧ (0 : AccountAmount) ≤ 150) ∧
    ∃ c s, Teller_DoWithdraw 4 demoBank 17 150 = some (c, s) ∧
      (c = ERROR_INSUFFICIENT_FUNDS ↔ (150 : AccountAmount) > demoBank.balanceAt ⟨1, 1⟩) ∧
      (c = ERROR_INSUFFICIENT_FUNDS → s.bank = demoBank) :=
  ⟨⟨by decide, by decide⟩,
    Teller_DoWithdraw_insufficient_iff 4 demoBank 17 150 ⟨1, 1⟩ (by decide) (by decide)⟩

/-- C5: a withdrawal of `amount` with `0 ≤ amount ≤ balance` (the whole balance
included) from an account that resolves returns success, takes `amount` off the
balance of the account and off the cached balance of its branch. -/
theorem Teller_DoWithdraw_success (offsetBits : Nat) (bank : Bank) (a : AccountNumber)
    (amount : AccountAmount) (r : AccountRef)
    (hr : Account_LookupByNumber offsetBits bank a = some r) (ha : 0 ≤ amount)
    (hle : amount ≤ bank.balanceAt r) :
    ∃ s, Teller_DoWithdraw offsetBits bank a amount = some (ERROR_SUCCESS, s) ∧
      s.bank.balanceAt r = bank.balanceAt r - amount ∧
      s.bank.branchBalance r.branch = bank.branchBalance r.branch - amount := by
  obtain ⟨_, acc, hacc⟩ := lookup_some offsetBits bank a r hr
  refine ⟨_, withdraw_run_success offsetBits bank a amount r hr ha hle, ?_, ?_⟩
  · show ((bank.addToAccount r (-amount)).addToBranch r.branch (-amount)).balanceAt r = _
    rw [balanceAt_addToBranch, balanceAt_addToAccount_self bank r (-amount) acc hacc]
    ring
  · show ((bank.addToAccount r (-amount)).addToBranch r.branch (-amount)).branchBalance
      r.branch = _
    rw [branchBalance_addToBranch_self, branchBalance_addToAccount]
    · ring
    · rw [branches_length_addToAccount]
      exact account?_some_branch_lt bank r acc hacc

theorem Teller_DoWithdraw_success_witness :
    (Account_LookupByNumber 4 demoBank 1 = some ⟨0, 1⟩ ∧ (0 : AccountAmount) ≤ 100 ∧
      (100 : AccountAmount) ≤ demoBank.balanceAt ⟨0, 1⟩) ∧
    ∃ s, Teller_DoWithdraw 4 demoBank 1 100 = some (ERROR_SUCCESS, s) ∧
      s.bank.balanceAt ⟨0, 1⟩ = demoBank.balanceAt ⟨0, 1⟩ - 100 ∧
      s.bank.branchBalance 0 = demoBank.branchBalance 0 - 100 :=
  ⟨⟨by decide, by decide, by decide⟩,
    Teller_DoWithdraw_success 4 demoBank 1 100 ⟨0, 1⟩ (by decide) (by decide) (by decide)⟩

/-! ## Transfers -/

theorem balanceAt_transfer_src (bank : Bank) (rs rd : AccountRef) (amount : AccountAmount)
    (acc : Account) (hs : bank.account? rs = some acc) (hne : rs ≠ rd) :
    ((bank.addToAccount rs (-amount)).addToAccount rd amount).balanceAt rs =
      bank.balanceAt rs - amount := by
  rw [balanceAt_addToAccount_other _ rd rs amount hne,
    balanceAt_addToAccount_self bank rs (-amount) acc hs]
  ring

theorem balanceAt_transfer_dst (bank : Bank) (rs rd : AccountRef) (amount : AccountAmount)
    (acc : Account) (hd : bank.account? rd = some acc) (hne : rs ≠ rd) :
    ((bank.addToAccount rs (-amount)).addToAccount rd amount).balanceAt rd =
      bank.balanceAt rd + amount := by
  have h1 : (bank.addToAccount rs (-amount)).account? rd = some acc := by
    rw [account?_addToAccount, if_neg (fun h => hne h.symm), hd]
  rw [balanceAt_addToAccount_self _ rd amount acc h1,
    balanceAt_addToAccount_other bank rs rd (-amount) (fun h => hne h.symm)]

theorem branchBalance_transfer (bank : Bank) (rs rd : AccountRef) (amount : AccountAmount)
    (b : BranchID) :
    ((bank.addToAccount rs (-amount)).addToAccount rd amount).branchBalance b =
      bank.branchBalance b := by
  rw [branchBalance_addToAccount, branchBalance_addToAccount]

/-- C6: on a well-formed ledger, a transfer of `amount` with `0 ≤ amount ≤ balance(src)`
between two distinct accounts of one branch returns success, takes `amount` off the
source, adds it to the destination and leaves the cached balance of every branch
unchanged. -/
theorem Teller_DoTransfer_same_branch_success (offsetBits : Nat) (bank : Bank)
    (src dst : AccountNumber) (amount : AccountAmount) (rs rd : AccountRef)
    (hwf : bank.WellFormed offsetBits)
    (hs : Account_LookupByNumber offsetBits bank src = some rs)
    (hd : Account_LookupByNumber offsetBits bank dst = some rd)
    (hne : src ≠ dst)
    (hsame : AccountNum_GetBranchID offsetBits src = AccountNum_GetBranchID offsetBits dst)
    (ha : 0 ≤ amount) (hle : amount ≤ bank.balanceAt rs) :
    ∃ s, Teller_DoTransfer offsetBits bank src dst amount = some (ERROR_SUCCESS, s) ∧
      s.bank.balanceAt rs = bank.balanceAt rs - amount ∧
      s.bank.balanceAt rd = bank.balanceAt rd + amount ∧
      ∀ b, s.bank.branchBalance b = bank.branchBalance b := by
  have hns := lookup_accountNumberAt offsetBits bank hwf src rs hs
  have hnd := lookup_accountNumberAt offsetBits bank hwf dst rd hd
  have hnum : bank.accountNumberAt rs ≠ bank.accountNumberAt rd := by
    rw [hns, hnd]; exact hne
  have hrr : rs ≠ rd := by rintro rfl; exact hnum rfl
  obtain ⟨_, accs, haccs⟩ := lookup_some offsetBits bank src rs hs
  obtain ⟨_, accd, haccd⟩ := lookup_some offsetBits bank dst rd hd
  exact ⟨_, transfer_run_same_success offsetBits bank src dst amount rs rd hs hd ha hsame hnum
      hle,
    balanceAt_transfer_src bank rs rd amount accs haccs hrr,
    balanceAt_transfer_dst bank rs rd amount accd haccd hrr,
    branchBalance_transfer bank rs rd amount⟩

theorem Teller_DoTransfer_same_branch_success_witness :
    (demoBank.WellFormed 4 ∧ Account_LookupByNumber 4 demoBank 17 = some ⟨1, 1⟩ ∧
      Account_LookupByNumber 4 demoBank 16 = some ⟨1, 0⟩ ∧ (17 : AccountNumber) ≠ 16 ∧
      AccountNum_GetBranchID 4 17 = AccountNum_GetBranchID 4 16 ∧ (0 : AccountAmount) ≤ 100 ∧
      (100 : AccountAmount) ≤ demoBank.balanceAt ⟨1, 1⟩) ∧
    ∃ s, Teller_DoTransfer 4 demoBank 17 16 100 = some (ERROR_SUCCESS, s) ∧
      s.bank.balanceAt ⟨1, 1⟩ = demoBank.balanceAt ⟨1, 1⟩ - 100 ∧
      s.bank.balanceAt ⟨1, 0⟩ = demoBank.balanceAt ⟨1, 0⟩ + 100 ∧
      ∀ b, s.bank.branchBalance b = demoBank.branchBalance b :=
  ⟨⟨by decide, by decide, by decide, by decide, by decide, by decide, by decide⟩,
    Teller_DoTransfer_same_branch_success 4 demoBank 17 16 100 ⟨1, 1⟩ ⟨1, 0⟩ (by decide)
      (by decide) (by decide) (by decide) (by decide) (by decide) (by decide)⟩

/-- C7: on a well-formed ledger, a transfer of `amount ≥ 0` between two distinct accounts
that resolve, in one branch or in two, returns, and its result is
`ERROR_INSUFFICIENT_FUNDS` exactly when `amount` exceeds the balance of the source;
the ledger is then what it was before the call. -/
theorem Teller_DoTransfer_insufficient_iff (offsetBits : Nat) (bank : Bank)
    (src dst : AccountNumber) (amount : AccountAmount) (rs rd : AccountRef)
    (hwf : bank.WellFormed offsetBits)
    (hs : Account_LookupByNumber offsetBits bank src = some rs)
    (hd : Account_LookupByNumber offsetBits bank dst = some rd)
    (hne : src ≠ dst) (ha : 0 ≤ amount) :
    ∃ c s, Teller_DoTransfer offsetBits bank src dst amount = some (c, s) ∧
      (c = ERROR_INSUFFICIENT_FUNDS ↔ amount > bank.balanceAt rs) ∧
      (c = ERROR_INSUFFICIENT_FUNDS → s.bank = bank) := by
  have hns := lookup_accountNumberAt offsetBits bank hwf src rs hs
  have hnd := lookup_accountNumberAt offsetBits bank hwf dst rd hd
  have hnum : bank.accountNumberAt rs ≠ bank.accountNumberAt rd := by
    rw [hns, hnd]; exact hne
  by_cases hsame : AccountNum_GetBranchID offsetBits src = AccountNum_GetBranchID offsetBits dst
  · by_cases hlt : bank.balanceAt rs < amount
    · exact ⟨_, _, transfer_run_same_insufficient offsetBits bank src dst amount rs rd hs hd ha
        hsame hnum hlt, ⟨fun _ => hlt, fun _ => rfl⟩, fun _ => rfl⟩
    · refine ⟨_, _, transfer_run_same_success offsetBits bank src dst amount rs rd hs hd ha
        hsame hnum (not_lt.mp hlt), ⟨fun h => ?_, fun h => absurd h hlt⟩, fun h => ?_⟩ <;>
        cases h
  · by_cases hlt : bank.balanceAt rs < amount
    · exact ⟨_, _, transfer_run_cross_insufficient offsetBits bank src dst amount rs rd hs hd ha
        hsame hlt, ⟨fun _ => hlt, fun _ => rfl⟩, fun _ => rfl⟩
    · refine ⟨_, _, transfer_run_cross_success offsetBits bank src dst amount rs rd hs hd ha
        hsame (not_lt.mp hlt), ⟨fun h => ?_, fun h => absurd h hlt⟩, fun h => ?_⟩ <;>
        cases h

theorem Teller_DoTransfer_insufficient_iff_witness :
    (demoBank.WellFormed 4 ∧ Account_LookupByNumber 4 demoBank 1 = some ⟨0, 1⟩ ∧
      Account_LookupByNumber 4 demoBank 16 = some ⟨1, 0⟩ ∧ (1 : AccountNumber) ≠ 16 ∧
      (0 : AccountAmount) ≤ 101) ∧
    ∃ c s, Teller_DoTransfer 4 demoBank 1 16 101 = some (c, s) ∧
      (c = ERROR_INSUFFICIENT_FUNDS ↔ (101 : AccountAmount) > demoBank.balanceAt ⟨0, 1⟩) ∧
      (c = ERROR_INSUFFICIENT_FUNDS → s.bank = demoBank) :=
  ⟨⟨by decide, by decide, by decide, by decide, by decide⟩,
    Teller_DoTransfer_insufficient_iff 4 demoBank 1 16 101 ⟨0, 1⟩ ⟨1, 0⟩ (by decide)
      (by decide) (by decide) (by decide) (by decide)⟩

/-- C8: a transfer of `amount ≥ 0` from an account of the ledger to itself, also when
`amount` exceeds its balance, returns success, leaves the ledger as it was, and
takes no lock. -/
theorem Teller_DoTransfer_self (offsetBits : Nat) (bank : Bank) (x : AccountNumber)
    (amount : AccountAmount) (r : AccountRef)
    (hr : Account_LookupByNumber offsetBits bank x = some r) (ha : 0 ≤ amount) :
    ∃ s, Teller_DoTransfer offsetBits bank x x amount = some (ERROR_SUCCESS, s) ∧
      s.bank = bank ∧ ∀ l, Event.wait l ∉ s.trace :=
  ⟨_, transfer_run_self offsetBits bank x amount r hr ha, rfl, fun _ h => by cases h⟩

theorem Teller_DoTransfer_self_witness :
    (Account_LookupByNumber 4 demoBank 16 = some ⟨1, 0⟩ ∧ (0 : AccountAmount) ≤ 5000) ∧
    ∃ s, Teller_DoTransfer 4 demoBank 16 16 5000 = some (ERROR_SUCCESS, s) ∧
      s.bank = demoBank ∧ ∀ l, Event.wait l ∉ s.trace :=
  ⟨⟨by decide, by decide⟩, Teller_DoTransfer_self 4 demoBank 16 5000 ⟨1, 0⟩ (by decide)
    (by decide)⟩

/-- C9: with `amount ≥ 0`, a deposit to and a withdrawal from an account number that
does not resolve return `ERROR_ACCOUNT_NOT_FOUND`, and so does a transfer whose
source or destination does not resolve (both, or twice the same unknown number,
included); the ledger is left as it was and no lock is taken. -/
theorem unknown_account_not_found (offsetBits : Nat) (bank : Bank)
    (a src dst : AccountNumber) (amount : AccountAmount) (ha : 0 ≤ amount)
    (hun : Account_LookupByNumber offsetBits bank a = none)
    (hsd : Account_LookupByNumber offsetBits bank src = none ∨
      Account_LookupByNumber offsetBits bank dst = none) :
    (∃ s, Teller_DoDeposit offsetBits bank a amount = some (ERROR_ACCOUNT_NOT_FOUND, s) ∧
      s.bank = bank ∧ ∀ l, Event.wait l ∉ s.trace) ∧
    (∃ s, Teller_DoWithdraw offsetBits bank a amount = some (ERROR_ACCOUNT_NOT_FOUND, s) ∧
      s.bank = bank ∧ ∀ l, Event.wait l ∉ s.trace) ∧
    (∃ s, Teller_DoTransfer offsetBits bank src dst amount =
        some (ERROR_ACCOUNT_NOT_FOUND, s) ∧
      s.bank = bank ∧ ∀ l, Event.wait l ∉ s.trace) ∧
    (∃ s, Teller_DoTransfer offsetBits bank a a amount = some (ERROR_ACCOUNT_NOT_FOUND, s) ∧
      s.bank = bank ∧ ∀ l, Event.wait l ∉ s.trace) := by
  refine ⟨⟨⟨bank, []⟩, ?_, rfl, fun _ h => by cases h⟩,
    ⟨⟨bank, []⟩, ?_, rfl, fun _ h => by cases h⟩,
    ⟨⟨bank, []⟩, ?_, rfl, fun _ h => by cases h⟩,
    ⟨⟨bank, []⟩, transfer_run_src_unknown offsetBits bank a a amount hun ha, rfl,
      fun _ h => by cases h⟩⟩
  · simp [Teller_DoDeposit, hun, not_lt.mpr ha]
  · simp [Teller_DoWithdraw, hun, not_lt.mpr ha]
  · rcases hsd with h | h
    · exact transfer_run_src_unknown offsetBits bank src dst amount h ha
    · exact transfer_run_dst_unknown offsetBits bank src dst amount h ha

theorem unknown_account_not_found_witness :
    ((0 : AccountAmount) ≤ 10 ∧ Account_LookupByNumber 4 demoBank 18 = none ∧
      (Account_LookupByNumber 4 demoBank 0 = none ∨
        Account_LookupByNumber 4 demoBank 99 = none)) ∧
    ((∃ s, Teller_DoDeposit 4 demoBank 18 10 = some (ERROR_ACCOUNT_NOT_FOUND, s) ∧
      s.bank = demoBank ∧ ∀ l, Event.wait l ∉ s.trace) ∧
    (∃ s, Teller_DoWithdraw 4 demoBank 18 10 = some (ERROR_ACCOUNT_NOT_FOUND, s) ∧
      s.bank = demoBank ∧ ∀ l, Event.wait l ∉ s.trace) ∧
    (∃ s, Teller_DoTransfer 4 demoBank 0 99 10 = some (ERROR_ACCOUNT_NOT_FOUND, s) ∧
      s.bank = demoBank ∧ ∀ l, Event.wait l ∉ s.trace) ∧
    (∃ s, Teller_DoTransfer 4 demoBank 18 18 10 = some (ERROR_ACCOUNT_NOT_FOUND, s) ∧
      s.bank = demoBank ∧ ∀ l, Event.wait l ∉ s.trace)) :=
  ⟨⟨by decide, by decide, Or.inr (by decide)⟩,
    unknown_account_not_found 4 demoBank 18 0 99 10 (by decide) (by decide)
      (Or.inr (by decide))⟩

/-! ## Transfers between two branches -/

/-- What a transfer between two branches does, for every ledger: with
`0 ≤ amount ≤ balance(src)` it returns success, takes `amount` off the source and adds
it to the destination, and leaves every cached branch balance as it was, because
`Account_Adjust` is called with `!updateBranch`, which is false (lines 160-163). -/
theorem Teller_DoTransfer_cross_branch_effect (offsetBits : Nat) (bank : Bank)
    (src dst : AccountNumber) (amount : AccountAmount) (rs rd : AccountRef)
    (hs : Account_LookupByNumber offsetBits bank src = some rs)
    (hd : Account_LookupByNumber offsetBits bank dst = some rd)
    (hdiff : AccountNum_GetBranchID offsetBits src ≠ AccountNum_GetBranchID offsetBits dst)
    (ha : 0 ≤ amount) (hle : amount ≤ bank.balanceAt rs) :
    ∃ s, Teller_DoTransfer offsetBits bank src dst amount = some (ERROR_SUCCESS, s) ∧
      s.bank.balanceAt rs = bank.balanceAt rs - amount ∧
      s.bank.balanceAt rd = bank.balanceAt rd + amount ∧
      ∀ b, s.bank.branchBalance b = bank.branchBalance b := by
  have hbs := lookup_branch offsetBits bank src rs hs
  have hbd := lookup_branch offsetBits bank dst rd hd
  have hrr : rs ≠ rd := by rintro rfl; exact hdiff (hbs.symm.trans hbd)
  obtain ⟨_, accs, haccs⟩ := lookup_some offsetBits bank src rs hs
  obtain ⟨_, accd, haccd⟩ := lookup_some offsetBits bank dst rd hd
  exact ⟨_, transfer_run_cross_success offsetBits bank src dst amount rs rd hs hd ha hdiff hle,
    balanceAt_transfer_src bank rs rd amount accs haccs hrr,
    balanceAt_transfer_dst bank rs rd amount accd haccd hrr,
    branchBalance_transfer bank rs rd amount⟩

/-- C1, the code at a failing input: on the sample ledger (accounts at 100, branches at
200) the transfer of 30 from account 0 of branch 0 to account 16 of branch 1 returns
success and moves the 30 between the accounts, but the cached balances of both
branches stay at 200 instead of becoming 170 and 230. -/
theorem Teller_DoTransfer_cross_branch_stale_branches :
    Account_IsSameBranch 4 0 16 = false ∧
    Account_LookupByNumber 4 demoBank 0 = some ⟨0, 0⟩ ∧
    Account_LookupByNumber 4 demoBank 16 = some ⟨1, 0⟩ ∧
    ∃ s, Teller_DoTransfer 4 demoBank 0 16 30 = some (ERROR_SUCCESS, s) ∧
      s.bank.balanceAt ⟨0, 0⟩ = 70 ∧ s.bank.balanceAt ⟨1, 0⟩ = 130 ∧
      s.bank.branchBalance 0 = 200 ∧ s.bank.branchBalance 1 = 200 ∧
      s.bank.branchBalance 0 ≠ demoBank.branchBalance 0 - 30 ∧
      s.bank.branchBalance 1 ≠ demoBank.branchBalance 1 + 30 ∧
      Event.writeBranch 0 ∉ s.trace ∧ Event.writeBranch 1 ∉ s.trace :=
  ⟨by decide, by decide, by decide, _, rfl, by decide, by decide, by decide, by decide,
    by decide, by decide, by decide, by decide⟩

/-! ## Branch aggregate consistency -/

theorem updateAt_updateAt {α : Type} (f g : α → α) (n : Nat) (l : List α) :
    updateAt g n (updateAt f n l) = updateAt (fun x => g (f x)) n l := by
  induction l generalizing n with
  | nil => simp [updateAt]
  | cons x xs ih => cases n <;> simp [updateAt, ih]

theorem mem_updateAt {α : Type} (f : α → α) (n : Nat) (l : List α) (y : α)
    (h : y ∈ updateAt f n l) : y ∈ l ∨ ∃ x, l[n]? = some x ∧ y = f x := by
  induction l generalizing n with
  | nil => simp [updateAt] at h
  | cons x xs ih =>
    cases n with
    | zero =>
      simp only [updateAt, List.mem_cons] at h
      rcases h with h | h
      · exact Or.inr ⟨x, by simp, h⟩
      · exact Or.inl (List.mem_cons_of_mem x h)
    | succ k =>
      simp only [updateAt, List.mem_cons] at h
      rcases h with h | h
      · exact Or.inl (h ▸ List.mem_cons_self x xs)
      · rcases ih k h with h1 | ⟨z, hz, hy⟩
        · exact Or.inl (List.mem_cons_of_mem x h1)
        · exact Or.inr ⟨z, by simpa using hz, hy⟩

theorem accountSum_addToAccount (br : Branch) (i : Nat) (d : AccountAmount) (acc : Account)
    (h : br.accounts[i]? = some acc) :
    (br.addToAccount i d).accountSum = br.accountSum + d := by
  simp only [Branch.accountSum, Branch.addToAccount]
  rw [sum_map_updateAt (fun acc => acc.balance) _ i br.accounts acc h]
  ring

theorem consistent_adjust_with_branch (bank : Bank) (r : AccountRef) (d : AccountAmount)
    (acc : Account) (hacc : bank.account? r = some acc) (hc : bank.Consistent) :
    ((bank.addToAccount r d).addToBranch r.branch d).Consistent := by
  intro br hbr
  simp only [Bank.addToBranch, Bank.addToAccount, updateAt_updateAt] at hbr
  rcases mem_updateAt _ _ _ _ hbr with h | ⟨x, hx, rfl⟩
  · exact hc br h
  · have hxc := hc x (List.getElem?_mem hx)
    have hi : x.accounts[r.index]? = some acc := by
      simpa [Bank.account?, hx] using hacc
    show (x.addToAccount r.index d).balance + d = (x.addToAccount r.index d).accountSum
    rw [accountSum_addToAccount x r.index d acc hi, ← hxc]
    rfl

theorem consistent_transfer_same_branch (bank : Bank) (rs rd : AccountRef) (d : AccountAmount)
    (accs accd : Account) (hs : bank.account? rs = some accs)
    (hd : bank.account? rd = some accd) (hb : rs.branch = rd.branch) (hc : bank.Consistent) :
    ((bank.addToAccount rs (-d)).addToAccount rd d).Consistent := by
  intro br hbr
  simp only [Bank.addToAccount, ← hb, updateAt_updateAt] at hbr
  rcases mem_updateAt _ _ _ _ hbr with h | ⟨x, hx, rfl⟩
  · exact hc br h
  · have hxc := hc x (List.getElem?_mem hx)
    have hi : x.accounts[rs.index]? = some accs := by
      simpa [Bank.account?, hx] using hs
    have hj : x.accounts[rd.index]? = some accd := by
      simpa [Bank.account?, ← hb, hx] using hd
    have hj2 : ((x.addToAccount rs.index (-d)).accounts[rd.index]?).isSome := by
      simp only [Branch.addToAccount, getElem?_updateAt]
      split <;> simp [hj]
    obtain ⟨acc2, hacc2⟩ := Option.isSome_iff_exists.mp hj2
    show ((x.addToAccount rs.index (-d)).addToAccount rd.index d).balance =
      ((x.addToAccount rs.index (-d)).addToAccount rd.index d).accountSum
    rw [accountSum_addToAccount _ rd.index d acc2 hacc2,
      accountSum_addToAccount x rs.index (-d) accs hi, ← hxc]
    simp [Branch.addToAccount]

/-- Deposits keep branch aggregate consistency, whatever the account number. -/
theorem Teller_DoDeposit_preserves_consistent (offsetBits : Nat) (bank : Bank)
    (a : AccountNumber) (amount : AccountAmount) (ha : 0 ≤ amount) (hc : bank.Consistent) :
    ∃ c s, Teller_DoDeposit offsetBits bank a amount = some (c, s) ∧ s.bank.Consistent := by
  cases hr : Account_LookupByNumber offsetBits bank a with
  | none =>
    exact ⟨ERROR_ACCOUNT_NOT_FOUND, ⟨bank, []⟩,
      by simp [Teller_DoDeposit, hr, not_lt.mpr ha], hc⟩
  | some r =>
    obtain ⟨_, acc, hacc⟩ := lookup_some offsetBits bank a r hr
    exact ⟨_, _, deposit_run offsetBits bank a amount r hr ha,
      consistent_adjust_with_branch bank r amount acc hacc hc⟩

/-- Withdrawals keep branch aggregate consistency, whatever the account number. -/
theorem Teller_DoWithdraw_preserves_consistent (offsetBits : Nat) (bank : Bank)
    (a : AccountNumber) (amount : AccountAmount) (ha : 0 ≤ amount) (hc : bank.Consistent) :
    ∃ c s, Teller_DoWithdraw offsetBits bank a amount = some (c, s) ∧ s.bank.Consistent := by
  cases hr : Account_LookupByNumber offsetBits bank a with
  | none =>
    exact ⟨ERROR_ACCOUNT_NOT_FOUND, ⟨bank, []⟩,
      by simp [Teller_DoWithdraw, hr, not_lt.mpr ha], hc⟩
  | some r =>
    obtain ⟨_, acc, hacc⟩ := lookup_some offsetBits bank a r hr
    by_cases hlt : bank.balanceAt r < amount
    · exact ⟨_, _, withdraw_run_insufficient offsetBits bank a amount r hr ha hlt, hc⟩
    · exact ⟨_, _, withdraw_run_success offsetBits bank a amount r hr ha (not_lt.mp hlt),
        consistent_adjust_with_branch bank r (-amount) acc hacc hc⟩

/-- Transfers keep branch aggregate consistency unless they succeed between two
branches: every transfer inside one branch and every transfer that returns another
code than success leaves a consistent ledger consistent. -/
theorem Teller_DoTransfer_preserves_consistent (offsetBits : Nat) (bank : Bank)
    (src dst : AccountNumber) (amount : AccountAmount) (ha : 0 ≤ amount)
    (hc : bank.Consistent) :
    ∃ c s, Teller_DoTransfer offsetBits bank src dst amount = some (c, s) ∧
      ((AccountNum_GetBranchID offsetBits src = AccountNum_GetBranchID offsetBits dst ∨
        c ≠ ERROR_SUCCESS) → s.bank.Consistent) := by
  cases hs : Account_LookupByNumber offsetBits bank src with
  | none =>
    exact ⟨_, _, transfer_run_src_unknown offsetBits bank src dst amount hs ha, fun _ => hc⟩
  | some rs =>
    cases hd : Account_LookupByNumber offsetBits bank dst with
    | none =>
      exact ⟨_, _, transfer_run_dst_unknown offsetBits bank src dst amount hd ha, fun _ => hc⟩
    | some rd =>
      obtain ⟨_, accs, haccs⟩ := lookup_some offsetBits bank src rs hs
      obtain ⟨_, accd, haccd⟩ := lookup_some offsetBits bank dst rd hd
      by_cases hsame :
          AccountNum_GetBranchID offsetBits src = AccountNum_GetBranchID offsetBits dst
      · have hb : rs.branch = rd.branch := by
          rw [lookup_branch offsetBits bank src rs hs, lookup_branch offsetBits bank dst rd hd,
            hsame]
        by_cases hnum : bank.accountNumberAt rs = bank.accountNumberAt rd
        · exact ⟨_, _, transfer_run_same_number offsetBits bank src dst amount rs rd hs hd ha
            hsame hnum, fun _ => hc⟩
        · by_cases hlt : bank.balanceAt rs < amount
          · exact ⟨_, _, transfer_run_same_insufficient offsetBits bank src dst amount rs rd
              hs hd ha hsame hnum hlt, fun _ => hc⟩
          · exact ⟨_, _, transfer_run_same_success offsetBits bank src dst amount rs rd
              hs hd ha hsame hnum (not_lt.mp hlt),
              fun _ => consistent_transfer_same_branch bank rs rd amount accs accd haccs haccd
                hb hc⟩
      · by_cases hlt : bank.balanceAt rs < amount
        · exact ⟨_, _, transfer_run_cross_insufficient offsetBits bank src dst amount rs rd
            hs hd ha hsame hlt, fun _ => hc⟩
        · refine ⟨_, _, transfer_run_cross_success offsetBits bank src dst amount rs rd
            hs hd ha hsame (not_lt.mp hlt), fun h => ?_⟩
          rcases h with h | h
          · exact absurd h hsame
          · exact absurd rfl h

/-- C2, the code at a failing input: the sample ledger is consistent (each branch holds
200, the sum of its two accounts), and after the successful transfer of 100 from
account 17 of branch 1 to account 1 of branch 0 it is not: the accounts of branch 0
sum to 300 and those of branch 1 to 100 while both cached balances are still 200. -/
theorem Teller_DoTransfer_cross_branch_breaks_consistency :
    demoBank.Consistent ∧
    ∃ s, Teller_DoTransfer 4 demoBank 17 1 100 = some (ERROR_SUCCESS, s) ∧
      ¬ s.bank.Consistent :=
  ⟨by decide, _, rfl, by decide⟩

/-! ## The sum of all account balances -/

theorem totalAccounts_transfer (bank : Bank) (rs rd : AccountRef) (amount : AccountAmount)
    (accs accd : Account) (hs : bank.account? rs = some accs)
    (hd : bank.account? rd = some accd) :
    ((bank.addToAccount rs (-amount)).addToAccount rd amount).totalAccounts =
      bank.totalAccounts := by
  have h1 : ((bank.addToAccount rs (-amount)).account? rd).isSome := by
    rw [account?_isSome_addToAccount, hd]; rfl
  obtain ⟨acc1, hacc1⟩ := Option.isSome_iff_exists.mp h1
  rw [totalAccounts_addToAccount _ rd amount acc1 hacc1,
    totalAccounts_addToAccount bank rs (-amount) accs hs]
  ring

theorem Op.run_totalAccounts (offsetBits : Nat) (bank : Bank) (op : Op)
    (ha : 0 ≤ op.amount) :
    ∃ c s, op.run offsetBits bank = some (c, s) ∧
      s.bank.totalAccounts = bank.totalAccounts + op.netDelta c := by
  cases op with
  | deposit a amount =>
    simp only [Op.amount] at ha
    cases hr : Account_LookupByNumber offsetBits bank a with
    | none =>
      refine ⟨ERROR_ACCOUNT_NOT_FOUND, ⟨bank, []⟩, ?_, by simp [Op.netDelta]⟩
      simp [Op.run, Teller_DoDeposit, hr, not_lt.mpr ha]
    | some r =>
      obtain ⟨_, acc, hacc⟩ := lookup_some offsetBits bank a r hr
      refine ⟨_, _, deposit_run offsetBits bank a amount r hr ha, ?_⟩
      show ((bank.addToAccount r amount).addToBranch r.branch amount).totalAccounts = _
      rw [totalAccounts_addToBranch, totalAccounts_addToAccount bank r amount acc hacc]
      rfl
  | withdraw a amount =>
    simp only [Op.amount] at ha
    cases hr : Account_LookupByNumber offsetBits bank a with
    | none =>
      refine ⟨ERROR_ACCOUNT_NOT_FOUND, ⟨bank, []⟩, ?_, by simp [Op.netDelta]⟩
      simp [Op.run, Teller_DoWithdraw, hr, not_lt.mpr ha]
    | some r =>
      obtain ⟨_, acc, hacc⟩ := lookup_some offsetBits bank a r hr
      by_cases hlt : bank.balanceAt r < amount
      · exact ⟨_, _, withdraw_run_insufficient offsetBits bank a amount r hr ha hlt,
          by simp [Op.netDelta]⟩
      · refine ⟨_, _, withdraw_run_success offsetBits bank a amount r hr ha (not_lt.mp hlt), ?_⟩
        show ((bank.addToAccount r (-amount)).addToBranch r.branch (-amount)).totalAccounts = _
        rw [totalAccounts_addToBranch, totalAccounts_addToAccount bank r (-amount) acc hacc]
        rfl
  | transfer src dst amount =>
    simp only [Op.amount] at ha
    cases hs : Account_LookupByNumber offsetBits bank src with
    | none =>
      exact ⟨_, _, transfer_run_src_unknown offsetBits bank src dst amount hs ha,
        by simp [Op.netDelta]⟩
    | some rs =>
      cases hd : Account_LookupByNumber offsetBits bank dst with
      | none =>
        exact ⟨_, _, transfer_run_dst_unknown offsetBits bank src dst amount hd ha,
          by simp [Op.netDelta]⟩
      | some rd =>
        obtain ⟨_, accs, haccs⟩ := lookup_some offsetBits bank src rs hs
        obtain ⟨_, accd, haccd⟩ := lookup_some offsetBits bank dst rd hd
        have htot := totalAccounts_transfer bank rs rd amount accs accd haccs haccd
        by_cases hsame :
            AccountNum_GetBranchID offsetBits src = AccountNum_GetBranchID offsetBits dst
        · by_cases hnum : bank.accountNumberAt rs = bank.accountNumberAt rd
          · exact ⟨_, _, transfer_run_same_number offsetBits bank src dst amount rs rd hs hd ha
              hsame hnum, by simp [Op.netDelta]⟩
          · by_cases hlt : bank.balanceAt rs < amount
            · exact ⟨_, _, transfer_run_same_insufficient offsetBits bank src dst amount rs rd
                hs hd ha hsame hnum hlt, by simp [Op.netDelta]⟩
            · exact ⟨_, _, transfer_run_same_success offsetBits bank src dst amount rs rd
                hs hd ha hsame hnum (not_lt.mp hlt), by simp [Op.netDelta, htot]⟩
        · by_cases hlt : bank.balanceAt rs < amount
          · exact ⟨_, _, transfer_run_cross_insufficient offsetBits bank src dst amount rs rd
              hs hd ha hsame hlt, by simp [Op.netDelta]⟩
          · exact ⟨_, _, transfer_run_cross_success offsetBits bank src dst amount rs rd
              hs hd ha hsame (not_lt.mp hlt), by simp [Op.netDelta, htot]⟩

/-- C10: every finite sequence of deposits, withdrawals and transfers with amounts
`≥ 0`, run call after call from any ledger, returns, and the sum of all account
balances afterwards is the initial sum plus the amounts of the successful deposits
minus the amounts of the successful withdrawals; transfers and failed calls add
nothing. -/
theorem runOps_totalAccounts (offsetBits : Nat) (bank : Bank) (ops : List Op)
    (hops : ∀ op ∈ ops, 0 ≤ op.amount) :
    ∃ final codes, runOps offsetBits bank ops = some (final, codes) ∧
      codes.length = ops.length ∧
      final.totalAccounts = bank.totalAccounts + netDeltas ops codes := by
  induction ops generalizing bank with
  | nil => exact ⟨bank, [], rfl, rfl, by simp [netDeltas]⟩
  | cons op ops ih =>
    obtain ⟨c, s, hrun, hsum⟩ :=
      Op.run_totalAccounts offsetBits bank op (hops op (List.mem_cons_self op ops))
    obtain ⟨final, codes, hrest, hlen, htot⟩ :=
      ih s.bank (fun o ho => hops o (List.mem_cons_of_mem op ho))
    refine ⟨final, c :: codes, ?_, by simp [hlen], ?_⟩
    · simp [runOps, hrun, hrest]
    · rw [htot, hsum]
      simp [netDeltas]
      ring

theorem runOps_totalAccounts_witness :
    (∀ op ∈ [Op.deposit 0 25, Op.withdraw 17 500, Op.transfer 0 16 30, Op.withdraw 16 40,
        Op.transfer 1 99 5, Op.deposit 99 7], 0 ≤ op.amount) ∧
    ∃ final codes,
      runOps 4 demoBank [Op.deposit 0 25, Op.withdraw 17 500, Op.transfer 0 16 30,
        Op.withdraw 16 40, Op.transfer 1 99 5, Op.deposit 99 7] = some (final, codes) ∧
      codes.length = [Op.deposit 0 25, Op.withdraw 17 500, Op.transfer 0 16 30,
        Op.withdraw 16 40, Op.transfer 1 99 5, Op.deposit 99 7].length ∧
      final.totalAccounts = demoBank.totalAccounts +
        netDeltas [Op.deposit 0 25, Op.withdraw 17 500, Op.transfer 0 16 30,
          Op.withdraw 16 40, Op.transfer 1 99 5, Op.deposit 99 7] codes :=
  ⟨by decide, runOps_totalAccounts 4 demoBank _ (by decide)⟩

/-! ## No negative balance -/

theorem nonNegative_balanceAt (bank : Bank) (hnn : bank.NonNegative) (r : AccountRef) :
    0 ≤ bank.balanceAt r := by
  unfold Bank.balanceAt Bank.account?
  cases hbr : bank.branches[r.branch]? with
  | none => simp
  | some br =>
    cases hacc : br.accounts[r.index]? with
    | none => simp [hacc]
    | some acc =>
      simp only [hacc]
      exact hnn br (List.getElem?_mem hbr) acc (List.getElem?_mem hacc)

theorem nonNegative_addToBranch (bank : Bank) (b : BranchID) (d : AccountAmount)
    (hnn : bank.NonNegative) : (bank.addToBranch b d).NonNegative := by
  intro br hbr acc hacc
  rcases mem_updateAt _ _ _ _ hbr with h | ⟨x, hx, rfl⟩
  · exact hnn br h acc hacc
  · exact hnn x (List.getElem?_mem hx) acc hacc

theorem nonNegative_addToAccount (bank : Bank) (r : AccountRef) (d : AccountAmount)
    (hnn : bank.NonNegative) (hd : 0 ≤ bank.balanceAt r + d) :
    (bank.addToAccount r d).NonNegative := by
  intro br hbr acc hacc
  rcases mem_updateAt _ _ _ _ hbr with h | ⟨x, hx, rfl⟩
  · exact hnn br h acc hacc
  · rcases mem_updateAt _ _ _ _ hacc with h | ⟨y, hy, rfl⟩
    · exact hnn x (List.getElem?_mem hx) acc h
    · have : bank.balanceAt r = y.balance := by
        simp [Bank.balanceAt, Bank.account?, hx, hy]
      rw [this] at hd
      exact hd

theorem nonNegative_transfer (bank : Bank) (rs rd : AccountRef) (amount : AccountAmount)
    (hnn : bank.NonNegative) (ha : 0 ≤ amount) (hle : amount ≤ bank.balanceAt rs) :
    ((bank.addToAccount rs (-amount)).addToAccount rd amount).NonNegative := by
  have h1 : (bank.addToAccount rs (-amount)).NonNegative :=
    nonNegative_addToAccount bank rs (-amount) hnn (by linarith)
  exact nonNegative_addToAccount _ rd amount h1
    (by have := nonNegative_balanceAt _ h1 rd; linarith)

/-- C11, the claim as stated fails: on the sample ledger, whose balances are all 100,
the transfer of 5000 from account 16 to itself has `amount > balance` and returns
`ERROR_SUCCESS`, not `ERROR_INSUFFICIENT_FUNDS`; and the transfer of 5000 from account
16 to the unknown number 99 returns `ERROR_ACCOUNT_NOT_FOUND`. -/
theorem Teller_DoTransfer_over_balance_without_insufficient_funds :
    demoBank.NonNegative ∧ (0 : AccountAmount) ≤ 5000 ∧
    Account_LookupByNumber 4 demoBank 16 = some ⟨1, 0⟩ ∧
    (5000 : AccountAmount) > demoBank.balanceAt ⟨1, 0⟩ ∧
    Teller_DoTransfer 4 demoBank 16 16 5000 =
      some (ERROR_SUCCESS, { bank := demoBank, trace := [] }) ∧
    Teller_DoTransfer 4 demoBank 16 99 5000 =
      some (ERROR_ACCOUNT_NOT_FOUND, { bank := demoBank, trace := [] }) :=
  ⟨by decide, by decide, by decide, by decide, by decide, by decide⟩

/-- C11, as amended: on a well-formed ledger without negative balance, a withdrawal and
a transfer of `amount ≥ 0` return and leave no balance negative, so a successful one
leaves the debited account at `≥ 0`; the result is `ERROR_INSUFFICIENT_FUNDS` whenever
`amount` exceeds the balance of the debited account and the call reaches the funds
check, that is the account of a withdrawal resolves, and both accounts of a transfer
resolve and are distinct. -/
theorem no_negative_balance (offsetBits : Nat) (bank : Bank) (a src dst : AccountNumber)
    (amount : AccountAmount) (hwf : bank.WellFormed offsetBits) (hnn : bank.NonNegative)
    (ha : 0 ≤ amount) :
    (∃ c s, Teller_DoWithdraw offsetBits bank a amount = some (c, s) ∧
      s.bank.NonNegative ∧
      (∀ r, Account_LookupByNumber offsetBits bank a = some r →
        0 ≤ s.bank.balanceAt r ∧
        (amount > bank.balanceAt r → c = ERROR_INSUFFICIENT_FUNDS))) ∧
    (∃ c s, Teller_DoTransfer offsetBits bank src dst amount = some (c, s) ∧
      s.bank.NonNegative ∧
      (∀ rs rd, Account_LookupByNumber offsetBits bank src = some rs →
        Account_LookupByNumber offsetBits bank dst = some rd →
        0 ≤ s.bank.balanceAt rs ∧
        (src ≠ dst → amount > bank.balanceAt rs → c = ERROR_INSUFFICIENT_FUNDS))) := by
  constructor
  · cases hr : Account_LookupByNumber offsetBits bank a with
    | none =>
      exact ⟨ERROR_ACCOUNT_NOT_FOUND, ⟨bank, []⟩,
        by simp [Teller_DoWithdraw, hr, not_lt.mpr ha], hnn, fun r h => by cases h⟩
    | some r =>
      by_cases hlt : bank.balanceAt r < amount
      · refine ⟨_, _, withdraw_run_insufficient offsetBits bank a amount r hr ha hlt, hnn,
          fun r1 _ => ⟨nonNegative_balanceAt bank hnn r1, fun _ => rfl⟩⟩
      · have hpost : ((bank.addToAccount r (-amount)).addToBranch r.branch
            (-amount)).NonNegative :=
          nonNegative_addToBranch _ _ _
            (nonNegative_addToAccount bank r (-amount) hnn (by linarith))
        refine ⟨_, _, withdraw_run_success offsetBits bank a amount r hr ha (not_lt.mp hlt),
          hpost, fun r1 h1 => ⟨nonNegative_balanceAt _ hpost r1, fun h => ?_⟩⟩
        cases h1
        exact absurd h hlt
  · cases hs : Account_LookupByNumber offsetBits bank src with
    | none =>
      exact ⟨_, _, transfer_run_src_unknown offsetBits bank src dst amount hs ha, hnn,
        fun rs rd h => by cases h⟩
    | some rs =>
      cases hd : Account_LookupByNumber offsetBits bank dst with
      | none =>
        exact ⟨_, _, transfer_run_dst_unknown offsetBits bank src dst amount hd ha, hnn,
          fun rs rd _ h => by cases h⟩
      | some rd =>
        have hns := lookup_accountNumberAt offsetBits bank hwf src rs hs
        have hnd := lookup_accountNumberAt offsetBits bank hwf dst rd hd
        by_cases hsame :
            AccountNum_GetBranchID offsetBits src = AccountNum_GetBranchID offsetBits dst
        · by_cases hnum : bank.accountNumberAt rs = bank.accountNumberAt rd
          · refine ⟨_, _, transfer_run_same_number offsetBits bank src dst amount rs rd hs hd
              ha hsame hnum, hnn, fun r1 r2 _ _ =>
              ⟨nonNegative_balanceAt bank hnn r1, fun hne _ => ?_⟩⟩
            rw [hns, hnd] at hnum
            exact absurd hnum hne
          · by_cases hlt : bank.balanceAt rs < amount
            · exact ⟨_, _, transfer_run_same_insufficient offsetBits bank src dst amount rs rd
                hs hd ha hsame hnum hlt, hnn, fun r1 r2 _ _ =>
                ⟨nonNegative_balanceAt bank hnn r1, fun _ _ => rfl⟩⟩
            · have hpost := nonNegative_transfer bank rs rd amount hnn ha (not_lt.mp hlt)
              refine ⟨_, _, transfer_run_same_success offsetBits bank src dst amount rs rd
                hs hd ha hsame hnum (not_lt.mp hlt), hpost, fun r1 r2 h1 _ =>
                ⟨nonNegative_balanceAt _ hpost r1, fun _ h => ?_⟩⟩
              cases h1
              exact absurd h hlt
        · by_cases hlt : bank.balanceAt rs < amount
          · exact ⟨_, _, transfer_run_cross_insufficient offsetBits bank src dst amount rs rd
              hs hd ha hsame hlt, hnn, fun r1 r2 _ _ =>
              ⟨nonNegative_balanceAt bank hnn r1, fun _ _ => rfl⟩⟩
          · have hpost := nonNegative_transfer bank rs rd amount hnn ha (not_lt.mp hlt)
            refine ⟨_, _, transfer_run_cross_success offsetBits bank src dst amount rs rd
              hs hd ha hsame (not_lt.mp hlt), hpost, fun r1 r2 h1 _ =>
              ⟨nonNegative_balanceAt _ hpost r1, fun _ h => ?_⟩⟩
            cases h1
            exact absurd h hlt

theorem no_negative_balance_witness :
    (demoBank.WellFormed 4 ∧ demoBank.NonNegative ∧ (0 : AccountAmount) ≤ 150) ∧
    ((∃ c s, Teller_DoWithdraw 4 demoBank 17 150 = some (c, s) ∧
      s.bank.NonNegative ∧
      (∀ r, Account_LookupByNumber 4 demoBank 17 = some r →
        0 ≤ s.bank.balanceAt r ∧
        ((150 : AccountAmount) > demoBank.balanceAt r → c = ERROR_INSUFFICIENT_FUNDS))) ∧
    (∃ c s, Teller_DoTransfer 4 demoBank 1 16 150 = some (c, s) ∧
      s.bank.NonNegative ∧
      (∀ rs rd, Account_LookupByNumber 4 demoBank 1 = some rs →
        Account_LookupByNumber 4 demoBank 16 = some rd →
        0 ≤ s.bank.balanceAt rs ∧
        ((1 : AccountNumber) ≠ 16 → (150 : AccountAmount) > demoBank.balanceAt rs →
          c = ERROR_INSUFFICIENT_FUNDS)))) :=
  ⟨⟨by decide, by decide, by decide⟩,
    no_negative_balance 4 demoBank 17 1 16 150 (by decide) (by decide) (by decide)⟩

/-! ## Transfer there and back -/

theorem updateAt_congr {α : Type} (f g : α → α) (h : ∀ x, f x = g x) (n : Nat) (l : List α) :
    updateAt f n l = updateAt g n l := by
  induction l generalizing n with
  | nil => simp [updateAt]
  | cons x xs ih => cases n <;> simp [updateAt, ih, h]

theorem updateAt_id {α : Type} (f : α → α) (h : ∀ x, f x = x) (n : Nat) (l : List α) :
    updateAt f n l = l := by
  induction l generalizing n with
  | nil => simp [updateAt]
  | cons x xs ih => cases n <;> simp [updateAt, ih, h]

theorem branch_addToAccount_twice (br : Branch) (i : Nat) (x y : AccountAmount) :
    (br.addToAccount i x).addToAccount i y = br.addToAccount i (x + y) := by
  simp only [Branch.addToAccount, updateAt_updateAt]
  congr 1
  apply updateAt_congr
  intro acc
  simp [add_assoc]

theorem branch_addToAccount_zero (br : Branch) (i : Nat) : br.addToAccount i 0 = br := by
  simp only [Branch.addToAccount]
  rw [updateAt_id]
  intro acc
  simp

theorem bank_addToAccount_twice (bank : Bank) (r : AccountRef) (x y : AccountAmount) :
    (bank.addToAccount r x).addToAccount r y = bank.addToAccount r (x + y) := by
  simp only [Bank.addToAccount, updateAt_updateAt]
  congr 1
  apply updateAt_congr
  intro br
  exact branch_addToAccount_twice br r.index x y

theorem bank_addToAccount_zero (bank : Bank) (r : AccountRef) : bank.addToAccount r 0 = bank := by
  simp only [Bank.addToAccount]
  rw [updateAt_id]
  intro br
  exact branch_addToAccount_zero br r.index

theorem round_trip_bank (bank : Bank) (rs rd : AccountRef) (d : AccountAmount) :
    (((bank.addToAccount rs (-d)).addToAccount rd d).addToAccount rd (-d)).addToAccount rs d =
      bank := by
  rw [bank_addToAccount_twice _ rd, add_neg_cancel, bank_addToAccount_zero,
    bank_addToAccount_twice, neg_add_cancel, bank_addToAccount_zero]

theorem lookup_addToAccount (offsetBits : Nat) (bank : Bank) (r : AccountRef)
    (d : AccountAmount) (n : AccountNumber) :
    Account_LookupByNumber offsetBits (bank.addToAccount r d) n =
      Account_LookupByNumber offsetBits bank n := by
  simp only [Account_LookupByNumber, Bank.addToAccount, getElem?_updateAt]
  by_cases h : AccountNum_GetBranchID offsetBits n = r.branch
  · cases hbr : bank.branches[AccountNum_GetBranchID offsetBits n]? with
    | none => simp [h]
    | some br => simp [h, Branch.addToAccount, length_updateAt]
  · simp [h]

theorem bank_Validate_of_consistent (bank : Bank) (hc : bank.Consistent) :
    Bank_Validate bank = true := by
  have hsum : bank.totalAccounts = Bank_Balance bank := by
    unfold Bank.totalAccounts Bank_Balance
    congr 1
    apply List.map_congr_left
    intro br hbr
    exact (hc br hbr).symm
  simp only [Bank_Validate, Bool.and_eq_true, List.all_eq_true, decide_eq_true_eq]
  exact ⟨fun br hbr => (hc br hbr).symm, hsum⟩

/-- C12: on a consistent ledger without negative balance, for two accounts `a` and `b`
that resolve (in one branch or in two) and `0 ≤ amount ≤ balance(a)`, the transfer
from `a` to `b` followed by the transfer from `b` to `a` both return success and the
ledger is again the initial one: every account balance and every cached branch
balance is restored, the ledger is consistent and `Bank_Validate` succeeds. -/
theorem Teller_DoTransfer_round_trip (offsetBits : Nat) (bank : Bank) (a b : AccountNumber)
    (amount : AccountAmount) (ra rb : AccountRef)
    (hnn : bank.NonNegative) (hc : bank.Consistent)
    (hra : Account_LookupByNumber offsetBits bank a = some ra)
    (hrb : Account_LookupByNumber offsetBits bank b = some rb)
    (ha : 0 ≤ amount) (hle : amount ≤ bank.balanceAt ra) :
    ∃ s1 s2, Teller_DoTransfer offsetBits bank a b amount = some (ERROR_SUCCESS, s1) ∧
      Teller_DoTransfer offsetBits s1.bank b a amount = some (ERROR_SUCCESS, s2) ∧
      s2.bank = bank ∧
      (∀ r, s2.bank.balanceAt r = bank.balanceAt r) ∧
      (∀ br, s2.bank.branchBalance br = bank.branchBalance br) ∧
      s2.bank.Consistent ∧ Bank_Validate s2.bank = true := by
  suffices h : ∃ s1 s2, Teller_DoTransfer offsetBits bank a b amount = some (ERROR_SUCCESS, s1) ∧
      Teller_DoTransfer offsetBits s1.bank b a amount = some (ERROR_SUCCESS, s2) ∧
      s2.bank = bank by
    obtain ⟨s1, s2, h1, h2, h3⟩ := h
    exact ⟨s1, s2, h1, h2, h3, fun r => by rw [h3], fun br => by rw [h3], by rw [h3]; exact hc,
      by rw [h3]; exact bank_Validate_of_consistent bank hc⟩
  obtain ⟨_, acca, hacca⟩ := lookup_some offsetBits bank a ra hra
  obtain ⟨_, accb, haccb⟩ := lookup_some offsetBits bank b rb hrb
  have hback : ∀ (hne : ra ≠ rb),
      amount ≤ ((bank.addToAccount ra (-amount)).addToAccount rb amount).balanceAt rb := by
    intro hne
    rw [balanceAt_transfer_dst bank ra rb amount accb haccb hne]
    have := nonNegative_balanceAt bank hnn rb
    linarith
  have hra2 : Account_LookupByNumber offsetBits
      ((bank.addToAccount ra (-amount)).addToAccount rb amount) a = some ra := by
    rw [lookup_addToAccount, lookup_addToAccount, hra]
  have hrb2 : Account_LookupByNumber offsetBits
      ((bank.addToAccount ra (-amount)).addToAccount rb amount) b = some rb := by
    rw [lookup_addToAccount, lookup_addToAccount, hrb]
  by_cases hsame : AccountNum_GetBranchID offsetBits a = AccountNum_GetBranchID offsetBits b
  · by_cases hnum : bank.accountNumberAt ra = bank.accountNumberAt rb
    · exact ⟨_, _, transfer_run_same_number offsetBits bank a b amount ra rb hra hrb ha hsame
        hnum, transfer_run_same_number offsetBits bank b a amount rb ra hrb hra ha hsame.symm
        hnum.symm, rfl⟩
    · have hne : ra ≠ rb := by rintro rfl; exact hnum rfl
      have hnum2 : ((bank.addToAccount ra (-amount)).addToAccount rb amount).accountNumberAt rb ≠
          ((bank.addToAccount ra (-amount)).addToAccount rb amount).accountNumberAt ra := by
        simp only [accountNumberAt_addToAccount]
        exact fun h => hnum h.symm
      exact ⟨_, _, transfer_run_same_success offsetBits bank a b amount ra rb hra hrb ha hsame
        hnum hle, transfer_run_same_success offsetBits _ b a amount rb ra hrb2 hra2 ha
        hsame.symm hnum2 (hback hne), round_trip_bank bank ra rb amount⟩
  · have hne : ra ≠ rb := by
      rintro rfl
      exact hsame ((lookup_branch offsetBits bank a ra hra).symm.trans
        (lookup_branch offsetBits bank b ra hrb))
    exact ⟨_, _, transfer_run_cross_success offsetBits bank a b amount ra rb hra hrb ha hsame
      hle, transfer_run_cross_success offsetBits _ b a amount rb ra hrb2 hra2 ha
      (fun h => hsame h.symm) (hback hne), round_trip_bank bank ra rb amount⟩

theorem Teller_DoTransfer_round_trip_witness :
    (demoBank.NonNegative ∧ demoBank.Consistent ∧
      Account_LookupByNumber 4 demoBank 0 = some ⟨0, 0⟩ ∧
      Account_LookupByNumber 4 demoBank 16 = some ⟨1, 0⟩ ∧ (0 : AccountAmount) ≤ 30 ∧
      (30 : AccountAmount) ≤ demoBank.balanceAt ⟨0, 0⟩) ∧
    ∃ s1 s2, Teller_DoTransfer 4 demoBank 0 16 30 = some (ERROR_SUCCESS, s1) ∧
      Teller_DoTransfer 4 s1.bank 16 0 30 = some (ERROR_SUCCESS, s2) ∧
      s2.bank = demoBank ∧
      (∀ r, s2.bank.balanceAt r = demoBank.balanceAt r) ∧
      (∀ br, s2.bank.branchBalance br = demoBank.branchBalance br) ∧
      s2.bank.Consistent ∧ Bank_Validate s2.bank = true :=
  ⟨⟨by decide, by decide, by decide, by decide, by decide, by decide⟩,
    Teller_DoTransfer_round_trip 4 demoBank 0 16 30 ⟨0, 0⟩ ⟨1, 0⟩ (by decide) (by decide)
      (by decide) (by decide) (by decide) (by decide)⟩

/-! ## Frame -/

theorem frame_adjust_with_branch (offsetBits : Nat) (bank : Bank) (a : AccountNumber)
    (r : AccountRef) (d : AccountAmount)
    (hr : Account_LookupByNumber offsetBits bank a = some r) :
    (∀ r1, Account_LookupByNumber offsetBits bank a ≠ some r1 →
      ((bank.addToAccount r d).addToBranch r.branch d).balanceAt r1 = bank.balanceAt r1) ∧
    (∀ b, b ≠ AccountNum_GetBranchID offsetBits a →
      ((bank.addToAccount r d).addToBranch r.branch d).branchBalance b =
        bank.branchBalance b) := by
  constructor
  · intro r1 h1
    have hne : r1 ≠ r := by rintro rfl; exact h1 hr
    rw [balanceAt_addToBranch, balanceAt_addToAccount_other bank r r1 d hne]
  · intro b hb
    rw [← lookup_branch offsetBits bank a r hr] at hb
    rw [branchBalance_addToBranch_other _ r.branch b d hb, branchBalance_addToAccount]

theorem frame_transfer (offsetBits : Nat) (bank : Bank) (src dst : AccountNumber)
    (rs rd : AccountRef) (d : AccountAmount)
    (hs : Account_LookupByNumber offsetBits bank src = some rs)
    (hd : Account_LookupByNumber offsetBits bank dst = some rd) :
    (∀ r1, Account_LookupByNumber offsetBits bank src ≠ some r1 →
      Account_LookupByNumber offsetBits bank dst ≠ some r1 →
      ((bank.addToAccount rs (-d)).addToAccount rd d).balanceAt r1 = bank.balanceAt r1) ∧
    (∀ b, b ≠ AccountNum_GetBranchID offsetBits src →
      b ≠ AccountNum_GetBranchID offsetBits dst →
      ((bank.addToAccount rs (-d)).addToAccount rd d).branchBalance b =
        bank.branchBalance b) := by
  constructor
  · intro r1 h1 h2
    have hne1 : r1 ≠ rs := by rintro rfl; exact h1 hs
    have hne2 : r1 ≠ rd := by rintro rfl; exact h2 hd
    rw [balanceAt_addToAccount_other _ rd r1 d hne2,
      balanceAt_addToAccount_other bank rs r1 (-d) hne1]
  · intro b _ _
    exact branchBalance_transfer bank rs rd d b

/-- C13: with `amount ≥ 0`, a deposit to and a withdrawal from account `a` return and
change no balance of an account other than `a` and no cached balance of a branch
other than the branch of `a`; a transfer from `src` to `dst` returns and changes no
balance of an account other than `src` and `dst` and no cached balance of a branch
other than the branches of `src` and `dst`. -/
theorem teller_frame (offsetBits : Nat) (bank : Bank) (a src dst : AccountNumber)
    (amount : AccountAmount) (ha : 0 ≤ amount) :
    (∃ c s, Teller_DoDeposit offsetBits bank a amount = some (c, s) ∧
      (∀ r, Account_LookupByNumber offsetBits bank a ≠ some r →
        s.bank.balanceAt r = bank.balanceAt r) ∧
      (∀ b, b ≠ AccountNum_GetBranchID offsetBits a →
        s.bank.branchBalance b = bank.branchBalance b)) ∧
    (∃ c s, Teller_DoWithdraw offsetBits bank a amount = some (c, s) ∧
      (∀ r, Account_LookupByNumber offsetBits bank a ≠ some r →
        s.bank.balanceAt r = bank.balanceAt r) ∧
      (∀ b, b ≠ AccountNum_GetBranchID offsetBits a →
        s.bank.branchBalance b = bank.branchBalance b)) ∧
    (∃ c s, Teller_DoTransfer offsetBits bank src dst amount = some (c, s) ∧
      (∀ r, Account_LookupByNumber offsetBits bank src ≠ some r →
        Account_LookupByNumber offsetBits bank dst ≠ some r →
        s.bank.balanceAt r = bank.balanceAt r) ∧
      (∀ b, b ≠ AccountNum_GetBranchID offsetBits src →
        b ≠ AccountNum_GetBranchID offsetBits dst →
        s.bank.branchBalance b = bank.branchBalance b)) := by
  refine ⟨?_, ?_, ?_⟩
  · cases hr : Account_LookupByNumber offsetBits bank a with
    | none =>
      exact ⟨ERROR_ACCOUNT_NOT_FOUND, ⟨bank, []⟩,
        by simp [Teller_DoDeposit, hr, not_lt.mpr ha], fun _ _ => rfl, fun _ _ => rfl⟩
    | some r =>
      have hf := frame_adjust_with_branch offsetBits bank a r amount hr
      rw [hr] at hf
      exact ⟨_, _, deposit_run offsetBits bank a amount r hr ha, hf.1, hf.2⟩
  · cases hr : Account_LookupByNumber offsetBits bank a with
    | none =>
      exact ⟨ERROR_ACCOUNT_NOT_FOUND, ⟨bank, []⟩,
        by simp [Teller_DoWithdraw, hr, not_lt.mpr ha], fun _ _ => rfl, fun _ _ => rfl⟩
    | some r =>
      by_cases hlt : bank.balanceAt r < amount
      · exact ⟨_, _, withdraw_run_insufficient offsetBits bank a amount r hr ha hlt,
          fun _ _ => rfl, fun _ _ => rfl⟩
      · have hf := frame_adjust_with_branch offsetBits bank a r (-amount) hr
        rw [hr] at hf
        exact ⟨_, _, withdraw_run_success offsetBits bank a amount r hr ha (not_lt.mp hlt),
          hf.1, hf.2⟩
  · cases hs : Account_LookupByNumber offsetBits bank src with
    | none =>
      exact ⟨_, _, transfer_run_src_unknown offsetBits bank src dst amount hs ha,
        fun _ _ _ => rfl, fun _ _ _ => rfl⟩
    | some rs =>
      cases hd : Account_LookupByNumber offsetBits bank dst with
      | none =>
        exact ⟨_, _, transfer_run_dst_unknown offsetBits bank src dst amount hd ha,
          fun _ _ _ => rfl, fun _ _ _ => rfl⟩
      | some rd =>
        have hf := frame_transfer offsetBits bank src dst rs rd amount hs hd
        rw [hs, hd] at hf
        by_cases hsame :
            AccountNum_GetBranchID offsetBits src = AccountNum_GetBranchID offsetBits dst
        · by_cases hnum : bank.accountNumberAt rs = bank.accountNumberAt rd
          · exact ⟨_, _, transfer_run_same_number offsetBits bank src dst amount rs rd hs hd
              ha hsame hnum, fun _ _ _ => rfl, fun _ _ _ => rfl⟩
          · by_cases hlt : bank.balanceAt rs < amount
            · exact ⟨_, _, transfer_run_same_insufficient offsetBits bank src dst amount rs rd
                hs hd ha hsame hnum hlt, fun _ _ _ => rfl, fun _ _ _ => rfl⟩
            · exact ⟨_, _, transfer_run_same_success offsetBits bank src dst amount rs rd
                hs hd ha hsame hnum (not_lt.mp hlt), hf.1, hf.2⟩
        · by_cases hlt : bank.balanceAt rs < amount
          · exact ⟨_, _, transfer_run_cross_insufficient offsetBits bank src dst amount rs rd
              hs hd ha hsame hlt, fun _ _ _ => rfl, fun _ _ _ => rfl⟩
          · exact ⟨_, _, transfer_run_cross_success offsetBits bank src dst amount rs rd
              hs hd ha hsame (not_lt.mp hlt), hf.1, hf.2⟩

theorem teller_frame_witness :
    ((0 : AccountAmount) ≤ 30) ∧
    ((∃ c s, Teller_DoDeposit 4 demoBank 17 30 = some (c, s) ∧
      (∀ r, Account_LookupByNumber 4 demoBank 17 ≠ some r →
        s.bank.balanceAt r = demoBank.balanceAt r) ∧
      (∀ b, b ≠ AccountNum_GetBranchID 4 17 →
        s.bank.branchBalance b = demoBank.branchBalance b)) ∧
    (∃ c s, Teller_DoWithdraw 4 demoBank 17 30 = some (c, s) ∧
      (∀ r, Account_LookupByNumber 4 demoBank 17 ≠ some r →
        s.bank.balanceAt r = demoBank.balanceAt r) ∧
      (∀ b, b ≠ AccountNum_GetBranchID 4 17 →
        s.bank.branchBalance b = demoBank.branchBalance b)) ∧
    (∃ c s, Teller_DoTransfer 4 demoBank 0 16 30 = some (c, s) ∧
      (∀ r, Account_LookupByNumber 4 demoBank 0 ≠ some r →
        Account_LookupByNumber 4 demoBank 16 ≠ some r →
        s.bank.balanceAt r = demoBank.balanceAt r) ∧
      (∀ b, b ≠ AccountNum_GetBranchID 4 0 →
        b ≠ AccountNum_GetBranchID 4 16 →
        s.bank.branchBalance b = demoBank.branchBalance b))) :=
  ⟨by decide, teller_frame 4 demoBank 17 0 16 30 (by decide)⟩

/-! ## The event logs of the three operations -/

theorem deposit_paths (offsetBits : Nat) (bank : Bank) (a : AccountNumber)
    (amount : AccountAmount) (ha : 0 ≤ amount) :
    ∃ c s, Teller_DoDeposit offsetBits bank a amount = some (c, s) ∧
      ((Account_LookupByNumber offsetBits bank a = none ∧ s.trace = []) ∨
        ∃ r, Account_LookupByNumber offsetBits bank a = some r ∧
          s.trace = [Event.wait (LockId.account r),
            Event.wait (LockId.branch (AccountNum_GetBranchID offsetBits a)),
            Event.writeBalance r, Event.writeBranch r.branch,
            Event.post (LockId.account r),
            Event.post (LockId.branch (AccountNum_GetBranchID offsetBits a))]) := by
  cases hr : Account_LookupByNumber offsetBits bank a with
  | none =>
    exact ⟨ERROR_ACCOUNT_NOT_FOUND, ⟨bank, []⟩,
      by simp [Teller_DoDeposit, hr, not_lt.mpr ha], Or.inl ⟨rfl, rfl⟩⟩
  | some r =>
    exact ⟨_, _, deposit_run offsetBits bank a amount r hr ha, Or.inr ⟨r, rfl, rfl⟩⟩

theorem withdraw_paths (offsetBits : Nat) (bank : Bank) (a : AccountNumber)
    (amount : AccountAmount) (ha : 0 ≤ amount) :
    ∃ c s, Teller_DoWithdraw offsetBits bank a amount = some (c, s) ∧
      ((Account_LookupByNumber offsetBits bank a = none ∧ s.trace = []) ∨
        ∃ r, Account_LookupByNumber offsetBits bank a = some r ∧
          (s.trace = [Event.wait (LockId.account r),
              Event.wait (LockId.branch (AccountNum_GetBranchID offsetBits a)),
              Event.readBalance r,
              Event.post (LockId.account r),
              Event.post (LockId.branch (AccountNum_GetBranchID offsetBits a))] ∨
            s.trace = [Event.wait (LockId.account r),
              Event.wait (LockId.branch (AccountNum_GetBranchID offsetBits a)),
              Event.readBalance r, Event.writeBalance r, Event.writeBranch r.branch,
              Event.post (LockId.account r),
              Event.post (LockId.branch (AccountNum_GetBranchID offsetBits a))])) := by
  cases hr : Account_LookupByNumber offsetBits bank a with
  | none =>
    exact ⟨ERROR_ACCOUNT_NOT_FOUND, ⟨bank, []⟩,
      by simp [Teller_DoWithdraw, hr, not_lt.mpr ha], Or.inl ⟨rfl, rfl⟩⟩
  | some r =>
    by_cases hlt : bank.balanceAt r < amount
    · exact ⟨_, _, withdraw_run_insufficient offsetBits bank a amount r hr ha hlt,
        Or.inr ⟨r, rfl, Or.inl rfl⟩⟩
    · exact ⟨_, _, withdraw_run_success offsetBits bank a amount r hr ha (not_lt.mp hlt),
        Or.inr ⟨r, rfl, Or.inr rfl⟩⟩

theorem transfer_paths (offsetBits : Nat) (bank : Bank) (src dst : AccountNumber)
    (amount : AccountAmount) (ha : 0 ≤ amount) :
    ∃ c s, Teller_DoTransfer offsetBits bank src dst amount = some (c, s) ∧
      (((Account_LookupByNumber offsetBits bank src = none ∨
          Account_LookupByNumber offsetBits bank dst = none ∨
          ∃ rs rd, Account_LookupByNumber offsetBits bank src = some rs ∧
            Account_LookupByNumber offsetBits bank dst = some rd ∧
            bank.accountNumberAt rs = bank.accountNumberAt rd) ∧ s.trace = []) ∨
        ∃ rs rd, Account_LookupByNumber offsetBits bank src = some rs ∧
          Account_LookupByNumber offsetBits bank dst = some rd ∧ rs ≠ rd ∧
          ((AccountNum_GetBranchID offsetBits src = AccountNum_GetBranchID offsetBits dst ∧
              bank.accountNumberAt rs ≠ bank.accountNumberAt rd ∧
              (s.trace = sameBranchWaits bank rs rd ++
                  [Event.readBalance rs, Event.post (LockId.account rs),
                   Event.post (LockId.account rd)] ∨
                s.trace = sameBranchWaits bank rs rd ++
                  [Event.readBalance rs, Event.writeBalance rs, Event.writeBalance rd,
                   Event.post (LockId.account rs), Event.post (LockId.account rd)])) ∨
            (AccountNum_GetBranchID offsetBits src ≠ AccountNum_GetBranchID offsetBits dst ∧
              (s.trace = crossBranchWaits offsetBits src dst rs rd ++
                  [Event.readBalance rs, Event.post (LockId.account rs),
                   Event.post (LockId.account rd),
                   Event.post (LockId.branch (AccountNum_GetBranchID offsetBits src)),
                   Event.post (LockId.branch (AccountNum_GetBranchID offsetBits dst))] ∨
                s.trace = crossBranchWaits offsetBits src dst rs rd ++
                  [Event.readBalance rs, Event.writeBalance rs, Event.writeBalance rd,
                   Event.post (LockId.account rs), Event.post (LockId.account rd),
                   Event.post (LockId.branch (AccountNum_GetBranchID offsetBits src)),
                   Event.post (LockId.branch (AccountNum_GetBranchID offsetBits dst))])))) := by
  cases hs : Account_LookupByNumber offsetBits bank src with
  | none =>
    exact ⟨_, _, transfer_run_src_unknown offsetBits bank src dst amount hs ha,
      Or.inl ⟨Or.inl rfl, rfl⟩⟩
  | some rs =>
    cases hd : Account_LookupByNumber offsetBits bank dst with
    | none =>
      exact ⟨_, _, transfer_run_dst_unknown offsetBits bank src dst amount hd ha,
        Or.inl ⟨Or.inr (Or.inl rfl), rfl⟩⟩
    | some rd =>
      by_cases hsame :
          AccountNum_GetBranchID offsetBits src = AccountNum_GetBranchID offsetBits dst
      · by_cases hnum : bank.accountNumberAt rs = bank.accountNumberAt rd
        · exact ⟨_, _, transfer_run_same_number offsetBits bank src dst amount rs rd hs hd
            ha hsame hnum, Or.inl ⟨Or.inr (Or.inr ⟨rs, rd, rfl, rfl, hnum⟩), rfl⟩⟩
        · have hne : rs ≠ rd := by rintro rfl; exact hnum rfl
          by_cases hlt : bank.balanceAt rs < amount
          · exact ⟨_, _, transfer_run_same_insufficient offsetBits bank src dst amount rs rd
              hs hd ha hsame hnum hlt,
              Or.inr ⟨rs, rd, rfl, rfl, hne, Or.inl ⟨hsame, hnum, Or.inl rfl⟩⟩⟩
          · exact ⟨_, _, transfer_run_same_success offsetBits bank src dst amount rs rd
              hs hd ha hsame hnum (not_lt.mp hlt),
              Or.inr ⟨rs, rd, rfl, rfl, hne, Or.inl ⟨hsame, hnum, Or.inr rfl⟩⟩⟩
      · have hne : rs ≠ rd := by
          rintro rfl
          exact hsame ((lookup_branch offsetBits bank src rs hs).symm.trans
            (lookup_branch offsetBits bank dst rs hd))
        by_cases hlt : bank.balanceAt rs < amount
        · exact ⟨_, _, transfer_run_cross_insufficient offsetBits bank src dst amount rs rd
            hs hd ha hsame hlt, Or.inr ⟨rs, rd, rfl, rfl, hne, Or.inr ⟨hsame, Or.inl rfl⟩⟩⟩
        · exact ⟨_, _, transfer_run_cross_success offsetBits bank src dst amount rs rd
            hs hd ha hsame (not_lt.mp hlt),
            Or.inr ⟨rs, rd, rfl, rfl, hne, Or.inr ⟨hsame, Or.inr rfl⟩⟩⟩

/-! ## Balanced locking -/

theorem acquired_append (t1 t2 : List Event) :
    acquired (t1 ++ t2) = acquired t1 ++ acquired t2 := by
  simp [acquired, List.filterMap_append]

theorem released_append (t1 t2 : List Event) :
    released (t1 ++ t2) = released t1 ++ released t2 := by
  simp [released, List.filterMap_append]

theorem acquired_nil : acquired [] = [] := rfl

theorem acquired_wait (l : LockId) (t : List Event) :
    acquired (Event.wait l :: t) = l :: acquired t := rfl

theorem acquired_post (l : LockId) (t : List Event) :
    acquired (Event.post l :: t) = acquired t := rfl

theorem acquired_readBalance (a : AccountRef) (t : List Event) :
    acquired (Event.readBalance a :: t) = acquired t := rfl

theorem acquired_writeBalance (a : AccountRef) (t : List Event) :
    acquired (Event.writeBalance a :: t) = acquired t := rfl

theorem acquired_writeBranch (b : BranchID) (t : List Event) :
    acquired (Event.writeBranch b :: t) = acquired t := rfl

theorem released_nil : released [] = [] := rfl

theorem released_wait (l : LockId) (t : List Event) :
    released (Event.wait l :: t) = released t := rfl

theorem released_post (l : LockId) (t : List Event) :
    released (Event.post l :: t) = l :: released t := rfl

theorem released_readBalance (a : AccountRef) (t : List Event) :
    released (Event.readBalance a :: t) = released t := rfl

theorem released_writeBalance (a : AccountRef) (t : List Event) :
    released (Event.writeBalance a :: t) = released t := rfl

theorem released_writeBranch (b : BranchID) (t : List Event) :
    released (Event.writeBranch b :: t) = released t := rfl

theorem balancedLocks_nil : BalancedLocks [] :=
  ⟨List.nodup_nil, List.Perm.refl _, [], [], rfl, rfl, rfl⟩

theorem balancedLocks_of_phases (front back : List Event) (h1 : released front = [])
    (h2 : acquired back = []) (hnd : (acquired front).Nodup)
    (hperm : (released back).Perm (acquired front)) : BalancedLocks (front ++ back) := by
  refine ⟨?_, ?_, front, back, rfl, h1, h2⟩
  · rw [acquired_append, h2, List.append_nil]
    exact hnd
  · rw [acquired_append, released_append, h1, h2, List.append_nil, List.nil_append]
    exact hperm

theorem perm_four_swapped {α : Type} (a b c d : α) : [a, b, c, d].Perm [b, a, d, c] :=
  (List.Perm.swap b a [c, d]).trans
    (List.Perm.cons b (List.Perm.cons a (List.Perm.swap d c [])))

theorem balancedLocks_single (r : AccountRef) (b : BranchID) (mid : List Event)
    (hw : acquired mid = []) (hp : released mid = []) :
    BalancedLocks ([Event.wait (LockId.account r), Event.wait (LockId.branch b)] ++ mid ++
      [Event.post (LockId.account r), Event.post (LockId.branch b)]) := by
  apply balancedLocks_of_phases
  · simp [released_append, hp, released_wait, released_nil]
  · simp [acquired_post, acquired_nil]
  · simp [acquired_append, hw, acquired_wait, acquired_nil]
  · simp [acquired_append, hw, acquired_wait, acquired_nil, released_post, released_nil]

theorem balancedLocks_same (bank : Bank) (rs rd : AccountRef) (hne : rs ≠ rd)
    (mid : List Event) (hw : acquired mid = []) (hp : released mid = []) :
    BalancedLocks (sameBranchWaits bank rs rd ++ mid ++
      [Event.post (LockId.account rs), Event.post (LockId.account rd)]) := by
  have hne2 : rd ≠ rs := fun h => hne h.symm
  apply balancedLocks_of_phases
  · unfold sameBranchWaits
    split <;> simp [released_append, hp, released_wait, released_nil]
  · simp [acquired_post, acquired_nil]
  · unfold sameBranchWaits
    split <;> simp [acquired_append, hw, acquired_wait, acquired_nil, hne, hne2]
  · unfold sameBranchWaits
    split
    · simp [acquired_append, hw, acquired_wait, acquired_nil, released_post, released_nil]
    · simp only [acquired_append, hw, acquired_wait, acquired_nil, released_post,
        released_nil, List.append_nil]
      exact List.Perm.swap _ _ _

theorem balancedLocks_cross (offsetBits : Nat) (src dst : AccountNumber) (rs rd : AccountRef)
    (hne : rs ≠ rd)
    (hdiff : AccountNum_GetBranchID offsetBits src ≠ AccountNum_GetBranchID offsetBits dst)
    (mid : List Event) (hw : acquired mid = []) (hp : released mid = []) :
    BalancedLocks (crossBranchWaits offsetBits src dst rs rd ++ mid ++
      [Event.post (LockId.account rs), Event.post (LockId.account rd),
       Event.post (LockId.branch (AccountNum_GetBranchID offsetBits src)),
       Event.post (LockId.branch (AccountNum_GetBranchID offsetBits dst))]) := by
  have hne2 : rd ≠ rs := fun h => hne h.symm
  have hdiff2 : AccountNum_GetBranchID offsetBits dst ≠ AccountNum_GetBranchID offsetBits src :=
    fun h => hdiff h.symm
  apply balancedLocks_of_phases
  · unfold crossBranchWaits
    split <;> simp [released_append, hp, released_wait, released_nil]
  · simp [acquired_post, acquired_nil]
  · unfold crossBranchWaits
    split <;>
      simp [acquired_append, hw, acquired_wait, acquired_nil, hne, hne2, hdiff, hdiff2]
  · unfold crossBranchWaits
    split
    · simp [acquired_append, hw, acquired_wait, acquired_nil, released_post, released_nil]
    · simp only [acquired_append, hw, acquired_wait, acquired_nil, released_post,
        released_nil, List.append_nil]
      exact perm_four_swapped _ _ _ _

/-- C17: with `amount ≥ 0`, every call of the three operations returns, on whichever
path (success, unknown account, insufficient funds, self-transfer), with balanced
locking: no lock is taken twice, the locks given back are exactly the locks taken,
each given back once, and none is given back before it is taken. -/
theorem teller_balanced_locking (offsetBits : Nat) (bank : Bank) (a src dst : AccountNumber)
    (amount : AccountAmount) (ha : 0 ≤ amount) :
    (∃ c s, Teller_DoDeposit offsetBits bank a amount = some (c, s) ∧
      BalancedLocks s.trace) ∧
    (∃ c s, Teller_DoWithdraw offsetBits bank a amount = some (c, s) ∧
      BalancedLocks s.trace) ∧
    (∃ c s, Teller_DoTransfer offsetBits bank src dst amount = some (c, s) ∧
      BalancedLocks s.trace) := by
  refine ⟨?_, ?_, ?_⟩
  · obtain ⟨c, s, hrun, h⟩ := deposit_paths offsetBits bank a amount ha
    refine ⟨c, s, hrun, ?_⟩
    rcases h with ⟨_, h⟩ | ⟨r, _, h⟩
    · rw [h]; exact balancedLocks_nil
    · rw [h]
      exact balancedLocks_single r _ [Event.writeBalance r, Event.writeBranch r.branch] rfl rfl
  · obtain ⟨c, s, hrun, h⟩ := withdraw_paths offsetBits bank a amount ha
    refine ⟨c, s, hrun, ?_⟩
    rcases h with ⟨_, h⟩ | ⟨r, _, h | h⟩
    · rw [h]; exact balancedLocks_nil
    · rw [h]
      exact balancedLocks_single r _ [Event.readBalance r] rfl rfl
    · rw [h]
      exact balancedLocks_single r _
        [Event.readBalance r, Event.writeBalance r, Event.writeBranch r.branch] rfl rfl
  · obtain ⟨c, s, hrun, h⟩ := transfer_paths offsetBits bank src dst amount ha
    refine ⟨c, s, hrun, ?_⟩
    rcases h with ⟨_, h⟩ | ⟨rs, rd, _, _, hne, ⟨_, _, h | h⟩ | ⟨hdiff, h | h⟩⟩
    · rw [h]; exact balancedLocks_nil
    · rw [h]
      have := balancedLocks_same bank rs rd hne [Event.readBalance rs] rfl rfl
      simpa using this
    · rw [h]
      have := balancedLocks_same bank rs rd hne
        [Event.readBalance rs, Event.writeBalance rs, Event.writeBalance rd] rfl rfl
      simpa using this
    · rw [h]
      have := balancedLocks_cross offsetBits src dst rs rd hne hdiff [Event.readBalance rs]
        rfl rfl
      simpa using this
    · rw [h]
      have := balancedLocks_cross offsetBits src dst rs rd hne hdiff
        [Event.readBalance rs, Event.writeBalance rs, Event.writeBalance rd] rfl rfl
      simpa using this

theorem teller_balanced_locking_witness :
    ((0 : AccountAmount) ≤ 150) ∧
    ((∃ c s, Teller_DoDeposit 4 demoBank 17 150 = some (c, s) ∧ BalancedLocks s.trace) ∧
    (∃ c s, Teller_DoWithdraw 4 demoBank 17 150 = some (c, s) ∧ BalancedLocks s.trace) ∧
    (∃ c s, Teller_DoTransfer 4 demoBank 17 1 150 = some (c, s) ∧ BalancedLocks s.trace)) :=
  ⟨by decide, teller_balanced_locking 4 demoBank 17 17 1 150 (by decide)⟩

/-! ## Access under lock -/

theorem checkFrom_split (P : List Event → Event → Prop) (rest : List Event) :
    ∀ start, checkFrom P start rest →
      ∀ before e after, rest = before ++ e :: after → P (start ++ before) e := by
  induction rest with
  | nil =>
    intro start _ before e after h
    simp at h
  | cons x xs ih =>
    intro start hc before e after h
    obtain ⟨hx, hrest⟩ := hc
    cases before with
    | nil =>
      simp only [List.nil_append, List.cons.injEq] at h
      rw [List.append_nil, ← h.1]
      exact hx
    | cons y ys =>
      simp only [List.cons_append, List.cons.injEq] at h
      have := ih (start ++ [x]) hrest ys e after h.2
      rw [← h.1]
      simpa using this

theorem lockedAccess_of_checkFrom (trace : List Event)
    (h : checkFrom (underLock trace) [] trace) : LockedAccess trace := by
  intro before e after hsplit
  have := checkFrom_split (underLock trace) trace [] h before e after hsplit
  simpa using this

theorem lockedAccess_nil : LockedAccess [] := by
  intro before e after h
  simp at h

theorem lockedAccess_deposit (r : AccountRef) :
    LockedAccess [Event.wait (LockId.account r), Event.wait (LockId.branch r.branch),
      Event.writeBalance r, Event.writeBranch r.branch,
      Event.post (LockId.account r), Event.post (LockId.branch r.branch)] := by
  apply lockedAccess_of_checkFrom
  simp [checkFrom, underLock, holdsLock, acquired_wait, acquired_nil, acquired_writeBalance,
    released_wait, released_nil, released_writeBalance]

theorem lockedAccess_withdraw_insufficient (r : AccountRef) :
    LockedAccess [Event.wait (LockId.account r), Event.wait (LockId.branch r.branch),
      Event.readBalance r,
      Event.post (LockId.account r), Event.post (LockId.branch r.branch)] := by
  apply lockedAccess_of_checkFrom
  simp [checkFrom, underLock, holdsLock, acquired_wait, acquired_nil, acquired_readBalance,
    acquired_post, released_wait, released_nil]

theorem lockedAccess_withdraw_success (r : AccountRef) :
    LockedAccess [Event.wait (LockId.account r), Event.wait (LockId.branch r.branch),
      Event.readBalance r, Event.writeBalance r, Event.writeBranch r.branch,
      Event.post (LockId.account r), Event.post (LockId.branch r.branch)] := by
  apply lockedAccess_of_checkFrom
  simp [checkFrom, underLock, holdsLock, acquired_wait, acquired_nil, acquired_readBalance,
    acquired_writeBalance, acquired_writeBranch, acquired_post, released_wait, released_nil,
    released_readBalance, released_writeBalance]

theorem lockedAccess_same (bank : Bank) (rs rd : AccountRef) :
    LockedAccess (sameBranchWaits bank rs rd ++
      [Event.readBalance rs, Event.post (LockId.account rs),
       Event.post (LockId.account rd)]) ∧
    LockedAccess (sameBranchWaits bank rs rd ++
      [Event.readBalance rs, Event.writeBalance rs, Event.writeBalance rd,
       Event.post (LockId.account rs), Event.post (LockId.account rd)]) := by
  unfold sameBranchWaits
  split <;> constructor <;> apply lockedAccess_of_checkFrom <;>
    simp [checkFrom, underLock, holdsLock, acquired_wait, acquired_nil, acquired_readBalance,
      acquired_writeBalance, acquired_post, released_wait, released_nil,
      released_readBalance, released_writeBalance]

theorem lockedAccess_cross (offsetBits : Nat) (src dst : AccountNumber) (rs rd : AccountRef) :
    LockedAccess (crossBranchWaits offsetBits src dst rs rd ++
      [Event.readBalance rs, Event.post (LockId.account rs),
       Event.post (LockId.account rd),
       Event.post (LockId.branch (AccountNum_GetBranchID offsetBits src)),
       Event.post (LockId.branch (AccountNum_GetBranchID offsetBits dst))]) ∧
    LockedAccess (crossBranchWaits offsetBits src dst rs rd ++
      [Event.readBalance rs, Event.writeBalance rs, Event.writeBalance rd,
       Event.post (LockId.account rs), Event.post (LockId.account rd),
       Event.post (LockId.branch (AccountNum_GetBranchID offsetBits src)),
       Event.post (LockId.branch (AccountNum_GetBranchID offsetBits dst))]) := by
  unfold crossBranchWaits
  split <;> constructor <;> apply lockedAccess_of_checkFrom <;>
    simp [checkFrom, underLock, holdsLock, acquired_wait, acquired_nil, acquired_readBalance,
      acquired_writeBalance, acquired_post, released_wait, released_nil,
      released_readBalance, released_writeBalance]

/-- C18: with `amount ≥ 0`, every call of the three operations returns with a log in
which every write of an account balance comes while the lock of that account is held
(taken before and not yet given back), every write of a cached branch balance comes
while the lock of that branch is held, and the read of the balance for the funds
check comes under the lock of the account, after every `sem_wait` of the call and
before its first `sem_post`. -/
theorem teller_locked_access (offsetBits : Nat) (bank : Bank) (a src dst : AccountNumber)
    (amount : AccountAmount) (ha : 0 ≤ amount) :
    (∃ c s, Teller_DoDeposit offsetBits bank a amount = some (c, s) ∧
      LockedAccess s.trace) ∧
    (∃ c s, Teller_DoWithdraw offsetBits bank a amount = some (c, s) ∧
      LockedAccess s.trace) ∧
    (∃ c s, Teller_DoTransfer offsetBits bank src dst amount = some (c, s) ∧
      LockedAccess s.trace) := by
  refine ⟨?_, ?_, ?_⟩
  · obtain ⟨c, s, hrun, h⟩ := deposit_paths offsetBits bank a amount ha
    refine ⟨c, s, hrun, ?_⟩
    rcases h with ⟨_, h⟩ | ⟨r, hr, h⟩
    · rw [h]; exact lockedAccess_nil
    · rw [h, ← lookup_branch offsetBits bank a r hr]
      exact lockedAccess_deposit r
  · obtain ⟨c, s, hrun, h⟩ := withdraw_paths offsetBits bank a amount ha
    refine ⟨c, s, hrun, ?_⟩
    rcases h with ⟨_, h⟩ | ⟨r, hr, h | h⟩
    · rw [h]; exact lockedAccess_nil
    · rw [h, ← lookup_branch offsetBits bank a r hr]
      exact lockedAccess_withdraw_insufficient r
    · rw [h, ← lookup_branch offsetBits bank a r hr]
      exact lockedAccess_withdraw_success r
  · obtain ⟨c, s, hrun, h⟩ := transfer_paths offsetBits bank src dst amount ha
    refine ⟨c, s, hrun, ?_⟩
    rcases h with ⟨_, h⟩ | ⟨rs, rd, _, _, _, ⟨_, _, h | h⟩ | ⟨_, h | h⟩⟩
    · rw [h]; exact lockedAccess_nil
    · rw [h]; exact (lockedAccess_same bank rs rd).1
    · rw [h]; exact (lockedAccess_same bank rs rd).2
    · rw [h]; exact (lockedAccess_cross offsetBits src dst rs rd).1
    · rw [h]; exact (lockedAccess_cross offsetBits src dst rs rd).2

theorem teller_locked_access_witness :
    ((0 : AccountAmount) ≤ 40) ∧
    ((∃ c s, Teller_DoDeposit 4 demoBank 1 40 = some (c, s) ∧ LockedAccess s.trace) ∧
    (∃ c s, Teller_DoWithdraw 4 demoBank 1 40 = some (c, s) ∧ LockedAccess s.trace) ∧
    (∃ c s, Teller_DoTransfer 4 demoBank 16 0 40 = some (c, s) ∧ LockedAccess s.trace)) :=
  ⟨by decide, teller_locked_access 4 demoBank 1 16 0 40 (by decide)⟩

/-! ## The global lock order -/

theorem lockLt_irrefl (offsetBits : Nat) (l : LockId) : ¬ lockLt offsetBits l l := by
  cases l <;> simp [lockLt]

theorem lockLt_trans (offsetBits : Nat) (l1 l2 l3 : LockId)
    (h12 : lockLt offsetBits l1 l2) (h23 : lockLt offsetBits l2 l3) :
    lockLt offsetBits l1 l3 := by
  cases l1 with
  | account a1 =>
    cases l3 with
    | branch b3 => trivial
    | account a3 =>
      cases l2 with
      | branch b2 => exact absurd h23 id
      | account a2 =>
        rcases h12 with h | ⟨e, h⟩
        · rcases h23 with h1 | ⟨e1, _⟩
          · exact Or.inl (Nat.lt_trans h h1)
          · exact Or.inl (e1 ▸ h)
        · rcases h23 with h1 | ⟨e1, h1⟩
          · exact Or.inl (e.symm ▸ h1)
          · exact Or.inr ⟨e.trans e1, Nat.lt_trans h h1⟩
  | branch b1 =>
    cases l2 with
    | account a2 => exact absurd h12 id
    | branch b2 =>
      cases l3 with
      | account a3 => exact absurd h23 id
      | branch b3 => exact Nat.lt_trans h12 h23

theorem lockLt_trichotomous (offsetBits : Nat) (l1 l2 : LockId) :
    lockLt offsetBits l1 l2 ∨ l1 = l2 ∨ lockLt offsetBits l2 l1 := by
  cases l1 with
  | account a1 =>
    cases l2 with
    | account a2 =>
      obtain ⟨b1, i1⟩ := a1
      obtain ⟨b2, i2⟩ := a2
      simp only [lockLt, AccountRef.number, LockId.account.injEq, AccountRef.mk.injEq]
      rcases Nat.lt_trichotomy b1 b2 with h | h | h
      · exact Or.inl (Or.inl h)
      · subst h
        rcases Nat.lt_trichotomy i1 i2 with h | h | h
        · exact Or.inl (Or.inr ⟨rfl, Nat.add_lt_add_left h _⟩)
        · exact Or.inr (Or.inl ⟨rfl, h⟩)
        · exact Or.inr (Or.inr (Or.inr ⟨rfl, Nat.add_lt_add_left h _⟩))
      · exact Or.inr (Or.inr (Or.inl h))
    | branch b2 => exact Or.inl trivial
  | branch b1 =>
    cases l2 with
    | account a2 => exact Or.inr (Or.inr trivial)
    | branch b2 =>
      simp only [lockLt, LockId.branch.injEq]
      exact Nat.lt_trichotomy b1 b2

theorem lookup_number (offsetBits : Nat) (bank : Bank) (n : AccountNumber) (r : AccountRef)
    (h : Account_LookupByNumber offsetBits bank n = some r) : r.number offsetBits = n := by
  rw [(lookup_some offsetBits bank n r h).1]
  simp only [AccountRef.number, AccountNum_GetBranchID, AccountNum_GetAccountIndex]
  rw [Nat.mul_comm]
  exact Nat.div_add_mod n (2 ^ offsetBits)

theorem transfer_locks (offsetBits : Nat) (bank : Bank) (src dst : AccountNumber)
    (amount : AccountAmount) (rs rd : AccountRef) (hwf : bank.WellFormed offsetBits)
    (hs : Account_LookupByNumber offsetBits bank src = some rs)
    (hd : Account_LookupByNumber offsetBits bank dst = some rd)
    (hne : src ≠ dst) (ha : 0 ≤ amount) :
    ∃ c s, Teller_DoTransfer offsetBits bank src dst amount = some (c, s) ∧
      (c = ERROR_SUCCESS ∨ c = ERROR_INSUFFICIENT_FUNDS) ∧
      acquired s.trace = specTransferLocks offsetBits src dst rs rd ∧
      released s.trace = transferPosts offsetBits src dst rs rd := by
  have hns := lookup_accountNumberAt offsetBits bank hwf src rs hs
  have hnd := lookup_accountNumberAt offsetBits bank hwf dst rd hd
  have hnum : bank.accountNumberAt rs ≠ bank.accountNumberAt rd := by
    rw [hns, hnd]; exact hne
  by_cases hsame : AccountNum_GetBranchID offsetBits src = AccountNum_GetBranchID offsetBits dst
  · have hw : acquired (sameBranchWaits bank rs rd) =
        specTransferLocks offsetBits src dst rs rd := by
      simp only [sameBranchWaits, specTransferLocks, hsame, if_true, hns, hnd]
      split <;> rfl
    have hp : released (sameBranchWaits bank rs rd) = [] := by
      unfold sameBranchWaits
      split <;> rfl
    by_cases hlt : bank.balanceAt rs < amount
    · refine ⟨_, _, transfer_run_same_insufficient offsetBits bank src dst amount rs rd hs hd ha
        hsame hnum hlt, Or.inr rfl, ?_, ?_⟩
      · simp only [acquired_append, hw]; simp [acquired_readBalance, acquired_post, acquired_nil]
      · simp only [released_append, hp]
        simp [released_readBalance, released_post, released_nil, transferPosts, hsame]
    · refine ⟨_, _, transfer_run_same_success offsetBits bank src dst amount rs rd hs hd ha
        hsame hnum (not_lt.mp hlt), Or.inl rfl, ?_, ?_⟩
      · simp only [acquired_append, hw]
        simp [acquired_readBalance, acquired_writeBalance, acquired_post, acquired_nil]
      · simp only [released_append, hp]
        simp [released_readBalance, released_writeBalance, released_post, released_nil,
          transferPosts, hsame]
  · have hw : acquired (crossBranchWaits offsetBits src dst rs rd) =
        specTransferLocks offsetBits src dst rs rd := by
      simp only [crossBranchWaits, specTransferLocks, hsame, if_false]
      split <;> rfl
    have hp : released (crossBranchWaits offsetBits src dst rs rd) = [] := by
      unfold crossBranchWaits
      split <;> rfl
    by_cases hlt : bank.balanceAt rs < amount
    · refine ⟨_, _, transfer_run_cross_insufficient offsetBits bank src dst amount rs rd hs hd
        ha hsame hlt, Or.inr rfl, ?_, ?_⟩
      · simp only [acquired_append, hw]; simp [acquired_readBalance, acquired_post, acquired_nil]
      · simp only [released_append, hp]
        simp [released_readBalance, released_post, released_nil, transferPosts, hsame]
    · refine ⟨_, _, transfer_run_cross_success offsetBits bank src dst amount rs rd hs hd ha
        hsame (not_lt.mp hlt), Or.inl rfl, ?_, ?_⟩
      · simp only [acquired_append, hw]
        simp [acquired_readBalance, acquired_writeBalance, acquired_post, acquired_nil]
      · simp only [released_append, hp]
        simp [released_readBalance, released_writeBalance, released_post, released_nil,
          transferPosts, hsame]

theorem specTransferLocks_increasing (offsetBits : Nat) (bank : Bank) (src dst : AccountNumber)
    (rs rd : AccountRef)
    (hs : Account_LookupByNumber offsetBits bank src = some rs)
    (hd : Account_LookupByNumber offsetBits bank dst = some rd) (hne : src ≠ dst) :
    (specTransferLocks offsetBits src dst rs rd).Pairwise (lockLt offsetBits) := by
  have hbs := lookup_branch offsetBits bank src rs hs
  have hbd := lookup_branch offsetBits bank dst rd hd
  have hnums := lookup_number offsetBits bank src rs hs
  have hnumd := lookup_number offsetBits bank dst rd hd
  unfold specTransferLocks
  split
  · rename_i hsame
    split
    · rename_i hlt
      simp [lockLt, hbs, hbd, hnums, hnumd, hsame, hlt]
    · rename_i hlt
      have : dst < src := Nat.lt_of_le_of_ne (Nat.le_of_not_lt hlt) (Ne.symm hne)
      simp [lockLt, hbs, hbd, hnums, hnumd, hsame, this]
  · rename_i hsame
    split
    · rename_i hlt
      simp [lockLt, hbs, hbd, hlt]
    · rename_i hlt
      have : AccountNum_GetBranchID offsetBits dst < AccountNum_GetBranchID offsetBits src :=
        Nat.lt_of_le_of_ne (Nat.le_of_not_lt hlt) (Ne.symm hsame)
      simp [lockLt, hbs, hbd, this]

theorem specTransferLocks_symm (offsetBits : Nat) (a b : AccountNumber) (ra rb : AccountRef)
    (hne : a ≠ b) :
    specTransferLocks offsetBits a b ra rb = specTransferLocks offsetBits b a rb ra := by
  unfold specTransferLocks
  by_cases hsame : AccountNum_GetBranchID offsetBits a = AccountNum_GetBranchID offsetBits b
  · have hsame2 : AccountNum_GetBranchID offsetBits b = AccountNum_GetBranchID offsetBits a :=
      hsame.symm
    rw [if_pos hsame, if_pos hsame2]
    rcases Nat.lt_or_gt_of_ne hne with h | h
    · have h2 : ¬ b < a := Nat.lt_asymm h
      simp only [h, h2, if_true, if_false]
    · have h2 : ¬ a < b := Nat.lt_asymm h
      simp only [h, h2, if_true, if_false]
  · have hsame2 : ¬ AccountNum_GetBranchID offsetBits b = AccountNum_GetBranchID offsetBits a :=
      fun h => hsame h.symm
    rcases Nat.lt_or_gt_of_ne hsame with h | h
    · have h2 : ¬ AccountNum_GetBranchID offsetBits b < AccountNum_GetBranchID offsetBits a :=
        Nat.lt_asymm h
      simp only [hsame, hsame2, h, h2, if_true, if_false]
    · have h2 : ¬ AccountNum_GetBranchID offsetBits a < AccountNum_GetBranchID offsetBits b :=
        Nat.lt_asymm h
      simp only [hsame, hsame2, h, h2, if_true, if_false]

/-- C15: the order `lockLt` (account locks before branch locks, account locks by branch
index and account number, branch locks by branch index) is a strict total order on
locks, and on a well-formed ledger every call of the three operations with
`amount ≥ 0` returns having taken its locks in strictly increasing order: a deposit
and a withdrawal the account lock and then the branch lock, a transfer between
distinct accounts the locks of the specification (`specTransferLocks`): two account
locks by ascending account number inside one branch, two account locks and then two
branch locks by ascending branch index between two branches. -/
theorem teller_lock_order (offsetBits : Nat) (bank : Bank) (a src dst : AccountNumber)
    (amount : AccountAmount) (hwf : bank.WellFormed offsetBits) (ha : 0 ≤ amount) :
    ((∀ l, ¬ lockLt offsetBits l l) ∧
      (∀ l1 l2 l3, lockLt offsetBits l1 l2 → lockLt offsetBits l2 l3 →
        lockLt offsetBits l1 l3) ∧
      (∀ l1 l2, lockLt offsetBits l1 l2 ∨ l1 = l2 ∨ lockLt offsetBits l2 l1)) ∧
    (∃ c s, Teller_DoDeposit offsetBits bank a amount = some (c, s) ∧
      (acquired s.trace).Pairwise (lockLt offsetBits) ∧
      (∀ r, Account_LookupByNumber offsetBits bank a = some r →
        acquired s.trace =
          [LockId.account r, LockId.branch (AccountNum_GetBranchID offsetBits a)])) ∧
    (∃ c s, Teller_DoWithdraw offsetBits bank a amount = some (c, s) ∧
      (acquired s.trace).Pairwise (lockLt offsetBits) ∧
      (∀ r, Account_LookupByNumber offsetBits bank a = some r →
        acquired s.trace =
          [LockId.account r, LockId.branch (AccountNum_GetBranchID offsetBits a)])) ∧
    (∃ c s, Teller_DoTransfer offsetBits bank src dst amount = some (c, s) ∧
      (acquired s.trace).Pairwise (lockLt offsetBits) ∧
      (∀ rs rd, Account_LookupByNumber offsetBits bank src = some rs →
        Account_LookupByNumber offsetBits bank dst = some rd → src ≠ dst →
        acquired s.trace = specTransferLocks offsetBits src dst rs rd)) := by
  refine ⟨⟨lockLt_irrefl offsetBits, lockLt_trans offsetBits, lockLt_trichotomous offsetBits⟩,
    ?_, ?_, ?_⟩
  · obtain ⟨c, s, hrun, h⟩ := deposit_paths offsetBits bank a amount ha
    refine ⟨c, s, hrun, ?_⟩
    rcases h with ⟨hnone, h⟩ | ⟨r, hr, h⟩
    · rw [h]
      exact ⟨List.Pairwise.nil, fun r hr => by rw [hnone] at hr; cases hr⟩
    · rw [h]
      refine ⟨by simp [acquired_wait, acquired_writeBalance, acquired_writeBranch,
        acquired_post, acquired_nil, lockLt], fun r1 hr1 => ?_⟩
      rw [hr] at hr1
      cases hr1
      rfl
  · obtain ⟨c, s, hrun, h⟩ := withdraw_paths offsetBits bank a amount ha
    refine ⟨c, s, hrun, ?_⟩
    rcases h with ⟨hnone, h⟩ | ⟨r, hr, h | h⟩
    · rw [h]
      exact ⟨List.Pairwise.nil, fun r hr => by rw [hnone] at hr; cases hr⟩
    · rw [h]
      refine ⟨by simp [acquired_wait, acquired_readBalance, acquired_post, acquired_nil,
        lockLt], fun r1 hr1 => ?_⟩
      rw [hr] at hr1
      cases hr1
      rfl
    · rw [h]
      refine ⟨by simp [acquired_wait, acquired_readBalance, acquired_writeBalance,
        acquired_writeBranch, acquired_post, acquired_nil, lockLt], fun r1 hr1 => ?_⟩
      rw [hr] at hr1
      cases hr1
      rfl
  · cases hs : Account_LookupByNumber offsetBits bank src with
    | none =>
      exact ⟨_, _, transfer_run_src_unknown offsetBits bank src dst amount hs ha,
        List.Pairwise.nil, fun rs rd h => by cases h⟩
    | some rs =>
      cases hd : Account_LookupByNumber offsetBits bank dst with
      | none =>
        exact ⟨_, _, transfer_run_dst_unknown offsetBits bank src dst amount hd ha,
          List.Pairwise.nil, fun rs rd _ h => by cases h⟩
      | some rd =>
        by_cases hne : src = dst
        · subst hne
          exact ⟨_, _, transfer_run_self offsetBits bank src amount rs hs ha,
            List.Pairwise.nil, fun _ _ _ _ h => absurd rfl h⟩
        · obtain ⟨c, s, hrun, _, hacq, _⟩ :=
            transfer_locks offsetBits bank src dst amount rs rd hwf hs hd hne ha
          refine ⟨c, s, hrun, ?_, fun r1 r2 h1 h2 _ => ?_⟩
          · rw [hacq]
            exact specTransferLocks_increasing offsetBits bank src dst rs rd hs hd hne
          · cases h1
            cases h2
            exact hacq

theorem teller_lock_order_witness :
    (demoBank.WellFormed 4 ∧ (0 : AccountAmount) ≤ 30) ∧
    (((∀ l, ¬ lockLt 4 l l) ∧
      (∀ l1 l2 l3, lockLt 4 l1 l2 → lockLt 4 l2 l3 → lockLt 4 l1 l3) ∧
      (∀ l1 l2, lockLt 4 l1 l2 ∨ l1 = l2 ∨ lockLt 4 l2 l1)) ∧
    (∃ c s, Teller_DoDeposit 4 demoBank 17 30 = some (c, s) ∧
      (acquired s.trace).Pairwise (lockLt 4) ∧
      (∀ r, Account_LookupByNumber 4 demoBank 17 = some r →
        acquired s.trace = [LockId.account r, LockId.branch (AccountNum_GetBranchID 4 17)])) ∧
    (∃ c s, Teller_DoWithdraw 4 demoBank 17 30 = some (c, s) ∧
      (acquired s.trace).Pairwise (lockLt 4) ∧
      (∀ r, Account_LookupByNumber 4 demoBank 17 = some r →
        acquired s.trace = [LockId.account r, LockId.branch (AccountNum_GetBranchID 4 17)])) ∧
    (∃ c s, Teller_DoTransfer 4 demoBank 17 0 30 = some (c, s) ∧
      (acquired s.trace).Pairwise (lockLt 4) ∧
      (∀ rs rd, Account_LookupByNumber 4 demoBank 17 = some rs →
        Account_LookupByNumber 4 demoBank 0 = some rd → (17 : AccountNumber) ≠ 0 →
        acquired s.trace = specTransferLocks 4 17 0 rs rd))) :=
  ⟨⟨by decide, by decide⟩, teller_lock_order 4 demoBank 17 17 0 30 (by decide) (by decide)⟩

/-- C16: on a well-formed ledger, for two distinct accounts `a` and `b` that resolve and
amounts `m, n ≥ 0`, the transfer from `a` to `b` of `m` and the transfer from `b` to
`a` of `n` return having taken the same locks in the same order, inside one branch
and between two branches. -/
theorem Teller_DoTransfer_direction_independent (offsetBits : Nat) (bank : Bank)
    (a b : AccountNumber) (m n : AccountAmount) (ra rb : AccountRef)
    (hwf : bank.WellFormed offsetBits)
    (hra : Account_LookupByNumber offsetBits bank a = some ra)
    (hrb : Account_LookupByNumber offsetBits bank b = some rb)
    (hne : a ≠ b) (hm : 0 ≤ m) (hn : 0 ≤ n) :
    ∃ c1 s1 c2 s2, Teller_DoTransfer offsetBits bank a b m = some (c1, s1) ∧
      Teller_DoTransfer offsetBits bank b a n = some (c2, s2) ∧
      acquired s1.trace = acquired s2.trace ∧
      acquired s1.trace = specTransferLocks offsetBits a b ra rb := by
  obtain ⟨c1, s1, hrun1, _, hacq1, _⟩ :=
    transfer_locks offsetBits bank a b m ra rb hwf hra hrb hne hm
  obtain ⟨c2, s2, hrun2, _, hacq2, _⟩ :=
    transfer_locks offsetBits bank b a n rb ra hwf hrb hra (fun h => hne h.symm) hn
  exact ⟨c1, s1, c2, s2, hrun1, hrun2,
    by rw [hacq1, hacq2, specTransferLocks_symm offsetBits a b ra rb hne], hacq1⟩

theorem Teller_DoTransfer_direction_independent_witness :
    (demoBank.WellFormed 4 ∧ Account_LookupByNumber 4 demoBank 17 = some ⟨1, 1⟩ ∧
      Account_LookupByNumber 4 demoBank 0 = some ⟨0, 0⟩ ∧ (17 : AccountNumber) ≠ 0 ∧
      (0 : AccountAmount) ≤ 30 ∧ (0 : AccountAmount) ≤ 700) ∧
    ∃ c1 s1 c2 s2, Teller_DoTransfer 4 demoBank 17 0 30 = some (c1, s1) ∧
      Teller_DoTransfer 4 demoBank 0 17 700 = some (c2, s2) ∧
      acquired s1.trace = acquired s2.trace ∧
      acquired s1.trace = specTransferLocks 4 17 0 ⟨1, 1⟩ ⟨0, 0⟩ :=
  ⟨⟨by decide, by decide, by decide, by decide, by decide, by decide⟩,
    Teller_DoTransfer_direction_independent 4 demoBank 17 0 30 700 ⟨1, 1⟩ ⟨0, 0⟩ (by decide)
      (by decide) (by decide) (by decide) (by decide) (by decide)⟩

/-! ## Release order -/

/-- C19, the claim as stated fails: on the sample ledger the deposit of 5 into account
17 takes the account lock and then the lock of branch 1, and gives them back in the
same order, account lock first, not in reverse; the transfer of 30 from account 0
to account 16 takes and gives back its four locks in the same order as well. -/
theorem release_order_not_reversed :
    (∃ s, Teller_DoDeposit 4 demoBank 17 5 = some (ERROR_SUCCESS, s) ∧
      acquired s.trace = [LockId.account ⟨1, 1⟩, LockId.branch 1] ∧
      released s.trace = [LockId.account ⟨1, 1⟩, LockId.branch 1] ∧
      released s.trace ≠ (acquired s.trace).reverse) ∧
    (∃ s, Teller_DoTransfer 4 demoBank 0 16 30 = some (ERROR_SUCCESS, s) ∧
      acquired s.trace = [LockId.account ⟨0, 0⟩, LockId.account ⟨1, 0⟩, LockId.branch 0,
        LockId.branch 1] ∧
      released s.trace = [LockId.account ⟨0, 0⟩, LockId.account ⟨1, 0⟩, LockId.branch 0,
        LockId.branch 1] ∧
      released s.trace ≠ (acquired s.trace).reverse) :=
  ⟨⟨_, rfl, by decide, by decide, by decide⟩, ⟨_, rfl, by decide, by decide, by decide⟩⟩

/-- C19, as amended: on a well-formed ledger every call with `amount ≥ 0` returns having
given back its locks in one fixed order, whatever the order in which it took them:
a deposit and a withdrawal the account lock and then the branch lock (the order of
acquisition), a transfer between distinct accounts the lock of the source account,
the lock of the destination account and then, between two branches, the lock of the
branch of the source and the lock of the branch of the destination, on the success
path and on the insufficient-funds path alike. -/
theorem teller_release_order (offsetBits : Nat) (bank : Bank) (a src dst : AccountNumber)
    (amount : AccountAmount) (hwf : bank.WellFormed offsetBits) (ha : 0 ≤ amount) :
    (∃ c s, Teller_DoDeposit offsetBits bank a amount = some (c, s) ∧
      released s.trace = acquired s.trace ∧
      (∀ r, Account_LookupByNumber offsetBits bank a = some r →
        released s.trace =
          [LockId.account r, LockId.branch (AccountNum_GetBranchID offsetBits a)])) ∧
    (∃ c s, Teller_DoWithdraw offsetBits bank a amount = some (c, s) ∧
      released s.trace = acquired s.trace ∧
      (∀ r, Account_LookupByNumber offsetBits bank a = some r →
        released s.trace =
          [LockId.account r, LockId.branch (AccountNum_GetBranchID offsetBits a)])) ∧
    (∃ c s, Teller_DoTransfer offsetBits bank src dst amount = some (c, s) ∧
      (∀ rs rd, Account_LookupByNumber offsetBits bank src = some rs →
        Account_LookupByNumber offsetBits bank dst = some rd → src ≠ dst →
        (c = ERROR_SUCCESS ∨ c = ERROR_INSUFFICIENT_FUNDS) ∧
        released s.trace = transferPosts offsetBits src dst rs rd)) := by
  refine ⟨?_, ?_, ?_⟩
  · obtain ⟨c, s, hrun, h⟩ := deposit_paths offsetBits bank a amount ha
    refine ⟨c, s, hrun, ?_⟩
    rcases h with ⟨hnone, h⟩ | ⟨r, hr, h⟩
    · rw [h]
      exact ⟨rfl, fun r hr => by rw [hnone] at hr; cases hr⟩
    · rw [h]
      refine ⟨rfl, fun r1 hr1 => ?_⟩
      rw [hr] at hr1
      cases hr1
      rfl
  · obtain ⟨c, s, hrun, h⟩ := withdraw_paths offsetBits bank a amount ha
    refine ⟨c, s, hrun, ?_⟩
    rcases h with ⟨hnone, h⟩ | ⟨r, hr, h | h⟩
    · rw [h]
      exact ⟨rfl, fun r hr => by rw [hnone] at hr; cases hr⟩
    · rw [h]
      refine ⟨rfl, fun r1 hr1 => ?_⟩
      rw [hr] at hr1
      cases hr1
      rfl
    · rw [h]
      refine ⟨rfl, fun r1 hr1 => ?_⟩
      rw [hr] at hr1
      cases hr1
      rfl
  · cases hs : Account_LookupByNumber offsetBits bank src with
    | none =>
      exact ⟨_, _, transfer_run_src_unknown offsetBits bank src dst amount hs ha,
        fun rs rd h => by cases h⟩
    | some rs =>
      cases hd : Account_LookupByNumber offsetBits bank dst with
      | none =>
        exact ⟨_, _, transfer_run_dst_unknown offsetBits bank src dst amount hd ha,
          fun rs rd _ h => by cases h⟩
      | some rd =>
        by_cases hne : src = dst
        · subst hne
          exact ⟨_, _, transfer_run_self offsetBits bank src amount rs hs ha,
            fun _ _ _ _ h => absurd rfl h⟩
        · obtain ⟨c, s, hrun, hc, _, hrel⟩ :=
            transfer_locks offsetBits bank src dst amount rs rd hwf hs hd hne ha
          refine ⟨c, s, hrun, fun r1 r2 h1 h2 _ => ?_⟩
          cases h1
          cases h2
          exact ⟨hc, hrel⟩

theorem teller_release_order_witness :
    (demoBank.WellFormed 4 ∧ (0 : AccountAmount) ≤ 30) ∧
    ((∃ c s, Teller_DoDeposit 4 demoBank 17 30 = some (c, s) ∧
      released s.trace = acquired s.trace ∧
      (∀ r, Account_LookupByNumber 4 demoBank 17 = some r →
        released s.trace = [LockId.account r, LockId.branch (AccountNum_GetBranchID 4 17)])) ∧
    (∃ c s, Teller_DoWithdraw 4 demoBank 17 30 = some (c, s) ∧
      released s.trace = acquired s.trace ∧
      (∀ r, Account_LookupByNumber 4 demoBank 17 = some r →
        released s.trace = [LockId.account r, LockId.branch (AccountNum_GetBranchID 4 17)])) ∧
    (∃ c s, Teller_DoTransfer 4 demoBank 17 0 30 = some (c, s) ∧
      (∀ rs rd, Account_LookupByNumber 4 demoBank 17 = some rs →
        Account_LookupByNumber 4 demoBank 0 = some rd → (17 : AccountNumber) ≠ 0 →
        (c = ERROR_SUCCESS ∨ c = ERROR_INSUFFICIENT_FUNDS) ∧
        released s.trace = transferPosts 4 17 0 rs rd))) :=
  ⟨⟨by decide, by decide⟩, teller_release_order 4 demoBank 17 17 0 30 (by decide) (by decide)⟩

/-! ## The log predicates tell logs apart -/

/-- A log that takes a lock and never gives it back is not balanced. -/
theorem balancedLocks_rejects_held_lock (l : LockId) : ¬ BalancedLocks [Event.wait l] := by
  rintro ⟨_, h, _⟩
  simp [acquired_wait, acquired_nil, released_wait, released_nil] at h

/-- A log that writes a balance without the lock of the account, or after giving it
back, is not an access under lock. -/
theorem lockedAccess_rejects_unlocked_write (a : AccountRef) :
    ¬ LockedAccess [Event.writeBalance a] ∧
    ¬ LockedAccess [Event.wait (LockId.account a), Event.post (LockId.account a),
      Event.writeBalance a] := by
  constructor
  · intro h
    have := h [] (Event.writeBalance a) [] rfl
    simp [underLock, holdsLock, acquired_nil] at this
  · intro h
    have := h [Event.wait (LockId.account a), Event.post (LockId.account a)]
      (Event.writeBalance a) [] rfl
    simp [underLock, holdsLock, acquired_wait, acquired_post, acquired_nil, released_wait,
      released_post, released_nil] at this

/-- A log that reads the balance for the funds check before its last `sem_wait` is not
an access under lock. -/
theorem lockedAccess_rejects_early_read (a : AccountRef) (b : BranchID) :
    ¬ LockedAccess [Event.wait (LockId.account a), Event.readBalance a,
      Event.wait (LockId.branch b)] := by
  intro h
  have := h [Event.wait (LockId.account a)] (Event.readBalance a)
    [Event.wait (LockId.branch b)] rfl
  simp [underLock, holdsLock, acquired_wait, acquired_readBalance, acquired_nil,
    released_wait, released_nil] at this

/-! ## Deadlock freedom -/

theorem op_run_goodLog (offsetBits : Nat) (bank : Bank) (op : Op)
    (hwf : bank.WellFormed offsetBits) (ha : 0 ≤ op.amount) :
    ∃ c s, op.run offsetBits bank = some (c, s) ∧
      (acquired s.trace).Pairwise (lockLt offsetBits) ∧ BalancedLocks s.trace := by
  cases op with
  | deposit a amount =>
    simp only [Op.amount] at ha
    obtain ⟨c, s, hrun, h⟩ := deposit_paths offsetBits bank a amount ha
    refine ⟨c, s, hrun, ?_⟩
    rcases h with ⟨_, h⟩ | ⟨r, _, h⟩
    · rw [h]; exact ⟨List.Pairwise.nil, balancedLocks_nil⟩
    · rw [h]
      exact ⟨by simp [acquired_wait, acquired_writeBalance, acquired_writeBranch,
          acquired_post, acquired_nil, lockLt],
        balancedLocks_single r _ [Event.writeBalance r, Event.writeBranch r.branch] rfl rfl⟩
  | withdraw a amount =>
    simp only [Op.amount] at ha
    obtain ⟨c, s, hrun, h⟩ := withdraw_paths offsetBits bank a amount ha
    refine ⟨c, s, hrun, ?_⟩
    rcases h with ⟨_, h⟩ | ⟨r, _, h | h⟩
    · rw [h]; exact ⟨List.Pairwise.nil, balancedLocks_nil⟩
    · rw [h]
      exact ⟨by simp [acquired_wait, acquired_readBalance, acquired_post, acquired_nil,
          lockLt],
        balancedLocks_single r _ [Event.readBalance r] rfl rfl⟩
    · rw [h]
      exact ⟨by simp [acquired_wait, acquired_readBalance, acquired_writeBalance,
          acquired_writeBranch, acquired_post, acquired_nil, lockLt],
        balancedLocks_single r _
          [Event.readBalance r, Event.writeBalance r, Event.writeBranch r.branch] rfl rfl⟩
  | transfer src dst amount =>
    simp only [Op.amount] at ha
    obtain ⟨c, s, hrun, h⟩ := transfer_paths offsetBits bank src dst amount ha
    refine ⟨c, s, hrun, ?_⟩
    rcases h with ⟨_, h⟩ | ⟨rs, rd, hs, hd, hne, hshape⟩
    · rw [h]; exact ⟨List.Pairwise.nil, balancedLocks_nil⟩
    · have hsd : src ≠ dst := by
        rintro rfl
        rw [hs] at hd
        exact hne (Option.some.inj hd)
      constructor
      · obtain ⟨c1, s1, hrun1, _, hacq, _⟩ :=
          transfer_locks offsetBits bank src dst amount rs rd hwf hs hd hsd ha
        have hrun2 : Teller_DoTransfer offsetBits bank src dst amount = some (c, s) := hrun
        rw [hrun1] at hrun2
        have hss : s1 = s := congrArg Prod.snd (Option.some.inj hrun2)
        rw [← hss, hacq]
        exact specTransferLocks_increasing offsetBits bank src dst rs rd hs hd hsd
      · rcases hshape with ⟨_, _, h | h⟩ | ⟨hdiff, h | h⟩
        · rw [h]
          have := balancedLocks_same bank rs rd hne [Event.readBalance rs] rfl rfl
          simpa using this
        · rw [h]
          have := balancedLocks_same bank rs rd hne
            [Event.readBalance rs, Event.writeBalance rs, Event.writeBalance rd] rfl rfl
          simpa using this
        · rw [h]
          have := balancedLocks_cross offsetBits src dst rs rd hne hdiff
            [Event.readBalance rs] rfl rfl
          simpa using this
        · rw [h]
          have := balancedLocks_cross offsetBits src dst rs rd hne hdiff
            [Event.readBalance rs, Event.writeBalance rs, Event.writeBalance rd] rfl rfl
          simpa using this

theorem isTellerLog_good (offsetBits : Nat) (log : List Event)
    (h : IsTellerLog offsetBits log) :
    (acquired log).Pairwise (lockLt offsetBits) ∧
      ∀ l, (released log).count l = (acquired log).count l := by
  obtain ⟨bank, op, c, s, hwf, ha, hrun, hlog⟩ := h
  obtain ⟨c1, s1, hrun1, hpair, hbal⟩ := op_run_goodLog offsetBits bank op hwf ha
  rw [hrun] at hrun1
  have hss : s = s1 := congrArg Prod.snd (Option.some.inj hrun1)
  rw [← hlog, hss]
  exact ⟨hpair, fun l => hbal.2.1.count_eq l⟩

theorem sum_map_updateAt_nat {α : Type} (g : α → Nat) (f : α → α) (n : Nat) (l : List α)
    (x : α) (h : l[n]? = some x) :
    ((updateAt f n l).map g).sum + g x = (l.map g).sum + g (f x) := by
  induction l generalizing n with
  | nil => simp at h
  | cons y ys ih =>
    cases n with
    | zero =>
      simp at h
      subst h
      simp [updateAt]
      omega
    | succ k =>
      simp at h
      have := ih k h
      simp [updateAt]
      omega

theorem exists_lt_of_sum_lt {α : Type} (f g : α → Nat) (l : List α)
    (h : (l.map f).sum < (l.map g).sum) : ∃ x ∈ l, f x < g x := by
  induction l with
  | nil => simp at h
  | cons y ys ih =>
    by_cases hy : f y < g y
    · exact ⟨y, List.mem_cons_self y ys, hy⟩
    · simp only [List.map_cons, List.sum_cons] at h
      obtain ⟨x, hx, hlt⟩ := ih (by omega)
      exact ⟨x, List.mem_cons_of_mem y hx, hlt⟩

theorem stepThread_some (c c1 : Conc) (i : Nat) (h : c.stepThread i = some c1) :
    ∃ t e rest, c.threads[i]? = some t ∧ t.todo = e :: rest ∧ blockedOn c.sem e = false ∧
      c1 = { sem := semAfter c.sem e,
             threads := updateAt (fun _ => { done := t.done ++ [e], todo := rest }) i
               c.threads } := by
  unfold Conc.stepThread at h
  cases ht : c.threads[i]? with
  | none => simp [ht] at h
  | some t =>
    simp only [ht] at h
    cases htodo : t.todo with
    | nil => simp [htodo] at h
    | cons e rest =>
      simp only [htodo] at h
      cases hb : blockedOn c.sem e with
      | true => simp [hb] at h
      | false =>
        simp only [hb] at h
        exact ⟨t, e, rest, rfl, htodo, hb, (Option.some.inj h).symm⟩

theorem remaining_step (c c1 : Conc) (i : Nat) (h : c.stepThread i = some c1) :
    c1.remaining + 1 = c.remaining := by
  obtain ⟨t, e, rest, ht, htodo, _, rfl⟩ := stepThread_some c c1 i h
  have := sum_map_updateAt_nat (fun t : Thread => t.todo.length)
    (fun _ => { done := t.done ++ [e], todo := rest }) i c.threads t ht
  simp only [htodo, List.length_cons] at this
  simp only [Conc.remaining]
  omega

theorem finished_of_remaining_zero (c : Conc) (h : c.remaining = 0) : c.Finished := by
  intro t ht
  unfold Conc.remaining at h
  have hz : ∀ x ∈ c.threads.map (fun t => t.todo.length), x = 0 :=
    List.sum_eq_zero_iff.mp h
  have := hz t.todo.length (List.mem_map.mpr ⟨t, ht, rfl⟩)
  exact List.length_eq_zero.mp this

theorem concInv_start (offsetBits : Nat) (logs : List (List Event))
    (hlogs : ∀ log ∈ logs, IsTellerLog offsetBits log) :
    ConcInv offsetBits (startCalls logs) := by
  constructor
  · intro t ht
    simp only [startCalls, List.mem_map] at ht
    obtain ⟨log, hlog, rfl⟩ := ht
    simpa using isTellerLog_good offsetBits log (hlogs log hlog)
  · intro l
    have hA : ∀ logs : List (List Event),
        ((logs.map (fun log => ({ done := [], todo := log } : Thread))).map
          (fun t => (acquired t.done).count l)).sum = 0 := by
      intro logs
      induction logs with
      | nil => rfl
      | cons x xs ih => simpa [acquired_nil] using ih
    have hR : ∀ logs : List (List Event),
        ((logs.map (fun log => ({ done := [], todo := log } : Thread))).map
          (fun t => (released t.done).count l)).sum = 0 := by
      intro logs
      induction logs with
      | nil => rfl
      | cons x xs ih => simpa [released_nil] using ih
    simp only [startCalls]
    rw [hA, hR]

theorem count_acquired_snoc (done : List Event) (e : Event) (l : LockId) :
    (acquired (done ++ [e])).count l =
      (acquired done).count l + (if e = Event.wait l then 1 else 0) := by
  rw [acquired_append, List.count_append]
  cases e with
  | wait l0 =>
    by_cases h : l0 = l
    · subst h; simp [acquired_wait, acquired_nil]
    · have h1 : ¬ l = l0 := fun e => h e.symm
      simp [acquired_wait, acquired_nil, h, h1, List.count_cons]
  | post l0 => simp [acquired_post, acquired_nil]
  | readBalance a => simp [acquired_readBalance, acquired_nil]
  | writeBalance a => simp [acquired_writeBalance, acquired_nil]
  | writeBranch b => simp [acquired_writeBranch, acquired_nil]

theorem count_released_snoc (done : List Event) (e : Event) (l : LockId) :
    (released (done ++ [e])).count l =
      (released done).count l + (if e = Event.post l then 1 else 0) := by
  rw [released_append, List.count_append]
  cases e with
  | wait l0 => simp [released_wait, released_nil]
  | post l0 =>
    by_cases h : l0 = l
    · subst h; simp [released_post, released_nil]
    · have h1 : ¬ l = l0 := fun e => h e.symm
      simp [released_post, released_nil, h, h1, List.count_cons]
  | readBalance a => simp [released_readBalance, released_nil]
  | writeBalance a => simp [released_writeBalance, released_nil]
  | writeBranch b => simp [released_writeBranch, released_nil]

theorem concInv_step (offsetBits : Nat) (c c1 : Conc) (i : Nat)
    (hinv : ConcInv offsetBits c) (h : c.stepThread i = some c1) : ConcInv offsetBits c1 := by
  obtain ⟨t, e, rest, ht, htodo, hb, rfl⟩ := stepThread_some c c1 i h
  obtain ⟨hlogs, hsem⟩ := hinv
  constructor
  · intro u hu
    rcases mem_updateAt _ _ _ _ hu with hu1 | ⟨x, _, rfl⟩
    · exact hlogs u hu1
    · have := hlogs t (List.getElem?_mem ht)
      rw [htodo] at this
      simpa using this
  · intro l
    have hA := sum_map_updateAt_nat (fun t : Thread => (acquired t.done).count l)
      (fun _ => { done := t.done ++ [e], todo := rest }) i c.threads t ht
    have hR := sum_map_updateAt_nat (fun t : Thread => (released t.done).count l)
      (fun _ => { done := t.done ++ [e], todo := rest }) i c.threads t ht
    simp only [count_acquired_snoc, count_released_snoc] at hA hR
    have hl := hsem l
    cases e with
    | wait l0 =>
      simp only [blockedOn, beq_eq_false_iff_ne, ne_eq] at hb
      by_cases h0 : l0 = l
      · subst h0
        simp only [semAfter, if_true] at hA hR ⊢
        simp at hA hR
        omega
      · have h1 : ¬ l = l0 := fun h => h0 h.symm
        simp only [semAfter, h1, if_false] at hA hR ⊢
        simp [h0] at hA hR
        omega
    | post l0 =>
      by_cases h0 : l0 = l
      · subst h0
        simp only [semAfter, if_true] at hA hR ⊢
        simp at hA hR
        omega
      · have h1 : ¬ l = l0 := fun h => h0 h.symm
        simp only [semAfter, h1, if_false] at hA hR ⊢
        simp [h0] at hA hR
        omega
    | readBalance a =>
      simp [semAfter] at hA hR ⊢
      omega
    | writeBalance a =>
      simp [semAfter] at hA hR ⊢
      omega
    | writeBranch b =>
      simp [semAfter] at hA hR ⊢
      omega

theorem concInv_reach (offsetBits : Nat) (n : Nat) (c c1 : Conc) (hreach : ReachIn n c c1)
    (hinv : ConcInv offsetBits c) : ConcInv offsetBits c1 := by
  induction hreach with
  | refl => exact hinv
  | step _ hstep ih =>
    obtain ⟨i, hi⟩ := hstep
    exact concInv_step offsetBits _ _ i (ih hinv) hi

theorem remaining_reach (n : Nat) (c c1 : Conc) (hreach : ReachIn n c c1) :
    n + c1.remaining = c.remaining := by
  induction hreach with
  | refl => simp
  | step _ hstep ih =>
    obtain ⟨i, hi⟩ := hstep
    have := remaining_step _ _ i hi
    omega

theorem exists_max_lock (offsetBits : Nat) (L : List LockId) (h : L ≠ []) :
    ∃ m ∈ L, ∀ x ∈ L, ¬ lockLt offsetBits m x := by
  induction L with
  | nil => exact absurd rfl h
  | cons y ys ih =>
    by_cases hys : ys = []
    · subst hys
      refine ⟨y, List.mem_cons_self y [], fun x hx => ?_⟩
      simp only [List.mem_singleton] at hx
      subst hx
      exact lockLt_irrefl offsetBits x
    · obtain ⟨m, hm, hmax⟩ := ih hys
      by_cases hlt : lockLt offsetBits m y
      · refine ⟨y, List.mem_cons_self y ys, fun x hx => ?_⟩
        rcases List.mem_cons.mp hx with rfl | hx
        · exact lockLt_irrefl offsetBits x
        · exact fun hyx => hmax x hx (lockLt_trans offsetBits m y x hlt hyx)
      · refine ⟨m, List.mem_cons_of_mem y hm, fun x hx => ?_⟩
        rcases List.mem_cons.mp hx with rfl | hx
        · exact hlt
        · exact hmax x hx

theorem awaited_some (t : Thread) (l : LockId) (h : t.awaited = some l) :
    ∃ rest, t.todo = Event.wait l :: rest := by
  unfold Thread.awaited at h
  cases htodo : t.todo with
  | nil => simp [htodo] at h
  | cons e rest =>
    cases e with
    | wait l0 =>
      simp only [htodo, Option.some.injEq] at h
      exact ⟨rest, by rw [h]⟩
    | post l0 => simp [htodo] at h
    | readBalance a => simp [htodo] at h
    | writeBalance a => simp [htodo] at h
    | writeBranch b => simp [htodo] at h

theorem held_lt_awaited (offsetBits : Nat) (u : Thread) (l l1 : LockId)
    (hpair : (acquired (u.done ++ u.todo)).Pairwise (lockLt offsetBits))
    (hold : u.holds l) (haw : u.awaited = some l1) : lockLt offsetBits l l1 := by
  obtain ⟨rest, hrest⟩ := awaited_some u l1 haw
  rw [hrest, acquired_append, acquired_wait] at hpair
  have hmem : l ∈ acquired u.done :=
    List.count_pos_iff.mp (Nat.lt_of_le_of_lt (Nat.zero_le _) hold)
  exact (List.pairwise_append.mp hpair).2.2 l hmem l1 (List.mem_cons_self l1 _)

theorem no_circular_wait (offsetBits : Nat) (c : Conc) (hinv : ConcInv offsetBits c) :
    ¬ CircularWait c := by
  rintro ⟨ws, hne, hsub, hw⟩
  have hL : ws.filterMap Thread.awaited ≠ [] := by
    cases ws with
    | nil => exact absurd rfl hne
    | cons t ts =>
      obtain ⟨l, hl, _⟩ := hw t (List.mem_cons_self t ts)
      intro hnil
      have : l ∈ (t :: ts).filterMap Thread.awaited :=
        List.mem_filterMap.mpr ⟨t, List.mem_cons_self t ts, hl⟩
      rw [hnil] at this
      cases this
  obtain ⟨m, hm, hmax⟩ := exists_max_lock offsetBits _ hL
  obtain ⟨t, ht, htm⟩ := List.mem_filterMap.mp hm
  obtain ⟨l, hl, u, hu, hold⟩ := hw t ht
  rw [htm] at hl
  cases hl
  obtain ⟨l1, hl1, _⟩ := hw u hu
  have hlt := held_lt_awaited offsetBits u m l1 (hinv.1 u (hsub u hu)).1 hold hl1
  exact hmax l1 (List.mem_filterMap.mpr ⟨u, hu, hl1⟩) hlt

theorem stuck_thread (c : Conc) (hstuck : ∀ i, c.stepThread i = none) (t : Thread)
    (ht : t ∈ c.threads) (htodo : t.todo ≠ []) :
    ∃ l, t.awaited = some l ∧ c.sem l = 0 := by
  obtain ⟨i, hi⟩ := List.getElem?_of_mem ht
  have h := hstuck i
  unfold Conc.stepThread at h
  simp only [hi] at h
  cases hto : t.todo with
  | nil => exact absurd hto htodo
  | cons e rest =>
    simp only [hto] at h
    cases e with
    | wait l =>
      refine ⟨l, by simp [Thread.awaited, hto], ?_⟩
      by_contra hne
      simp [blockedOn, hne] at h
    | post l => simp [blockedOn] at h
    | readBalance a => simp [blockedOn] at h
    | writeBalance a => simp [blockedOn] at h
    | writeBranch b => simp [blockedOn] at h

theorem conc_progress (offsetBits : Nat) (c : Conc) (hinv : ConcInv offsetBits c)
    (hnf : ¬ c.Finished) : ∃ c1, Step c c1 := by
  by_contra hno
  have hstuck : ∀ i, c.stepThread i = none := by
    intro i
    cases h : c.stepThread i with
    | none => rfl
    | some c1 => exact absurd ⟨c1, i, h⟩ hno
  apply no_circular_wait offsetBits c hinv
  refine ⟨c.threads.filter (fun t => decide (t.todo ≠ [])), ?_, ?_, ?_⟩
  · intro hnil
    apply hnf
    intro t ht
    by_contra htodo
    have : t ∈ c.threads.filter (fun t => decide (t.todo ≠ [])) :=
      List.mem_filter.mpr ⟨ht, by simpa using htodo⟩
    rw [hnil] at this
    cases this
  · intro t ht
    exact (List.mem_filter.mp ht).1
  · intro t ht
    obtain ⟨ht1, ht2⟩ := List.mem_filter.mp ht
    obtain ⟨l, hl, hsem⟩ := stuck_thread c hstuck t ht1 (by simpa using ht2)
    refine ⟨l, hl, ?_⟩
    have hcount := hinv.2 l
    rw [hsem] at hcount
    obtain ⟨u, hu, hold⟩ := exists_lt_of_sum_lt
      (fun t : Thread => (released t.done).count l)
      (fun t : Thread => (acquired t.done).count l) c.threads (by omega)
    refine ⟨u, List.mem_filter.mpr ⟨hu, ?_⟩, hold⟩
    simp only [ne_eq, decide_not, Bool.not_eq_true', decide_eq_false_iff_not]
    intro hdone
    have hbal := (hinv.1 u hu).2 l
    rw [hdone, List.append_nil] at hbal
    have : (released u.done).count l < (acquired u.done).count l := hold
    omega

theorem demoLogs_teller : ∀ log ∈ demoLogs, IsTellerLog 4 log := by
  intro log hlog
  simp only [demoLogs, List.mem_cons, List.mem_singleton, List.not_mem_nil, or_false] at hlog
  rcases hlog with rfl | rfl | rfl | rfl
  · exact ⟨demoBank, Op.transfer 0 16 30, ERROR_SUCCESS, _, by decide, by decide, rfl, rfl⟩
  · exact ⟨demoBank, Op.transfer 16 0 30, ERROR_SUCCESS, _, by decide, by decide, rfl, rfl⟩
  · exact ⟨demoBank, Op.transfer 17 17 30, ERROR_SUCCESS, _, by decide, by decide, rfl, rfl⟩
  · exact ⟨demoBank, Op.deposit 1 5, ERROR_SUCCESS, _, by decide, by decide, rfl, rfl⟩

/-- C14: any number of teller calls with `amount ≥ 0` (deposits, withdrawals, transfers
with any pair of accounts, reversed pairs and self-transfers included) are started
together on threads that share the semaphores, each call executing the events of its
log. Under every interleaving, whatever state is reached after `n` steps: no group of
threads waits in a circle; unless every call has returned, some thread can execute
its next event; and `n` plus the number of events still to execute is the number at
the start, so that no interleaving is longer than that number and one of that length
has every call returned. -/
theorem teller_calls_deadlock_free (offsetBits : Nat) (logs : List (List Event))
    (hlogs : ∀ log ∈ logs, IsTellerLog offsetBits log) :
    ∀ n c, ReachIn n (startCalls logs) c →
      ¬ CircularWait c ∧ (¬ c.Finished → ∃ c1, Step c c1) ∧
      n + c.remaining = (startCalls logs).remaining ∧
      (n = (startCalls logs).remaining → c.Finished) := by
  intro n c hreach
  have hinv := concInv_reach offsetBits n _ c hreach (concInv_start offsetBits logs hlogs)
  have hrem := remaining_reach n _ c hreach
  refine ⟨no_circular_wait offsetBits c hinv, conc_progress offsetBits c hinv, hrem,
    fun hn => finished_of_remaining_zero c (by omega)⟩

theorem teller_calls_deadlock_free_witness :
    (∀ log ∈ demoLogs, IsTellerLog 4 log) ∧
    ∀ n c, ReachIn n (startCalls demoLogs) c →
      ¬ CircularWait c ∧ (¬ c.Finished → ∃ c1, Step c c1) ∧
      n + c.remaining = (startCalls demoLogs).remaining ∧
      (n = (startCalls demoLogs).remaining → c.Finished) :=
  ⟨demoLogs_teller, teller_calls_deadlock_free 4 demoLogs demoLogs_teller⟩

/-- The model of threads does deadlock on logs that are not teller logs: two calls that
take the same two locks in opposite orders reach, after one step each, a state in
which not every call has returned, no thread can execute, and both wait in a
circle. -/
theorem opposite_lock_orders_deadlock (a b : LockId) (hab : a ≠ b) :
    ∃ c, ReachIn 2
        (startCalls [[Event.wait a, Event.wait b, Event.post a, Event.post b],
          [Event.wait b, Event.wait a, Event.post b, Event.post a]]) c ∧
      ¬ c.Finished ∧ (∀ c1, ¬ Step c c1) ∧ CircularWait c := by
  have hba : b ≠ a := fun h => hab h.symm
  let t0 : Thread := { done := [Event.wait a], todo := [Event.wait b, Event.post a, Event.post b] }
  let t1 : Thread := { done := [Event.wait b], todo := [Event.wait a, Event.post b, Event.post a] }
  refine ⟨{ sem := semAfter (semAfter (fun _ => 1) (Event.wait a)) (Event.wait b),
            threads := [t0, t1] }, ?_, ?_, ?_, ?_⟩
  · refine ReachIn.step (ReachIn.step (ReachIn.refl _) ⟨0, rfl⟩) ⟨1, ?_⟩
    simp [Conc.stepThread, startCalls, blockedOn, semAfter, updateAt, hba, t0, t1]
  · intro hfin
    have := hfin t0 (List.mem_cons_self _ _)
    simp [t0] at this
  · rintro c1 ⟨i, hi⟩
    rcases i with _ | _ | i
    · simp [Conc.stepThread, blockedOn, semAfter, hba, t0] at hi
    · simp [Conc.stepThread, blockedOn, semAfter, hab, t1] at hi
    · simp [Conc.stepThread] at hi
  · refine ⟨[t0, t1], by simp, fun t ht => ht, ?_⟩
    intro t ht
    simp only [List.mem_cons, List.mem_singleton, List.not_mem_nil, or_false] at ht
    rcases ht with rfl | rfl
    · refine ⟨b, rfl, t1, by simp, ?_⟩
      simp [Thread.holds, t1, acquired_wait, acquired_nil, released_wait, released_nil]
    · refine ⟨a, rfl, t0, by simp, ?_⟩
      simp [Thread.holds, t0, acquired_wait, acquired_nil, released_wait, released_nil]

theorem reachIn_head (n : Nat) (c c1 c2 : Conc) (hstep : Step c c1)
    (hreach : ReachIn n c1 c2) : ReachIn (n + 1) c c2 := by
  induction hreach with
  | refl => exact ReachIn.step (ReachIn.refl c) hstep
  | step _ hlast ih => exact ReachIn.step (ih hstep) hlast

theorem reachIn_of_runSchedule (sched : List Nat) :
    ∀ c c1, runSchedule c sched = some c1 → ReachIn sched.length c c1 := by
  induction sched with
  | nil =>
    intro c c1 h
    simp only [runSchedule, Option.some.injEq] at h
    subst h
    exact ReachIn.refl c
  | cons i rest ih =>
    intro c c1 h
    simp only [runSchedule] at h
    cases hstep : c.stepThread i with
    | none => simp [hstep] at h
    | some c2 =>
      simp only [hstep] at h
      exact reachIn_head rest.length c c2 c1 ⟨i, hstep⟩ (ih c2 c1 h)

/-- Two interleavings of the four sample calls: once the transfer from account 0 to
account 16 holds the lock of account 0, the reversed transfer is suspended on it; and
the schedule below, in which the calls overlap, is an interleaving of 28 steps after
which every call has returned. -/
theorem demoLogs_interleavings :
    runSchedule (startCalls demoLogs) [0, 1] = none ∧
    ∃ c, ReachIn 28 (startCalls demoLogs) c ∧ c.Finished ∧
      runSchedule (startCalls demoLogs)
        [3, 0, 0, 0, 0, 0, 0, 0, 0, 1, 0, 0, 3, 0, 3, 3, 3, 3, 1, 1, 1, 1, 1, 1, 1, 1, 1, 1] =
          some c := by
  refine ⟨rfl, ?_⟩
  have h : ∃ c, runSchedule (startCalls demoLogs)
      [3, 0, 0, 0, 0, 0, 0, 0, 0, 1, 0, 0, 3, 0, 3, 3, 3, 3, 1, 1, 1, 1, 1, 1, 1, 1, 1, 1] =
        some c ∧ c.Finished := ⟨_, rfl, by decide⟩
  obtain ⟨c, hrun, hfin⟩ := h
  exact ⟨c, reachIn_of_runSchedule _ _ c hrun, hfin, hrun⟩

end BankDriver
